import Mathlib

set_option linter.unusedVariables false

/-!
# cstracer: a shallow embedding of the trace accumulator, encoder and window

The definitions below follow `src/cstracer/ct_main.c` (built with
`TRACE_MEM_VALUES`, 64-bit little-endian target).  Machine integers are natural
numbers; every place where the C code narrows or wraps a value carries the
explicit modulus.  Arrays of four slots are functions on `Fin 4`, the 64-byte
snapshots are functions on `Fin 64`.
-/

namespace cstracer

/-! ## Data model -/

/-- The record `trace_instr_format_t` (ct_main.c, lines 175-203). -/
structure trace_instr_format_t where
  encode_key : Nat
  ip : Nat
  is_branch : Nat
  branch_taken : Nat
  destination_registers : Fin 4 → Nat
  source_registers : Fin 4 → Nat
  destination_memory : Fin 4 → Nat
  source_memory : Fin 4 → Nat
  d_valid : Fin 4 → Nat
  d_value : Fin 4 → Fin 64 → Nat
  s_valid : Fin 4 → Nat
  s_value : Fin 4 → Fin 64 → Nat

/-- Every field of a record lies in the range of its C type. -/
def well_typed (r : trace_instr_format_t) : Prop :=
  r.encode_key < 2 ^ 64 ∧ r.ip < 2 ^ 64 ∧ r.is_branch < 2 ^ 32 ∧ r.branch_taken < 2 ^ 32 ∧
  (∀ i, r.destination_registers i < 256) ∧ (∀ i, r.source_registers i < 256) ∧
  (∀ i, r.destination_memory i < 2 ^ 64) ∧ (∀ i, r.source_memory i < 2 ^ 64) ∧
  (∀ i, r.d_valid i < 256) ∧ (∀ i j, r.d_value i j < 256) ∧
  (∀ i, r.s_valid i < 256) ∧ (∀ i j, r.s_value i j < 256)

/-- Progress lines printed on the diagnostic channel by `inc_inst` and `ct_fini`. -/
inductive Notice where
  | skipped (n : Nat)
  | starting
  | completed
  | instructions (n : Nat)
  | halting
  | bye
  | program_completed
  deriving DecidableEq, Repr

/-- The static variables of ct_main.c together with the observable effects:
`writes` lists the buffers handed to `VG_(write)(fd, ..)` in order, `closes`
counts the calls of `VG_(close)(fd)`, `exited` records `VG_(exit)(0)`. -/
structure State where
  tracing : Bool
  tracing_done : Bool
  instructions : Nat
  inst : trace_instr_format_t
  writes : List (List Nat)
  closes : Nat
  notices : List Notice
  exited : Bool

/-- The command line options `--skip`, `--trace` and `--exit-after`
(lines 110-121). -/
structure Options where
  skip : Nat
  trace_instrs : Nat
  exit_after_tracing : Bool

/-- The zero-initialised static record `inst` (line 205). -/
def inst_zero : trace_instr_format_t :=
  { encode_key := 0, ip := 0, is_branch := 0, branch_taken := 0,
    destination_registers := fun _ => 0, source_registers := fun _ => 0,
    destination_memory := fun _ => 0, source_memory := fun _ => 0,
    d_valid := fun _ => 0, d_value := fun _ _ => 0,
    s_valid := fun _ => 0, s_value := fun _ _ => 0 }

/-- The state at program start: `tracing = False`, `tracing_done = False`,
`instructions = 0` (lines 157-161), nothing written, nothing closed. -/
def State.initial : State :=
  { tracing := false, tracing_done := false, instructions := 0, inst := inst_zero,
    writes := [], closes := 0, notices := [], exited := false }

/-- The loop range `0, 1, 2, 3` of every four-slot loop. -/
def slots : List (Fin 4) := [0, 1, 2, 3]

/-! ## The encoder `write_inst_to_file` -/

/-- The `n` low bytes of `v`, least significant first: the object
representation of an `n`-byte unsigned integer on the little-endian target. -/
def le_bytes : Nat → Nat → List Nat
  | 0, _ => []
  | n + 1, v => v % 256 :: le_bytes n (v / 256)

/-- Copy `VG_(memcpy)(buffer + index, src, |src|)` into a byte buffer. -/
def memcpy (buffer : List Nat) (index : Nat) (src : List Nat) : List Nat :=
  buffer.take index ++ src ++ buffer.drop (index + src.length)

/-- The stack array `uint8_t buffer[1152]` on entry.  Its contents are
indeterminate in C; every byte that is written out is overwritten first. -/
def stack_buffer : List Nat := List.replicate 1152 0

/-- The first 32 bytes of the object representation of the record: the fields
`encode_key`, `ip`, `is_branch`, `branch_taken`, `destination_registers` and
`source_registers` are laid out without padding. -/
def header_bytes (inst : trace_instr_format_t) : List Nat :=
  le_bytes 8 inst.encode_key ++ le_bytes 8 inst.ip ++ le_bytes 4 inst.is_branch ++
    le_bytes 4 inst.branch_taken ++ List.ofFn inst.destination_registers ++
    List.ofFn inst.source_registers

/-- Local variables of `write_inst_to_file`: the stack buffer, the write
position `index` (a `uint32_t`) and the key under construction. -/
structure Cursor where
  buffer : List Nat
  index : Nat
  encode_key : Nat

/-- Body of the loop over destination slots (lines 526-534). -/
def write_destination (inst : trace_instr_format_t) (c : Cursor) (i : Fin 4) : Cursor :=
  if inst.d_valid i ≠ 0 then
    let b1 := memcpy c.buffer c.index (le_bytes 8 (inst.destination_memory i))
    let i1 := (c.index + 8) % 2 ^ 32
    let b2 := memcpy b1 i1 (List.ofFn (inst.d_value i))
    let i2 := (i1 + 64) % 2 ^ 32
    { buffer := b2, index := i2,
      encode_key := (c.encode_key + (0xf <<< (32 + 4 * i.val))) % 2 ^ 64 }
  else c

/-- Body of the loop over source slots (lines 535-543). -/
def write_source (inst : trace_instr_format_t) (c : Cursor) (i : Fin 4) : Cursor :=
  if inst.s_valid i ≠ 0 then
    let b1 := memcpy c.buffer c.index (le_bytes 8 (inst.source_memory i))
    let i1 := (c.index + 8) % 2 ^ 32
    let b2 := memcpy b1 i1 (List.ofFn (inst.s_value i))
    let i2 := (i1 + 64) % 2 ^ 32
    { buffer := b2, index := i2,
      encode_key := (c.encode_key + (0xf <<< (48 + 4 * i.val))) % 2 ^ 64 }
  else c

/-- The buffer and key of `write_inst_to_file` after both loops and the final
key computation (lines 521-545), for a record whose `encode_key` was reset. -/
def fill_buffer (inst : trace_instr_format_t) : Cursor :=
  let c0 : Cursor :=
    { buffer := memcpy stack_buffer 0 (header_bytes inst), index := 32,
      encode_key := inst.encode_key }
  let c1 := slots.foldl (write_destination inst) c0
  let c2 := slots.foldl (write_source inst) c1
  let key := (((c2.index + 2 ^ 32 - 8) % 2 ^ 32) &&& 0xffffffff) ||| c2.encode_key
  { buffer := memcpy c2.buffer 0 (le_bytes 8 key), index := c2.index, encode_key := key }

/-- The function `write_inst_to_file` (lines 516-549): nothing happens unless
capture is active and `inst.ip` is nonzero; otherwise the key field of the
record is recomputed and `index` bytes of the buffer are written. -/
def write_inst_to_file (s : State) : State :=
  if !s.tracing then s
  else if s.inst.ip = 0 then s
  else
    let c := fill_buffer { s.inst with encode_key := 0 }
    { s with
      inst := { s.inst with encode_key := c.encode_key },
      writes := s.writes ++ [c.buffer.take c.index] }

/-! ## The wire format as the specification words it -/

/-- Value of a little-endian byte string. -/
def from_le : List Nat → Nat
  | [] => 0
  | b :: bs => b + 256 * from_le bs

/-- Wire image of one memory slot: nothing when the slot is not valid, else
the 8-byte address followed by the 64-byte snapshot. -/
def slot_bytes (valid addr : Nat) (value : Fin 64 → Nat) : List Nat :=
  if valid ≠ 0 then le_bytes 8 addr ++ List.ofFn value else []

/-- Number of valid destination slots plus number of valid source slots. -/
def valid_count (inst : trace_instr_format_t) : Nat :=
  slots.countP (fun i => decide (inst.d_valid i ≠ 0)) +
    slots.countP (fun i => decide (inst.s_valid i ≠ 0))

/-- The nibble the key carries for a slot: `0xF` when valid, else `0`. -/
def nibble (valid : Nat) : Nat := if valid ≠ 0 then 0xF else 0

/-- The reference value of `encode_key` for a record emitted as `L` bytes: low
32 bits `L - 8`, nibble `i` of bits 32-47 for destination slot `i`, nibble `i`
of bits 48-63 for source slot `i`. -/
def reference_key (inst : trace_instr_format_t) (L : Nat) : Nat :=
  (L - 8) +
    (nibble (inst.d_valid 0) * 2 ^ 32 + nibble (inst.d_valid 1) * 2 ^ 36 +
      nibble (inst.d_valid 2) * 2 ^ 40 + nibble (inst.d_valid 3) * 2 ^ 44) +
    (nibble (inst.s_valid 0) * 2 ^ 48 + nibble (inst.s_valid 1) * 2 ^ 52 +
      nibble (inst.s_valid 2) * 2 ^ 56 + nibble (inst.s_valid 3) * 2 ^ 60)

/-- The record layout of the specification, given the key: key, `ip`,
`is_branch`, `branch_taken`, destination register ids, source register ids,
then the valid destination slots and the valid source slots in ascending order. -/
def record_layout (key : Nat) (inst : trace_instr_format_t) : List Nat :=
  le_bytes 8 key ++ le_bytes 8 inst.ip ++ le_bytes 4 inst.is_branch ++
    le_bytes 4 inst.branch_taken ++
    [inst.destination_registers 0, inst.destination_registers 1,
      inst.destination_registers 2, inst.destination_registers 3] ++
    [inst.source_registers 0, inst.source_registers 1,
      inst.source_registers 2, inst.source_registers 3] ++
    (slot_bytes (inst.d_valid 0) (inst.destination_memory 0) (inst.d_value 0) ++
      slot_bytes (inst.d_valid 1) (inst.destination_memory 1) (inst.d_value 1) ++
      slot_bytes (inst.d_valid 2) (inst.destination_memory 2) (inst.d_value 2) ++
      slot_bytes (inst.d_valid 3) (inst.destination_memory 3) (inst.d_value 3)) ++
    (slot_bytes (inst.s_valid 0) (inst.source_memory 0) (inst.s_value 0) ++
      slot_bytes (inst.s_valid 1) (inst.source_memory 1) (inst.s_value 1) ++
      slot_bytes (inst.s_valid 2) (inst.source_memory 2) (inst.s_value 2) ++
      slot_bytes (inst.s_valid 3) (inst.source_memory 3) (inst.s_value 3))

/-! ## A reader of the wire format

The repository only writes traces.  The reader below is the one the
specification describes: it reads the key first, takes the record length from
the low 32 bits and the presence of each memory slot from its nibble. -/

/-- A memory slot as read back from the wire. -/
structure Slot where
  addr : Nat
  valid : Nat
  value : Fin 64 → Nat

/-- The slot that is absent from the wire: zero address, not valid, zero snapshot. -/
def Slot.absent : Slot := { addr := 0, valid := 0, value := fun _ => 0 }

/-- Does the key announce the slot whose nibble starts at bit `bit`? -/
def key_present (key bit : Nat) : Bool := decide ((key >>> bit) % 16 = 0xF)

/-- Read one slot from the front of `bs` when the key announces it: 8-byte
address and 64-byte snapshot; the rest of the input is returned. -/
def read_slot (present : Bool) (bs : List Nat) : Option (Slot × List Nat) :=
  if present then
    if bs.length < 72 then none
    else some ({ addr := from_le (bs.take 8), valid := 1,
                 value := fun j => ((bs.drop 8).take 64).getD j.val 0 }, bs.drop 72)
  else some (Slot.absent, bs)

/-- The four-element array with the given entries. -/
def pick4 {α : Type} (a b c d : α) : Fin 4 → α
  | 0 => a
  | 1 => b
  | 2 => c
  | 3 => d

/-- The reader: key, length check against the key, fixed fields, then the
announced destination slots and the announced source slots. -/
def decode_record (bs : List Nat) : Option trace_instr_format_t :=
  let key := from_le (bs.take 8)
  if bs.length ≠ key % 2 ^ 32 + 8 then none
  else if bs.length < 32 then none
  else do
    let r1 := bs.drop 8
    let r2 := r1.drop 8
    let r3 := r2.drop 4
    let r4 := r3.drop 4
    let r5 := r4.drop 4
    let r6 := r5.drop 4
    let (d0, r7) ← read_slot (key_present key 32) r6
    let (d1, r8) ← read_slot (key_present key 36) r7
    let (d2, r9) ← read_slot (key_present key 40) r8
    let (d3, r10) ← read_slot (key_present key 44) r9
    let (s0, r11) ← read_slot (key_present key 48) r10
    let (s1, r12) ← read_slot (key_present key 52) r11
    let (s2, r13) ← read_slot (key_present key 56) r12
    let (s3, r14) ← read_slot (key_present key 60) r13
    if r14 ≠ [] then none
    else
      let d := pick4 d0 d1 d2 d3
      let s := pick4 s0 s1 s2 s3
      some
        { encode_key := key, ip := from_le (r1.take 8), is_branch := from_le (r2.take 4),
          branch_taken := from_le (r3.take 4),
          destination_registers := fun i => (r4.take 4).getD i.val 0,
          source_registers := fun i => (r5.take 4).getD i.val 0,
          destination_memory := fun i => (d i).addr, source_memory := fun i => (s i).addr,
          d_valid := fun i => (d i).valid, d_value := fun i => (d i).value,
          s_valid := fun i => (s i).valid, s_value := fun i => (s i).value }

/-- Records with 0 to 4 populated memory slots per side: a populated slot is
valid (flag 1) and carries its address and snapshot, an unpopulated slot is
not valid and entirely zero. -/
def populated (r : trace_instr_format_t) : Prop :=
  (∀ i, r.d_valid i = 1 ∨
    (r.d_valid i = 0 ∧ r.destination_memory i = 0 ∧ ∀ j, r.d_value i j = 0)) ∧
  (∀ i, r.s_valid i = 1 ∨
    (r.s_valid i = 0 ∧ r.source_memory i = 0 ∧ ∀ j, r.s_value i j = 0))

/-! ## Auxiliary definitions for the proofs about the encoder -/

/-- One loop iteration, for either loop: `bit` is the position of the nibble. -/
def put_slot (v a : Nat) (val : Fin 64 → Nat) (bit : Nat) (c : Cursor) : Cursor :=
  if v ≠ 0 then
    let b1 := memcpy c.buffer c.index (le_bytes 8 a)
    let i1 := (c.index + 8) % 2 ^ 32
    let b2 := memcpy b1 i1 (List.ofFn val)
    let i2 := (i1 + 64) % 2 ^ 32
    { buffer := b2, index := i2, encode_key := (c.encode_key + (0xf <<< bit)) % 2 ^ 64 }
  else c

/-- Loop invariant: the first `index` bytes of the 1152-byte buffer are
`bytes`, and the key accumulated so far is `key`, below bit `bit`. -/
def Filled (c : Cursor) (bytes : List Nat) (key bit : Nat) : Prop :=
  c.buffer.length = 1152 ∧ c.index = bytes.length ∧ c.buffer.take c.index = bytes ∧
    c.encode_key = key ∧ key < 2 ^ bit

/-- The bytes of the buffer before the key is patched in: the header with a
zero key, then the valid slots. -/
def raw_layout (inst : trace_instr_format_t) : List Nat :=
  header_bytes inst ++
    slot_bytes (inst.d_valid 0) (inst.destination_memory 0) (inst.d_value 0) ++
    slot_bytes (inst.d_valid 1) (inst.destination_memory 1) (inst.d_value 1) ++
    slot_bytes (inst.d_valid 2) (inst.destination_memory 2) (inst.d_value 2) ++
    slot_bytes (inst.d_valid 3) (inst.destination_memory 3) (inst.d_value 3) ++
    slot_bytes (inst.s_valid 0) (inst.source_memory 0) (inst.s_value 0) ++
    slot_bytes (inst.s_valid 1) (inst.source_memory 1) (inst.s_value 1) ++
    slot_bytes (inst.s_valid 2) (inst.source_memory 2) (inst.s_value 2) ++
    slot_bytes (inst.s_valid 3) (inst.source_memory 3) (inst.s_value 3)

/-- The key accumulated by the two loops. -/
def raw_key (inst : trace_instr_format_t) : Nat :=
  0 + nibble (inst.d_valid 0) * 2 ^ 32 + nibble (inst.d_valid 1) * 2 ^ 36 +
    nibble (inst.d_valid 2) * 2 ^ 40 + nibble (inst.d_valid 3) * 2 ^ 44 +
    nibble (inst.s_valid 0) * 2 ^ 48 + nibble (inst.s_valid 1) * 2 ^ 52 +
    nibble (inst.s_valid 2) * 2 ^ 56 + nibble (inst.s_valid 3) * 2 ^ 60

/-- The cursor of `write_inst_to_file` after both loops. -/
def loops (inst : trace_instr_format_t) : Cursor :=
  slots.foldl (write_source inst) (slots.foldl (write_destination inst)
    { buffer := memcpy stack_buffer 0 (header_bytes inst), index := 32,
      encode_key := inst.encode_key })

/-- A sample record: one populated destination slot, one populated source slot. -/
def sample_record : trace_instr_format_t :=
  { inst_zero with
    ip := 0x1000, is_branch := 1, branch_taken := 1,
    destination_registers := pick4 26 3 0 0,
    source_registers := pick4 26 25 0 0,
    destination_memory := pick4 0x2000 0 0 0,
    d_valid := pick4 1 0 0 0,
    d_value := pick4 (fun j => j.val) (fun _ => 0) (fun _ => 0) (fun _ => 0),
    source_memory := pick4 0x3008 0 0 0,
    s_valid := pick4 1 0 0 0,
    s_value := pick4 (fun j => 255 - j.val) (fun _ => 0) (fun _ => 0) (fun _ => 0) }

/-- A sample state with capture active and the sample record accumulated. -/
def sample_state : State := { State.initial with tracing := true, inst := sample_record }

/-! ## The accumulator: `trace_load`, `trace_store`, `trace_reg_read`, `trace_reg_write` -/

/-- Memory of the traced process: the byte stored at each address. -/
abbrev Memory := Nat → Fin 256

/-- The search loop `for (i = 0; i < 4; i++) if (a[i] == v) { already_found = 1; break; }`. -/
def already_found (a : Fin 4 → Nat) (v : Nat) : Bool :=
  slots.any (fun i => decide (a i = v))

/-- The slot at which the insertion loop `for (i = 0; i < 4; i++) if (a[i] == 0) { ..; break; }`
stops: the lowest index holding zero, if there is one. -/
def first_empty (a : Fin 4 → Nat) : Option (Fin 4) :=
  slots.find? (fun i => decide (a i = 0))

/-- The cast `(unsigned char) r` of an `Int` argument. -/
def uchar (r : Int) : Nat := (r % 256).toNat

/-- The function `trace_load` (lines 226-262): `addr` is inserted into
`source_memory` unless it is already there or no slot is empty; on insertion
the valid flag is set and the 64 bytes at `(addr >> 6) << 6` are copied. -/
def trace_load (m : Memory) (addr size : Nat) (s : State) : State :=
  if !s.tracing then s
  else if already_found s.inst.source_memory (addr % 2 ^ 64) then s
  else
    match first_empty s.inst.source_memory with
    | none => s
    | some i =>
      let a := ((addr >>> 6) <<< 6) % 2 ^ 64
      { s with
        inst := { s.inst with
          source_memory := Function.update s.inst.source_memory i (addr % 2 ^ 64),
          s_valid := Function.update s.inst.s_valid i 1,
          s_value := Function.update s.inst.s_value i (fun j => (m (a + j.val)).val) } }

/-- The function `trace_store` (lines 264-299): as `trace_load`, on
`destination_memory`, `d_valid` and `d_value`. -/
def trace_store (m : Memory) (addr size : Nat) (s : State) : State :=
  if !s.tracing then s
  else if already_found s.inst.destination_memory (addr % 2 ^ 64) then s
  else
    match first_empty s.inst.destination_memory with
    | none => s
    | some i =>
      let a := ((addr >>> 6) <<< 6) % 2 ^ 64
      { s with
        inst := { s.inst with
          destination_memory := Function.update s.inst.destination_memory i (addr % 2 ^ 64),
          d_valid := Function.update s.inst.d_valid i 1,
          d_value := Function.update s.inst.d_value i (fun j => (m (a + j.val)).val) } }

/-- The function `trace_reg_read` (lines 301-321): `(unsigned char) r` is
inserted into `source_registers` unless already there or no slot is empty. -/
def trace_reg_read (r : Int) (s : State) : State :=
  if !s.tracing then s
  else if already_found s.inst.source_registers (uchar r) then s
  else
    match first_empty s.inst.source_registers with
    | none => s
    | some i =>
      { s with
        inst := { s.inst with
          source_registers := Function.update s.inst.source_registers i (uchar r) } }

/-- The function `trace_reg_write` (lines 323-343): `(unsigned char) r` is
inserted into `destination_registers` unless already there or no slot is empty. -/
def trace_reg_write (r : Int) (s : State) : State :=
  if !s.tracing then s
  else if already_found s.inst.destination_registers (uchar r) then s
  else
    match first_empty s.inst.destination_registers with
    | none => s
    | some i =>
      { s with
        inst := { s.inst with
          destination_registers := Function.update s.inst.destination_registers i (uchar r) } }

/-! ## The window: `inc_inst` and `ct_fini` -/

/-- The function `inc_inst` (lines 601-631).  The counter and the sum
`skip + trace_instrs + 1` are `unsigned long long` and wrap at `2 ^ 64`. -/
def inc_inst (o : Options) (s : State) : State :=
  let s1 := { s with instructions := (s.instructions + 1) % 2 ^ 64 }
  let s2 :=
    if s1.instructions = o.skip then
      { s1 with
        tracing := true,
        notices := s1.notices ++ [Notice.skipped s1.instructions, Notice.starting] }
    else s1
  if s2.instructions = (o.skip + o.trace_instrs + 1) % 2 ^ 64 then
    let s3 := { s2 with tracing := false }
    if !s3.tracing_done then
      let s4 :=
        { s3 with
          tracing_done := true,
          notices := s3.notices ++
            [Notice.completed, Notice.instructions ((s3.instructions + 2 ^ 64 - 1) % 2 ^ 64)],
          closes := s3.closes + 1 }
      if o.exit_after_tracing then
        { s4 with notices := s4.notices ++ [Notice.halting, Notice.bye], exited := true }
      else s4
    else s3
  else s2

/-- The function `ct_fini` (lines 1272-1280): the stream is closed unless
`inc_inst` closed it already. -/
def ct_fini (s : State) : State :=
  let s1 :=
    { s with
      notices := s.notices ++ [Notice.program_completed, Notice.instructions s.instructions] }
  if !s1.tracing_done then { s1 with closes := s1.closes + 1 } else s1

/-- Delivery of one instruction-boundary event: the instrumented code calls
`inc_inst`; after `VG_(exit)` the process is gone and nothing runs any more. -/
def boundary (o : Options) (s : State) : State :=
  if s.exited then s else inc_inst o s

/-- The state after `n` instruction-boundary events. -/
def boundaries (o : Options) : Nat → State → State
  | 0, s => s
  | n + 1, s => boundary o (boundaries o n s)

/-- The options as they stand without command line arguments: `skip = 0`,
`trace_instrs = 1000`, `exit_after_tracing = True` (lines 110-121). -/
def Options.default : Options := { skip := 0, trace_instrs := 1000, exit_after_tracing := true }

/-! ## Sample inputs -/

/-- The state with capture active and the record empty. -/
def active_state : State := { State.initial with tracing := true }

/-- A sample memory: address `a` holds the byte `a mod 256`. -/
def sample_memory : Memory := fun a => Fin.ofNat a

/-- A state with capture active whose four source register slots hold 1, 2, 3, 4. -/
def full_state : State :=
  { active_state with inst := { inst_zero with source_registers := pick4 1 2 3 4 } }

/-! ## Register ids -/

/-- The enumerator `REG_X0` of `ARM64_REG` (arm64regs.h): `REG_BASE = 1`. -/
def REG_X0 : Nat := 1

/-- The enumerator `REG_X30` of `ARM64_REG`. -/
def REG_X30 : Nat := 31

/-- The enumerator `REG_XSP` of `ARM64_REG`. -/
def REG_XSP : Nat := 32

/-- The enumerator `REG_PC` of `ARM64_REG`. -/
def REG_PC : Nat := 33

/-- The enumerator `REG_FLAGS` of `ARM64_REG`. -/
def REG_FLAGS : Nat := 34

/-- The enumerator `REG_Q0` of `ARM64_REG`. -/
def REG_Q0 : Nat := 35

/-- The enumerator `REG_QFLAGS` of `ARM64_REG`. -/
def REG_QFLAGS : Nat := 67

/-- The enumerator `REG_UTHRD` of `ARM64_REG`. -/
def REG_UTHRD : Nat := 68

/-- The enumerators of `PIN_REG` that ct_main.c uses.  Their header
`x86-64regs.h` is not among the sources, so their values are a parameter. -/
structure PIN_REG where
  REG_RAX : Nat
  REG_RCX : Nat
  REG_RDX : Nat
  REG_RBX : Nat
  REG_RSP : Nat
  REG_RBP : Nat
  REG_RSI : Nat
  REG_RDI : Nat
  REG_R8 : Nat
  REG_R9 : Nat
  REG_R10 : Nat
  REG_R11 : Nat
  REG_R12 : Nat
  REG_R13 : Nat
  REG_R14 : Nat
  REG_R15 : Nat
  REG_RIP : Nat
  REG_RFLAGS : Nat
  REG_YMM : Fin 16 → Nat

/-- The build variant: `VGP_arm64_linux`, or the x86-64 variant of the `#else`
branches together with the register ids of its header. -/
inductive Arch where
  | arm64
  | x86_64 (regs : PIN_REG)

/-- The jump kinds of VEX (`IRJumpKind`, declared by Valgrind): the three kinds
the tracer distinguishes, and every other kind under its tag. -/
inductive IRJumpKind where
  | Ijk_Boring
  | Ijk_Call
  | Ijk_Ret
  | Ijk_other (tag : Nat)
  deriving DecidableEq, Repr

/-- Assignment of an enumerator to a `uint8_t` array element. -/
def to_uint8 (v : Nat) : Nat := v % 256

/-! ## The accumulator: `trace_instr`, the branch events, `zero_inst` -/

/-- The function `trace_instr` (lines 217-224). -/
def trace_instr (iaddr size : Nat) (s : State) : State :=
  if !s.tracing then s
  else { s with inst := { s.inst with ip := iaddr % 2 ^ 64 } }

/-- The function `trace_branch_conditional` (lines 345-375): slot 0 of the
destination registers, slots 0 and 1 of the source registers are assigned;
`branch_taken` is `!ci` when the guard holds and `ci` otherwise. -/
def trace_branch_conditional (arch : Arch) (ci guard : Bool) (s : State) : State :=
  if !s.tracing then s
  else
    let i1 := { s.inst with is_branch := 1 }
    let i2 :=
      match arch with
      | Arch.arm64 =>
        { i1 with
          destination_registers := Function.update i1.destination_registers 0 (to_uint8 REG_PC),
          source_registers :=
            Function.update (Function.update i1.source_registers 0 (to_uint8 REG_PC)) 1
              (to_uint8 REG_FLAGS) }
      | Arch.x86_64 x =>
        { i1 with
          destination_registers :=
            Function.update i1.destination_registers 0 (to_uint8 x.REG_RIP),
          source_registers :=
            Function.update (Function.update i1.source_registers 0 (to_uint8 x.REG_RIP)) 1
              (to_uint8 x.REG_RFLAGS) }
    { s with
      inst := { i2 with
        branch_taken := if guard then (if ci then 0 else 1) else (if ci then 1 else 0) } }

/-- The function `trace_branch_direct` (lines 377-426).  `none` stands for the
failed `tl_assert(0)`. -/
def trace_branch_direct (arch : Arch) (jk : IRJumpKind) (s : State) : Option State :=
  if !s.tracing then some s
  else
    let i1 := { s.inst with is_branch := 1, branch_taken := 1 }
    match jk, arch with
    | IRJumpKind.Ijk_Call, Arch.arm64 =>
      some { s with
        inst := { i1 with
          destination_registers := Function.update i1.destination_registers 0 (to_uint8 REG_PC),
          source_registers := Function.update i1.source_registers 0 (to_uint8 REG_PC) } }
    | IRJumpKind.Ijk_Call, Arch.x86_64 x =>
      some { s with
        inst := { i1 with
          destination_registers :=
            Function.update (Function.update i1.destination_registers 0 (to_uint8 x.REG_RIP)) 1
              (to_uint8 x.REG_RSP),
          source_registers :=
            Function.update (Function.update i1.source_registers 0 (to_uint8 x.REG_RIP)) 1
              (to_uint8 x.REG_RSP) } }
    | IRJumpKind.Ijk_Ret, Arch.arm64 =>
      some { s with
        inst := { i1 with
          destination_registers :=
            Function.update (Function.update i1.destination_registers 0 (to_uint8 REG_PC)) 1
              (to_uint8 REG_XSP),
          source_registers := Function.update i1.source_registers 0 (to_uint8 REG_X30) } }
    | IRJumpKind.Ijk_Ret, Arch.x86_64 x =>
      some { s with
        inst := { i1 with
          destination_registers :=
            Function.update (Function.update i1.destination_registers 0 (to_uint8 x.REG_RIP)) 1
              (to_uint8 x.REG_RSP),
          source_registers := Function.update i1.source_registers 0 (to_uint8 x.REG_RSP) } }
    | IRJumpKind.Ijk_Boring, Arch.arm64 =>
      some { s with
        inst := { i1 with
          destination_registers :=
            Function.update i1.destination_registers 0 (to_uint8 REG_PC) } }
    | IRJumpKind.Ijk_Boring, Arch.x86_64 x =>
      some { s with
        inst := { i1 with
          destination_registers :=
            Function.update i1.destination_registers 0 (to_uint8 x.REG_RIP) } }
    | IRJumpKind.Ijk_other _, _ => none

/-- The function `trace_branch_indirect` (lines 428-483).  `none` stands for
the failed `tl_assert(0)`. -/
def trace_branch_indirect (arch : Arch) (jk : IRJumpKind) (s : State) : Option State :=
  if !s.tracing then some s
  else
    let i1 := { s.inst with is_branch := 1, branch_taken := 1 }
    match jk, arch with
    | IRJumpKind.Ijk_Call, Arch.arm64 =>
      some { s with
        inst := { i1 with
          destination_registers :=
            Function.update (Function.update i1.destination_registers 0 (to_uint8 REG_PC)) 1
              (to_uint8 REG_X30),
          source_registers :=
            Function.update (Function.update i1.source_registers 0 (to_uint8 REG_PC)) 2
              (to_uint8 REG_X30) } }
    | IRJumpKind.Ijk_Call, Arch.x86_64 x =>
      some { s with
        inst := { i1 with
          destination_registers :=
            Function.update (Function.update i1.destination_registers 0 (to_uint8 x.REG_RIP)) 1
              (to_uint8 x.REG_RSP),
          source_registers :=
            Function.update
              (Function.update (Function.update i1.source_registers 0 (to_uint8 x.REG_RIP)) 1
                (to_uint8 x.REG_RSP)) 2 (to_uint8 x.REG_RAX) } }
    | IRJumpKind.Ijk_Ret, Arch.arm64 =>
      some { s with
        inst := { i1 with
          destination_registers := Function.update i1.destination_registers 0 (to_uint8 REG_PC),
          source_registers := Function.update i1.source_registers 0 (to_uint8 REG_X30) } }
    | IRJumpKind.Ijk_Ret, Arch.x86_64 x =>
      some { s with
        inst := { i1 with
          destination_registers :=
            Function.update (Function.update i1.destination_registers 0 (to_uint8 x.REG_RIP)) 1
              (to_uint8 x.REG_RSP),
          source_registers :=
            Function.update (Function.update i1.source_registers 0 (to_uint8 x.REG_RSP)) 2
              (to_uint8 x.REG_RAX) } }
    | IRJumpKind.Ijk_Boring, Arch.arm64 =>
      some { s with
        inst := { i1 with
          destination_registers := Function.update i1.destination_registers 0 (to_uint8 REG_PC),
          source_registers := Function.update i1.source_registers 0 (to_uint8 REG_X30) } }
    | IRJumpKind.Ijk_Boring, Arch.x86_64 x =>
      some { s with
        inst := { i1 with
          destination_registers :=
            Function.update i1.destination_registers 0 (to_uint8 x.REG_RIP),
          source_registers := Function.update i1.source_registers 2 (to_uint8 x.REG_RAX) } }
    | IRJumpKind.Ijk_other _, _ => none

/-- The function `zero_inst` (lines 486-514): both loops run over all four
slots and all 64 snapshot bytes; the field `encode_key` is not assigned. -/
def zero_inst (s : State) : State :=
  if !s.tracing then s
  else
    { s with
      inst :=
        { encode_key := s.inst.encode_key, ip := 0, is_branch := 0, branch_taken := 0,
          destination_registers := fun _ => 0, source_registers := fun _ => 0,
          destination_memory := fun _ => 0, source_memory := fun _ => 0,
          d_valid := fun _ => 0, d_value := fun _ _ => 0,
          s_valid := fun _ => 0, s_value := fun _ _ => 0 } }

/-- The calls `instrument_instruction` (lines 647-676) places at every
instruction mark, in their order: `inc_inst`, `write_inst_to_file`,
`zero_inst`, `trace_instr`.  After `VG_(exit)` nothing runs. -/
def instruction_boundary (o : Options) (iaddr isize : Nat) (s : State) : State :=
  if s.exited then s
  else
    let s1 := inc_inst o s
    if s1.exited then s1
    else trace_instr iaddr isize (zero_inst (write_inst_to_file s1))

/-- The set of register ids held by a four-slot array: its nonzero entries. -/
def register_set (a : Fin 4 → Nat) : Finset Nat := (Finset.univ.image a).erase 0

/-! ## The register maps -/

/-- The function `offset_to_arm64_register` (lines 742-797).  The offset is a
C `Int`; `none` stands for a failed `tl_assert`. -/
def offset_to_arm64_register (offset : Int) : Option Nat :=
  if ¬ (offset ≥ 0) then none
  else if offset < 16 then some 0
  else if offset < 256 then some (REG_X0 + ((offset - 16) / 8).toNat)
  else if offset < 264 then some REG_X30
  else if offset < 272 then some REG_XSP
  else if offset < 280 then some REG_PC
  else if offset < 312 then some REG_FLAGS
  else if offset < 320 then some REG_UTHRD
  else if offset < 832 then some (((offset - 312) / 16).toNat + REG_Q0)
  else if offset < 848 then some REG_QFLAGS
  else if offset < 896 then some 0
  else none

/-- The sixteen cases of the first `switch` of `offset_to_x86_64_register`;
other values match no case. -/
def gpr_case (x : PIN_REG) : Int → Option Nat
  | 0 => some x.REG_RAX
  | 1 => some x.REG_RCX
  | 2 => some x.REG_RDX
  | 3 => some x.REG_RBX
  | 4 => some x.REG_RSP
  | 5 => some x.REG_RBP
  | 6 => some x.REG_RSI
  | 7 => some x.REG_RDI
  | 8 => some x.REG_R8
  | 9 => some x.REG_R9
  | 10 => some x.REG_R10
  | 11 => some x.REG_R11
  | 12 => some x.REG_R12
  | 13 => some x.REG_R13
  | 14 => some x.REG_R14
  | 15 => some x.REG_R15
  | _ => none

/-- The function `offset_to_x86_64_register` of the x86-64 variant (lines
810-946).  `none` stands for a failed `tl_assert`.  A value of the first
`switch` that matches no case leaves the `if` chain and reaches the final
`return 0`; in the second `switch`, `case 16` and `default` assert. -/
def offset_to_x86_64_register (x : PIN_REG) (offset sz : Int) : Option Nat :=
  if ¬ (offset ≥ 0) then none
  else if offset < 16 then some 0
  else if offset < 208 then
    match gpr_case x ((offset - 16) / 8) with
    | some r => some r
    | none => some 0
  else if offset < 176 then some 0
  else if offset < 184 then some 25
  else if offset < 192 then some x.REG_RIP
  else if offset < 200 then some 0
  else if offset < 208 then some 0
  else if offset < 216 then some 0
  else if offset < 728 then
    if h : 0 ≤ (offset - 216) / 32 ∧ (offset - 216) / 32 < 16 then
      some (x.REG_YMM ⟨((offset - 216) / 32).toNat, by omega⟩)
    else none
  else some 0

/-- The pair (destination register set, source register set) of the record. -/
def traffic (s : State) : Finset Nat × Finset Nat :=
  (register_set s.inst.destination_registers, register_set s.inst.source_registers)

/-- The four ids of `PIN_REG` that the branch events store are nonzero and fit
the `uint8_t` slots. -/
def PIN_REG.fits (x : PIN_REG) : Prop :=
  (0 < x.REG_RIP ∧ x.REG_RIP < 256) ∧ (0 < x.REG_RSP ∧ x.REG_RSP < 256) ∧
  (0 < x.REG_RFLAGS ∧ x.REG_RFLAGS < 256) ∧ (0 < x.REG_RAX ∧ x.REG_RAX < 256)

/-- Sample values for the ids of `PIN_REG`. -/
def sample_regs : PIN_REG :=
  { REG_RAX := 10, REG_RCX := 9, REG_RDX := 8, REG_RBX := 7, REG_RSP := 6, REG_RBP := 5,
    REG_RSI := 4, REG_RDI := 3, REG_R8 := 11, REG_R9 := 12, REG_R10 := 13, REG_R11 := 14,
    REG_R12 := 15, REG_R13 := 16, REG_R14 := 17, REG_R15 := 18, REG_RIP := 26,
    REG_RFLAGS := 25, REG_YMM := fun i => 100 + i.val }

/-- The id the branch events store for the program counter. -/
def program_counter_id : Arch → Nat
  | Arch.arm64 => to_uint8 REG_PC
  | Arch.x86_64 x => to_uint8 x.REG_RIP

/-- The options of the end-to-end scenario: skip 1, trace 5, no exit. -/
def scenario_options : Options := { skip := 1, trace_instrs := 5, exit_after_tracing := false }

/-- The end-to-end scenario on arm64 up to the second boundary:
`Boundary(0x1000)`, `RegisterWrite(X1)`, `MemoryStore(0x2000, 8)`,
`ConditionalBranch(inverted = false, guard = true)`. -/
def scenario_before : State :=
  trace_branch_conditional Arch.arm64 false true
    (trace_store sample_memory 0x2000 8
      (trace_reg_write 2 (instruction_boundary scenario_options 0x1000 4 State.initial)))

/-- The end-to-end scenario after the second boundary, `Boundary(0x1004)`. -/
def scenario_after : State := instruction_boundary scenario_options 0x1004 4 scenario_before

/-! ## The x86-64 register map, band by band -/

/-- The sixteen ids of the first `switch` of `offset_to_x86_64_register`, by
case label (0 for a value that is no case label). -/
def gpr_table (x : PIN_REG) : Nat → Nat
  | 0 => x.REG_RAX
  | 1 => x.REG_RCX
  | 2 => x.REG_RDX
  | 3 => x.REG_RBX
  | 4 => x.REG_RSP
  | 5 => x.REG_RBP
  | 6 => x.REG_RSI
  | 7 => x.REG_RDI
  | 8 => x.REG_R8
  | 9 => x.REG_R9
  | 10 => x.REG_R10
  | 11 => x.REG_R11
  | 12 => x.REG_R12
  | 13 => x.REG_R13
  | 14 => x.REG_R14
  | 15 => x.REG_R15
  | _ => 0

/-- The bands of the x86-64 map as they are reached: a general-purpose id for
an offset in `[16, 144)`, a vector id for an offset in `[216, 728)`, the
untracked id 0 everywhere else. -/
def x86_64_bands (x : PIN_REG) (offset : Int) : Nat :=
  if h : 16 ≤ offset ∧ offset < 144 then gpr_table x ((offset - 16) / 8).toNat
  else if k : 216 ≤ offset ∧ offset < 728 then x.REG_YMM ⟨((offset - 216) / 32).toNat, by omega⟩
  else 0

/-- The enumerator `REG_RIP` differs from the untracked id 0, from the sixteen
general-purpose ids and from the sixteen vector ids. -/
def PIN_REG.rip_apart (x : PIN_REG) : Prop :=
  x.REG_RIP ≠ 0 ∧ (∀ i, i < 16 → gpr_table x i ≠ x.REG_RIP) ∧ (∀ i, x.REG_YMM i ≠ x.REG_RIP)

/-! ## Sequences of events -/

/-- One call of the instrumented code: an accumulator operation, or one of
`zero_inst`, `write_inst_to_file`, `inc_inst`.  A load or store carries the
memory of the traced process at the time of the call. -/
inductive Event where
  | instr (iaddr size : Nat)
  | load (m : Memory) (addr size : Nat)
  | store (m : Memory) (addr size : Nat)
  | reg_read (r : Int)
  | reg_write (r : Int)
  | branch_conditional (ci guard : Bool)
  | branch_direct (jk : IRJumpKind)
  | branch_indirect (jk : IRJumpKind)
  | zero
  | write
  | inc

/-- The call an event stands for; `none` is a failed `tl_assert`. -/
def Event.apply (arch : Arch) (o : Options) : Event → State → Option State
  | Event.instr iaddr size, s => some (trace_instr iaddr size s)
  | Event.load m addr size, s => some (trace_load m addr size s)
  | Event.store m addr size, s => some (trace_store m addr size s)
  | Event.reg_read r, s => some (trace_reg_read r s)
  | Event.reg_write r, s => some (trace_reg_write r s)
  | Event.branch_conditional ci guard, s => some (trace_branch_conditional arch ci guard s)
  | Event.branch_direct jk, s => trace_branch_direct arch jk s
  | Event.branch_indirect jk, s => trace_branch_indirect arch jk s
  | Event.zero, s => some (zero_inst s)
  | Event.write, s => some (write_inst_to_file s)
  | Event.inc, s => some (inc_inst o s)

/-- The events in order, stopping at a failed assertion. -/
def run_events (arch : Arch) (o : Options) : List Event → State → Option State
  | [], s => some s
  | e :: es, s => (e.apply arch o s).bind (run_events arch o es)

/-- The events that add to the four sets of the record: register reads and
writes, loads and stores, and the three branch events. -/
def Event.accumulates : Event → Bool
  | Event.load _ _ _ => true
  | Event.store _ _ _ => true
  | Event.reg_read _ => true
  | Event.reg_write _ => true
  | Event.branch_conditional _ _ => true
  | Event.branch_direct _ => true
  | Event.branch_indirect _ => true
  | _ => false

/-- The three branch events. -/
def Event.is_branch : Event → Bool
  | Event.branch_conditional _ _ => true
  | Event.branch_direct _ => true
  | Event.branch_indirect _ => true
  | _ => false

/-- A four-slot array holds every nonzero value at most once. -/
def no_duplicate (a : Fin 4 → Nat) : Prop := ∀ i j, a i ≠ 0 → a i = a j → i = j

/-- The validity invariant of a record: a slot is valid (flag 1) exactly when
its address is nonzero, and a slot that is not valid has an all-zero snapshot. -/
def valid_slots (r : trace_instr_format_t) : Prop :=
  ∀ i, (r.s_valid i ≠ 0 ↔ r.source_memory i ≠ 0) ∧
    (r.d_valid i ≠ 0 ↔ r.destination_memory i ≠ 0) ∧
    (r.s_valid i = 0 → ∀ j, r.s_value i j = 0) ∧
    (r.d_valid i = 0 → ∀ j, r.d_value i j = 0)

/-- The branch events whose jump kind is none of `Ijk_Call`, `Ijk_Ret`,
`Ijk_Boring`: while capture is active they end in `tl_assert(0)`. -/
def Event.asserting : Event → Bool
  | Event.branch_direct (IRJumpKind.Ijk_other _) => true
  | Event.branch_indirect (IRJumpKind.Ijk_other _) => true
  | _ => false

/-! ## Streams of instructions -/

/-- The state `t` agrees with `s` on everything but the operands of the
record: the window variables, the effects and `inst.ip`. -/
def same_control (t s : State) : Prop :=
  t.tracing = s.tracing ∧ t.tracing_done = s.tracing_done ∧
  t.instructions = s.instructions ∧ t.exited = s.exited ∧ t.closes = s.closes ∧
  t.writes = s.writes ∧ t.inst.ip = s.inst.ip

/-- The trace file after one instruction boundary that took the state from
`before` to `after`: the buffers the boundary handed to `VG_(write)` are
appended, unless `VG_(close)(fd)` had been called by then (line 619, in
`inc_inst`, which runs first): a write to the closed descriptor adds nothing. -/
def file_after (before after : State) (file : List (List Nat)) : List (List Nat) :=
  if after.closes = 0 then file ++ after.writes.drop before.writes.length else file

/-- One dynamic instruction: the calls placed at its instruction mark, then
the calls of its own events; after `VG_(exit)` nothing runs.  The second
component is the content of the trace file. -/
def instruction (arch : Arch) (o : Options) (iaddr isize : Nat) (es : List Event)
    (r : State × List (List Nat)) : Option (State × List (List Nat)) :=
  if r.1.exited then some r
  else
    let s1 := instruction_boundary o iaddr isize r.1
    if s1.exited then some (s1, file_after r.1 s1 r.2)
    else (run_events arch o es s1).map (fun t => (t, file_after r.1 s1 r.2))

/-- The state and the trace file after the first `n` instructions of a stream
from program start; the `k`-th instruction (counting from 1) is at address
`addr k`, has size `size k` and the events `evs k`. -/
def instruction_stream (arch : Arch) (o : Options) (addr size : Nat → Nat)
    (evs : Nat → List Event) : Nat → Option (State × List (List Nat))
  | 0 => some (State.initial, [])
  | n + 1 =>
    (instruction_stream arch o addr size evs n).bind
      (instruction arch o (addr (n + 1)) (size (n + 1)) (evs (n + 1)))

/-- The buffer `write_inst_to_file` writes for a record: its layout under the
key of its valid flags. -/
def wire (r : trace_instr_format_t) : List Nat :=
  record_layout (reference_key r (32 + 72 * valid_count r)) r

/-- The record in `inst` when instruction `k` of the stream and its events
have run. -/
def accumulated (arch : Arch) (o : Options) (addr size : Nat → Nat)
    (evs : Nat → List Event) (k : Nat) : trace_instr_format_t :=
  match instruction_stream arch o addr size evs k with
  | some r => r.1.inst
  | none => inst_zero

/-- What holds of the state `s` and the trace file after `n` instructions, up
to the Done transition: the run has exited exactly when exit-after-tracing is
set and the transition is made; the counter (modulo `2 ^ 64`), the two flags, the number of
calls of `VG_(close)`, the address in the record (that of the last instruction
seen while capture was active) and the file: one buffer for each instruction
from `skip` on that a later boundary has flushed. -/
def stream_invariant (o : Options) (addr : Nat → Nat) (acc : Nat → trace_instr_format_t)
    (n : Nat) (s : State) (file : List (List Nat)) : Prop :=
  (s.exited = true ↔ o.exit_after_tracing = true ∧ o.skip + o.trace_instrs + 1 ≤ n) ∧
  s.instructions = n % 2 ^ 64 ∧
  (s.tracing = true ↔ o.skip ≤ n ∧ n ≤ o.skip + o.trace_instrs) ∧
  (s.tracing_done = true ↔ o.skip + o.trace_instrs + 1 ≤ n) ∧
  s.closes = (if o.skip + o.trace_instrs + 1 ≤ n then 1 else 0) ∧
  s.inst.ip = (if n < o.skip then 0 else addr (min n (o.skip + o.trace_instrs))) ∧
  file =
    (List.range' o.skip (min n (o.skip + o.trace_instrs) - o.skip)).map
      (fun k => wire (acc k))

/-- A sample stream of instruction addresses: 64 four-byte instructions from
`0x1000`, repeated. -/
def sample_stream (k : Nat) : Nat := 0x1000 + 4 * (k % 64)

/-- Sample events of an instruction: a write of `X1`, a store to `0x2000` and
a taken conditional branch. -/
def sample_events (k : Nat) : List Event :=
  [Event.reg_write 2, Event.store sample_memory 0x2000 8, Event.branch_conditional false true]

end cstracer

/-!
# ctlite: the histogram mode

The definitions below follow `src/ctlite/cl_main.c`.
-/

namespace ctlite

/-- The static variables of cl_main.c: the instruction counter (`unsigned long
long`), the two branch tallies and the two tables of `unsigned int` counters,
and the buffers handed to `VG_(write)` in order. -/
structure State where
  instructions : Nat
  TBranches : Nat
  UBranches : Nat
  Imap : Fin 1024 → Nat
  Mmap : Fin 1024 → Nat
  writes : List (List Nat)

/-- The function `trace_branch_conditional` of cl_main.c (lines 185-197); the
tallies are `unsigned int` and wrap at `2 ^ 32`. -/
def trace_branch_conditional (ci guard : Bool) (s : State) : State :=
  if guard then
    if ci then { s with UBranches := (s.UBranches + 1) % 2 ^ 32 }
    else { s with TBranches := (s.TBranches + 1) % 2 ^ 32 }
  else
    if ci then { s with TBranches := (s.TBranches + 1) % 2 ^ 32 }
    else { s with UBranches := (s.UBranches + 1) % 2 ^ 32 }

/-- The variables `IShiftSize`, `MShiftSize` (`unsigned int`) and `heartbeat`
(`unsigned long long`) as they stand when the events arrive: the shifts are
the values of `--code-size` and `--mem-size` less the 10 that
`cl_post_clo_init` subtracts (lines 272-273). -/
structure Options where
  IShiftSize : Nat
  MShiftSize : Nat
  heartbeat : Nat

/-- The variables without command line arguments: the initial shifts 22
(lines 98, 102) less 10, and the heartbeat of line 106. -/
def Options.default : Options := { IShiftSize := 12, MShiftSize := 12, heartbeat := 100000000 }

/-- The state at program start: every static variable is zero, nothing written. -/
def State.zero : State :=
  { instructions := 0, TBranches := 0, UBranches := 0, Imap := fun _ => 0, Mmap := fun _ => 0,
    writes := [] }

/-- Every variable of the state lies in the range of its C type. -/
def State.in_range (s : State) : Prop :=
  s.instructions < 2 ^ 64 ∧ s.TBranches < 2 ^ 32 ∧ s.UBranches < 2 ^ 32 ∧
  (∀ i, s.Imap i < 2 ^ 32) ∧ (∀ i, s.Mmap i < 2 ^ 32)

/-- The index `(addr >> shift) % 1024` of `trace_instr`, `trace_load` and
`trace_store`; `addr` is an `Addr` of 64 bits.  (For a shift count of 64 or
more the C expression is undefined; this is the mathematical shift.) -/
def bucket (shift addr : Nat) : Fin 1024 :=
  ⟨((addr % 2 ^ 64) >>> shift) % 1024, Nat.mod_lt _ (by decide)⟩

/-- The object representation of an array `unsigned int[1024]`, as
`VG_(write)` sees it on the little-endian target: byte `k` is byte `k % 4` of
entry `k / 4`. -/
def table_bytes (t : Fin 1024 → Nat) : List Nat :=
  List.ofFn (fun k : Fin 4096 => (t ⟨k.val / 4, by omega⟩ / 256 ^ (k.val % 4)) % 256)

/-- The five buffers of one heartbeat, in the order of the five calls of
`VG_(write)` (lines 160-164). -/
def block (s : State) : List (List Nat) :=
  [cstracer.le_bytes 8 s.instructions, table_bytes s.Mmap, table_bytes s.Imap,
    cstracer.le_bytes 4 s.TBranches, cstracer.le_bytes 4 s.UBranches]

/-- The body of the `if` of `trace_instr` (lines 158-169): the five writes,
then the four calls of `VG_(memset)`. -/
def flush (s : State) : State :=
  { s with
    writes := s.writes ++ block s,
    Mmap := fun _ => 0,
    Imap := fun _ => 0,
    TBranches := 0,
    UBranches := 0 }

/-- The function `trace_instr` of cl_main.c (lines 153-172).  The counter is
an `unsigned long long`, the table entries are `unsigned int`.  With
`heartbeat = 0` the expression `instructions % heartbeat` divides by zero:
`none`. -/
def trace_instr (o : Options) (iaddr size : Nat) (s : State) : Option State :=
  let s1 := { s with instructions := (s.instructions + 1) % 2 ^ 64 }
  let b := bucket o.IShiftSize iaddr
  let s2 := { s1 with Imap := Function.update s1.Imap b ((s1.Imap b + 1) % 2 ^ 32) }
  if o.heartbeat = 0 then none
  else if s2.instructions % o.heartbeat = 0 then some (flush s2)
  else some s2

/-- The function `trace_load` of cl_main.c (lines 174-177). -/
def trace_load (o : Options) (addr size : Nat) (s : State) : State :=
  { s with
    Mmap := Function.update s.Mmap (bucket o.MShiftSize addr)
      ((s.Mmap (bucket o.MShiftSize addr) + 1) % 2 ^ 32) }

/-- The function `trace_store` of cl_main.c (lines 179-182). -/
def trace_store (o : Options) (addr size : Nat) (s : State) : State :=
  { s with
    Mmap := Function.update s.Mmap (bucket o.MShiftSize addr)
      ((s.Mmap (bucket o.MShiftSize addr) + 1) % 2 ^ 32) }

/-- One call of the instrumented code. -/
inductive Event where
  | instr (iaddr size : Nat)
  | load (addr size : Nat)
  | store (addr size : Nat)
  | branch (ci guard : Bool)

/-- The call an event stands for. -/
def Event.apply (o : Options) : Event → State → Option State
  | Event.instr iaddr size, s => trace_instr o iaddr size s
  | Event.load addr size, s => some (trace_load o addr size s)
  | Event.store addr size, s => some (trace_store o addr size s)
  | Event.branch ci guard, s => some (trace_branch_conditional ci guard s)

/-- The events in order. -/
def run (o : Options) : List Event → State → Option State
  | [], s => some s
  | e :: es, s => (e.apply o s).bind (run o es)

/-- Instruction-boundary events. -/
def Event.is_instr : Event → Bool
  | Event.instr _ _ => true
  | _ => false

/-- Number of instruction-boundary events. -/
def instr_count (es : List Event) : Nat := es.countP Event.is_instr

/-- Number of instruction-boundary events whose address falls in code bucket `i`. -/
def code_count (o : Options) (es : List Event) (i : Fin 1024) : Nat :=
  es.countP (fun e =>
    match e with
    | Event.instr a _ => decide (bucket o.IShiftSize a = i)
    | _ => false)

/-- Number of loads and stores whose address falls in data bucket `i`. -/
def data_count (o : Options) (es : List Event) (i : Fin 1024) : Nat :=
  es.countP (fun e =>
    match e with
    | Event.load a _ => decide (bucket o.MShiftSize a = i)
    | Event.store a _ => decide (bucket o.MShiftSize a = i)
    | _ => false)

/-- Number of conditional-branch events with `guard XOR inverted` true. -/
def taken_count (es : List Event) : Nat :=
  es.countP (fun e =>
    match e with
    | Event.branch ci guard => xor guard ci
    | _ => false)

/-- Number of conditional-branch events with `guard XOR inverted` false. -/
def untaken_count (es : List Event) : Nat :=
  es.countP (fun e =>
    match e with
    | Event.branch ci guard => !(xor guard ci)
    | _ => false)

/-- Entry `i` of a table read back from its bytes. -/
def table_entry (bytes : List Nat) (i : Nat) : Nat :=
  bytes.getD (4 * i) 0 + 256 * bytes.getD (4 * i + 1) 0 + 256 ^ 2 * bytes.getD (4 * i + 2) 0 +
    256 ^ 3 * bytes.getD (4 * i + 3) 0

end ctlite

namespace cstracer

/-! ## Lemmas on the byte buffer -/

theorem le_bytes_length (n v : Nat) : (le_bytes n v).length = n := by
  induction n generalizing v with
  | zero => rfl
  | succ n ih => simp [le_bytes, ih]

theorem from_le_le_bytes (n v : Nat) : from_le (le_bytes n v) = v % 256 ^ n := by
  induction n generalizing v with
  | zero => simp [le_bytes, from_le, Nat.mod_one]
  | succ n ih =>
    simp only [le_bytes, from_le, ih]
    rw [pow_succ, Nat.mul_comm (256 ^ n) 256, Nat.mod_mul]

theorem memcpy_length (b : List Nat) (i : Nat) (src : List Nat)
    (h : i + src.length ≤ b.length) : (memcpy b i src).length = b.length := by
  simp [memcpy]; omega

theorem memcpy_take (b : List Nat) (i : Nat) (src : List Nat) (h : i ≤ b.length) :
    (memcpy b i src).take (i + src.length) = b.take i ++ src := by
  unfold memcpy
  have hl : (List.take i b ++ src).length = i + src.length := by simp [h]
  rw [← hl, List.take_left']
  rfl

theorem memcpy_zero_take (b : List Nat) (src : List Nat) (n : Nat) (h : src.length ≤ n) :
    (memcpy b 0 src).take n = src ++ (b.take n).drop src.length := by
  unfold memcpy
  simp only [List.take_zero, List.nil_append, Nat.zero_add]
  rw [List.take_append_eq_append_take, List.take_of_length_le h, List.drop_take]

theorem slot_bytes_length (v a : Nat) (val : Fin 64 → Nat) :
    (slot_bytes v a val).length = if v ≠ 0 then 72 else 0 := by
  unfold slot_bytes
  split <;> simp [le_bytes_length]

theorem write_destination_eq (inst : trace_instr_format_t) (c : Cursor) (i : Fin 4) :
    write_destination inst c i =
      put_slot (inst.d_valid i) (inst.destination_memory i) (inst.d_value i) (32 + 4 * i.val) c :=
  rfl

theorem write_source_eq (inst : trace_instr_format_t) (c : Cursor) (i : Fin 4) :
    write_source inst c i =
      put_slot (inst.s_valid i) (inst.source_memory i) (inst.s_value i) (48 + 4 * i.val) c :=
  rfl

theorem put_slot_filled {c : Cursor} {bytes : List Nat} {key bit : Nat} (v a : Nat)
    (val : Fin 64 → Nat) (h : Filled c bytes key bit) (hb : bytes.length + 72 ≤ 1152)
    (hbit : bit + 4 ≤ 64) :
    Filled (put_slot v a val bit c) (bytes ++ slot_bytes v a val) (key + nibble v * 2 ^ bit)
      (bit + 4) := by
  obtain ⟨hl, hi, ht, hk, hlt⟩ := h
  have hpow : 2 ^ (bit + 4) ≤ 2 ^ 64 := Nat.pow_le_pow_right (by decide) hbit
  have hp4 : 2 ^ (bit + 4) = 16 * 2 ^ bit := by rw [pow_add]; ring
  by_cases hv : v = 0
  · subst hv
    have hlt4 : key < 2 ^ (bit + 4) := by omega
    have ht2 := ht
    rw [hi] at ht2
    refine ⟨?_, ?_, ?_, ?_, ?_⟩ <;> simp [put_slot, slot_bytes, nibble, hl, hi, ht2, hk, hlt4]
  · have h1 : (c.index + 8) % 2 ^ 32 = c.index + 8 := Nat.mod_eq_of_lt (by omega)
    have h2 : (c.index + 8 + 64) % 2 ^ 32 = c.index + 72 := Nat.mod_eq_of_lt (by omega)
    have hb1 : (memcpy c.buffer c.index (le_bytes 8 a)).length = 1152 := by
      rw [memcpy_length _ _ _ (by rw [le_bytes_length]; omega), hl]
    have ht1 : (memcpy c.buffer c.index (le_bytes 8 a)).take (c.index + 8) = bytes ++ le_bytes 8 a := by
      have := memcpy_take c.buffer c.index (le_bytes 8 a) (by omega)
      rw [le_bytes_length] at this
      rw [this, ht]
    have hput : put_slot v a val bit c =
        { buffer := memcpy (memcpy c.buffer c.index (le_bytes 8 a)) (c.index + 8) (List.ofFn val),
          index := c.index + 72,
          encode_key := (c.encode_key + (0xf <<< bit)) % 2 ^ 64 } := by
      simp only [put_slot, hv, ne_eq, not_false_eq_true, if_true, h1, h2]
    rw [hput]
    refine ⟨?_, ?_, ?_, ?_, ?_⟩
    · show (memcpy _ _ _).length = 1152
      rw [memcpy_length _ _ _ (by rw [hb1, List.length_ofFn]; omega), hb1]
    · show c.index + 72 = _
      simp [slot_bytes, hv, le_bytes_length, hi]
    · show (memcpy _ _ _).take (c.index + 72) = _
      have := memcpy_take (memcpy c.buffer c.index (le_bytes 8 a)) (c.index + 8) (List.ofFn val)
        (by omega)
      rw [List.length_ofFn] at this
      rw [show c.index + 72 = c.index + 8 + 64 from rfl, this, ht1]
      simp [slot_bytes, hv]
    · show (c.encode_key + (0xf <<< bit)) % 2 ^ 64 = _
      rw [Nat.shiftLeft_eq, hk]
      simp only [nibble, hv, ne_eq, not_false_eq_true, if_true]
      apply Nat.mod_eq_of_lt
      omega
    · simp only [nibble, hv, ne_eq, not_false_eq_true, if_true]
      omega

theorem header_bytes_length (inst : trace_instr_format_t) : (header_bytes inst).length = 32 := by
  simp [header_bytes, le_bytes_length]

theorem stack_buffer_length : stack_buffer.length = 1152 := List.length_replicate _ _

theorem header_filled (inst : trace_instr_format_t) (h0 : inst.encode_key = 0) :
    Filled { buffer := memcpy stack_buffer 0 (header_bytes inst), index := 32,
             encode_key := inst.encode_key } (header_bytes inst) 0 32 := by
  refine ⟨?_, ?_, ?_, h0, by decide⟩
  · show (memcpy _ _ _).length = 1152
    rw [memcpy_length _ _ _ (by rw [header_bytes_length, stack_buffer_length]; decide),
      stack_buffer_length]
  · rw [header_bytes_length]
  · show (memcpy _ _ _).take 32 = _
    have := memcpy_take stack_buffer 0 (header_bytes inst) (Nat.zero_le _)
    rw [header_bytes_length] at this
    simpa using this

theorem raw_layout_length (inst : trace_instr_format_t) :
    (raw_layout inst).length = 32 + 72 * valid_count inst := by
  simp only [raw_layout, List.length_append, header_bytes_length, slot_bytes_length, valid_count,
    slots, List.countP_cons, List.countP_nil, decide_eq_true_eq]
  split_ifs <;> rfl

theorem valid_count_le (inst : trace_instr_format_t) : valid_count inst ≤ 8 := by
  unfold valid_count
  have h1 := List.countP_le_length (fun i => decide (inst.d_valid i ≠ 0)) (l := slots)
  have h2 := List.countP_le_length (fun i => decide (inst.s_valid i ≠ 0)) (l := slots)
  have h3 : slots.length = 4 := rfl
  omega

theorem slot_bytes_le (v a : Nat) (val : Fin 64 → Nat) : (slot_bytes v a val).length ≤ 72 := by
  rw [slot_bytes_length]; split <;> omega

theorem loops_unfold (inst : trace_instr_format_t) (c : Cursor) :
    slots.foldl (write_source inst) (slots.foldl (write_destination inst) c) =
      put_slot (inst.s_valid 3) (inst.source_memory 3) (inst.s_value 3) 60
      (put_slot (inst.s_valid 2) (inst.source_memory 2) (inst.s_value 2) 56
      (put_slot (inst.s_valid 1) (inst.source_memory 1) (inst.s_value 1) 52
      (put_slot (inst.s_valid 0) (inst.source_memory 0) (inst.s_value 0) 48
      (put_slot (inst.d_valid 3) (inst.destination_memory 3) (inst.d_value 3) 44
      (put_slot (inst.d_valid 2) (inst.destination_memory 2) (inst.d_value 2) 40
      (put_slot (inst.d_valid 1) (inst.destination_memory 1) (inst.d_value 1) 36
      (put_slot (inst.d_valid 0) (inst.destination_memory 0) (inst.d_value 0) 32 c))))))) := by
  simp only [slots, List.foldl, write_destination_eq, write_source_eq]
  rfl

theorem loops_filled (inst : trace_instr_format_t) (h0 : inst.encode_key = 0) :
    Filled (loops inst) (raw_layout inst) (raw_key inst) 64 := by
  have hh := header_bytes_length inst
  have d0 := slot_bytes_le (inst.d_valid 0) (inst.destination_memory 0) (inst.d_value 0)
  have d1 := slot_bytes_le (inst.d_valid 1) (inst.destination_memory 1) (inst.d_value 1)
  have d2 := slot_bytes_le (inst.d_valid 2) (inst.destination_memory 2) (inst.d_value 2)
  have d3 := slot_bytes_le (inst.d_valid 3) (inst.destination_memory 3) (inst.d_value 3)
  have s0 := slot_bytes_le (inst.s_valid 0) (inst.source_memory 0) (inst.s_value 0)
  have s1 := slot_bytes_le (inst.s_valid 1) (inst.source_memory 1) (inst.s_value 1)
  have s2 := slot_bytes_le (inst.s_valid 2) (inst.source_memory 2) (inst.s_value 2)
  have f0 := header_filled inst h0
  have f1 := put_slot_filled (inst.d_valid 0) (inst.destination_memory 0) (inst.d_value 0) f0
    (by omega) (by decide)
  have f2 := put_slot_filled (inst.d_valid 1) (inst.destination_memory 1) (inst.d_value 1) f1
    (by simp only [List.length_append]; omega) (by decide)
  have f3 := put_slot_filled (inst.d_valid 2) (inst.destination_memory 2) (inst.d_value 2) f2
    (by simp only [List.length_append]; omega) (by decide)
  have f4 := put_slot_filled (inst.d_valid 3) (inst.destination_memory 3) (inst.d_value 3) f3
    (by simp only [List.length_append]; omega) (by decide)
  have f5 := put_slot_filled (inst.s_valid 0) (inst.source_memory 0) (inst.s_value 0) f4
    (by simp only [List.length_append]; omega) (by decide)
  have f6 := put_slot_filled (inst.s_valid 1) (inst.source_memory 1) (inst.s_value 1) f5
    (by simp only [List.length_append]; omega) (by decide)
  have f7 := put_slot_filled (inst.s_valid 2) (inst.source_memory 2) (inst.s_value 2) f6
    (by simp only [List.length_append]; omega) (by decide)
  have f8 := put_slot_filled (inst.s_valid 3) (inst.source_memory 3) (inst.s_value 3) f7
    (by simp only [List.length_append]; omega) (by decide)
  rw [loops, loops_unfold]
  exact f8

theorem raw_key_eq (inst : trace_instr_format_t) :
    raw_key inst = 2 ^ 32 * (nibble (inst.d_valid 0) + nibble (inst.d_valid 1) * 2 ^ 4 +
      nibble (inst.d_valid 2) * 2 ^ 8 + nibble (inst.d_valid 3) * 2 ^ 12 +
      nibble (inst.s_valid 0) * 2 ^ 16 + nibble (inst.s_valid 1) * 2 ^ 20 +
      nibble (inst.s_valid 2) * 2 ^ 24 + nibble (inst.s_valid 3) * 2 ^ 28) := by
  unfold raw_key
  ring

theorem final_key_eq (inst : trace_instr_format_t) (n : Nat) (h8 : 8 ≤ n) (hn : n ≤ 608) :
    ((((n + 2 ^ 32 - 8) % 2 ^ 32) &&& 0xffffffff) ||| raw_key inst) = reference_key inst n := by
  have h1 : (n + 2 ^ 32 - 8) % 2 ^ 32 = n - 8 := by omega
  have h2 : (n - 8) &&& 0xffffffff = n - 8 := by
    rw [show (0xffffffff : Nat) = 2 ^ 32 - 1 from rfl, Nat.and_pow_two_sub_one_eq_mod]
    omega
  have h3 : n - 8 < 2 ^ 32 := by omega
  rw [h1, h2, Nat.lor_comm, raw_key_eq, ← Nat.mul_add_lt_is_or h3]
  unfold reference_key
  ring

theorem list_ofFn_four (f : Fin 4 → Nat) : List.ofFn f = [f 0, f 1, f 2, f 3] := by
  simp [List.ofFn_succ]
  rfl

theorem raw_layout_drop (inst : trace_instr_format_t) (key : Nat) :
    le_bytes 8 key ++ (raw_layout inst).drop 8 = record_layout key inst := by
  have h : raw_layout inst = le_bytes 8 inst.encode_key ++ (le_bytes 8 inst.ip ++
      (le_bytes 4 inst.is_branch ++ (le_bytes 4 inst.branch_taken ++
      ([inst.destination_registers 0, inst.destination_registers 1,
        inst.destination_registers 2, inst.destination_registers 3] ++
      ([inst.source_registers 0, inst.source_registers 1,
        inst.source_registers 2, inst.source_registers 3] ++
      (slot_bytes (inst.d_valid 0) (inst.destination_memory 0) (inst.d_value 0) ++
      (slot_bytes (inst.d_valid 1) (inst.destination_memory 1) (inst.d_value 1) ++
      (slot_bytes (inst.d_valid 2) (inst.destination_memory 2) (inst.d_value 2) ++
      (slot_bytes (inst.d_valid 3) (inst.destination_memory 3) (inst.d_value 3) ++
      (slot_bytes (inst.s_valid 0) (inst.source_memory 0) (inst.s_value 0) ++
      (slot_bytes (inst.s_valid 1) (inst.source_memory 1) (inst.s_value 1) ++
      (slot_bytes (inst.s_valid 2) (inst.source_memory 2) (inst.s_value 2) ++
        slot_bytes (inst.s_valid 3) (inst.source_memory 3) (inst.s_value 3))))))))))))) := by
    simp only [raw_layout, header_bytes, list_ofFn_four, List.append_assoc]
  rw [h, List.drop_left' (le_bytes_length 8 _)]
  simp only [record_layout, List.append_assoc]

theorem fill_buffer_spec (inst : trace_instr_format_t) (h0 : inst.encode_key = 0) :
    (fill_buffer inst).index = 32 + 72 * valid_count inst ∧
    (fill_buffer inst).encode_key = reference_key inst (32 + 72 * valid_count inst) ∧
    (fill_buffer inst).buffer.take (fill_buffer inst).index =
      record_layout (reference_key inst (32 + 72 * valid_count inst)) inst := by
  obtain ⟨-, hi, ht, hk, -⟩ := loops_filled inst h0
  have hcnt := valid_count_le inst
  rw [raw_layout_length] at hi
  have e1 : (fill_buffer inst).index = (loops inst).index := rfl
  have e2 : (fill_buffer inst).encode_key =
      ((((loops inst).index + 2 ^ 32 - 8) % 2 ^ 32) &&& 0xffffffff) ||| (loops inst).encode_key :=
    rfl
  have e3 : (fill_buffer inst).buffer =
      memcpy (loops inst).buffer 0 (le_bytes 8 (fill_buffer inst).encode_key) := rfl
  have hkey : (fill_buffer inst).encode_key = reference_key inst (32 + 72 * valid_count inst) := by
    rw [e2, hi, hk]
    exact final_key_eq inst _ (by omega) (by omega)
  refine ⟨e1.trans hi, hkey, ?_⟩
  rw [e3, e1, memcpy_zero_take _ _ _ (by rw [le_bytes_length, hi]; omega), ht, le_bytes_length,
    hkey]
  exact raw_layout_drop inst _

/-! ## Arithmetic of the reference key -/

theorem nibble_le (v : Nat) : nibble v ≤ 15 := by
  unfold nibble; split <;> omega

theorem nibble_eq_zero (v : Nat) : nibble v = 0 ↔ v = 0 := by
  unfold nibble; split <;> simp_all

theorem key_digits (l x0 x1 x2 x3 y0 y1 y2 y3 : Nat) (hl : l < 2 ^ 32) (a0 : x0 ≤ 15)
    (a1 : x1 ≤ 15) (a2 : x2 ≤ 15) (a3 : x3 ≤ 15) (b0 : y0 ≤ 15) (b1 : y1 ≤ 15) (b2 : y2 ≤ 15)
    (b3 : y3 ≤ 15) (k : Nat)
    (hk : k = l + (x0 * 2 ^ 32 + x1 * 2 ^ 36 + x2 * 2 ^ 40 + x3 * 2 ^ 44) +
      (y0 * 2 ^ 48 + y1 * 2 ^ 52 + y2 * 2 ^ 56 + y3 * 2 ^ 60)) :
    k < 2 ^ 64 ∧ k % 2 ^ 32 = l ∧
    (k / 2 ^ 32 % 16 = x0 ∧ k / 2 ^ 36 % 16 = x1 ∧ k / 2 ^ 40 % 16 = x2 ∧ k / 2 ^ 44 % 16 = x3) ∧
    (k / 2 ^ 48 % 16 = y0 ∧ k / 2 ^ 52 % 16 = y1 ∧ k / 2 ^ 56 % 16 = y2 ∧ k / 2 ^ 60 % 16 = y3) ∧
    (k / 2 ^ 32 % 2 ^ 16 = 0 ↔ x0 = 0 ∧ x1 = 0 ∧ x2 = 0 ∧ x3 = 0) ∧
    (k / 2 ^ 48 % 2 ^ 16 = 0 ↔ y0 = 0 ∧ y1 = 0 ∧ y2 = 0 ∧ y3 = 0) := by
  subst hk
  refine ⟨by omega, by omega, ⟨by omega, by omega, by omega, by omega⟩,
    ⟨by omega, by omega, by omega, by omega⟩, by omega, by omega⟩

theorem reference_key_facts (inst : trace_instr_format_t) (L : Nat) (hL : L ≤ 608) :
    reference_key inst L < 2 ^ 64 ∧ reference_key inst L % 2 ^ 32 = L - 8 ∧
    (∀ i : Fin 4, (reference_key inst L >>> (32 + 4 * i.val)) % 16 = nibble (inst.d_valid i)) ∧
    (∀ i : Fin 4, (reference_key inst L >>> (48 + 4 * i.val)) % 16 = nibble (inst.s_valid i)) ∧
    ((reference_key inst L >>> 32) % 2 ^ 16 = 0 ↔ ∀ i, inst.d_valid i = 0) ∧
    ((reference_key inst L >>> 48) % 2 ^ 16 = 0 ↔ ∀ i, inst.s_valid i = 0) := by
  obtain ⟨h1, h2, ⟨d0, d1, d2, d3⟩, ⟨s0, s1, s2, s3⟩, hd, hs⟩ :=
    key_digits (L - 8) _ _ _ _ _ _ _ _ (by omega)
      (nibble_le (inst.d_valid 0)) (nibble_le (inst.d_valid 1)) (nibble_le (inst.d_valid 2))
      (nibble_le (inst.d_valid 3)) (nibble_le (inst.s_valid 0)) (nibble_le (inst.s_valid 1))
      (nibble_le (inst.s_valid 2)) (nibble_le (inst.s_valid 3)) (reference_key inst L) rfl
  simp only [Nat.shiftRight_eq_div_pow]
  refine ⟨h1, h2, ?_, ?_, ?_, ?_⟩
  · intro i; fin_cases i
    exacts [d0, d1, d2, d3]
  · intro i; fin_cases i
    exacts [s0, s1, s2, s3]
  · rw [hd]
    simp only [nibble_eq_zero]
    constructor
    · rintro ⟨e0, e1, e2, e3⟩ i
      fin_cases i
      exacts [e0, e1, e2, e3]
    · intro h; exact ⟨h 0, h 1, h 2, h 3⟩
  · rw [hs]
    simp only [nibble_eq_zero]
    constructor
    · rintro ⟨e0, e1, e2, e3⟩ i
      fin_cases i
      exacts [e0, e1, e2, e3]
    · intro h; exact ⟨h 0, h 1, h 2, h 3⟩

/-! ## What `write_inst_to_file` does -/

theorem write_inst_to_file_active (s : State) (ht : s.tracing = true) (hip : s.inst.ip ≠ 0) :
    write_inst_to_file s =
      { s with
        inst := { s.inst with
          encode_key := reference_key s.inst (32 + 72 * valid_count s.inst) },
        writes := s.writes ++
          [record_layout (reference_key s.inst (32 + 72 * valid_count s.inst)) s.inst] } := by
  obtain ⟨h1, h2, h3⟩ := fill_buffer_spec { s.inst with encode_key := 0 } rfl
  unfold write_inst_to_file
  simp only [ht, hip, Bool.not_true, if_false, Bool.false_eq_true]
  rw [h3, h2]
  rfl

theorem record_layout_length (key : Nat) (inst : trace_instr_format_t) :
    (record_layout key inst).length = 32 + 72 * valid_count inst := by
  rw [← raw_layout_drop inst key, ← raw_layout_length]
  have := raw_layout_length inst
  simp only [List.length_append, le_bytes_length, List.length_drop]
  omega

theorem record_layout_take_key (key : Nat) (inst : trace_instr_format_t) :
    (record_layout key inst).take 8 = le_bytes 8 key := by
  simp only [record_layout, List.append_assoc]
  exact List.take_left' (le_bytes_length 8 key)

theorem layout_key_value (inst : trace_instr_format_t) (L : Nat) (hL : L ≤ 608) :
    from_le ((record_layout (reference_key inst L) inst).take 8) = reference_key inst L := by
  rw [record_layout_take_key, from_le_le_bytes]
  exact Nat.mod_eq_of_lt (reference_key_facts inst L hL).1

/-- C1: while capture is active and `ip` is nonzero, the call writes one
buffer whose first 8 bytes, read little-endian, are the reference key: low 32
bits are the total length minus 8, nibble `i` of bits 32-47 is `0xF` exactly
when `d_valid[i]` is set, nibble `i` of bits 48-63 is `0xF` exactly when
`s_valid[i]` is set; hence bits 32-47 (48-63) vanish iff no destination
(source) slot is valid. -/
theorem write_inst_to_file_encode_key (s : State) (ht : s.tracing = true)
    (hip : s.inst.ip ≠ 0) :
    ∃ bytes : List Nat,
      (write_inst_to_file s).writes = s.writes ++ [bytes] ∧ 8 ≤ bytes.length ∧
      from_le (bytes.take 8) = reference_key s.inst bytes.length ∧
      from_le (bytes.take 8) % 2 ^ 32 = bytes.length - 8 ∧
      (∀ i : Fin 4, (from_le (bytes.take 8) >>> (32 + 4 * i.val)) % 16 =
        if s.inst.d_valid i ≠ 0 then 0xF else 0) ∧
      (∀ i : Fin 4, (from_le (bytes.take 8) >>> (48 + 4 * i.val)) % 16 =
        if s.inst.s_valid i ≠ 0 then 0xF else 0) ∧
      ((from_le (bytes.take 8) >>> 32) % 2 ^ 16 = 0 ↔ ∀ i, s.inst.d_valid i = 0) ∧
      ((from_le (bytes.take 8) >>> 48) % 2 ^ 16 = 0 ↔ ∀ i, s.inst.s_valid i = 0) := by
  have hcnt := valid_count_le s.inst
  have hL : 32 + 72 * valid_count s.inst ≤ 608 := by omega
  obtain ⟨-, h2, h3, h4, h5, h6⟩ := reference_key_facts s.inst _ hL
  refine ⟨record_layout (reference_key s.inst (32 + 72 * valid_count s.inst)) s.inst, ?_, ?_⟩
  · rw [write_inst_to_file_active s ht hip]
  · rw [layout_key_value s.inst _ hL, record_layout_length]
    exact ⟨by omega, rfl, h2, h3, h4, h5, h6⟩

theorem write_inst_to_file_encode_key_witness :
    sample_state.tracing = true ∧ sample_state.inst.ip ≠ 0 ∧
    ∃ bytes : List Nat,
      (write_inst_to_file sample_state).writes = sample_state.writes ++ [bytes] ∧
      from_le (bytes.take 8) % 2 ^ 32 = bytes.length - 8 := by
  obtain ⟨bytes, h1, -, -, h4, -⟩ :=
    write_inst_to_file_encode_key sample_state rfl (by decide)
  exact ⟨rfl, by decide, bytes, h1, h4⟩

/-- C2: while capture is active and `ip` is nonzero, the bytes written are
exactly the record layout (key, `ip`, `is_branch`, `branch_taken`, the four
destination and the four source register ids, the valid destination slots,
then the valid source slots, each as address and snapshot); their number is
`32 + 72 * (number of valid slots)` and never exceeds 608. -/
theorem write_inst_to_file_layout (s : State) (ht : s.tracing = true)
    (hip : s.inst.ip ≠ 0) :
    (write_inst_to_file s).writes =
      s.writes ++ [record_layout (write_inst_to_file s).inst.encode_key s.inst] ∧
    (record_layout (write_inst_to_file s).inst.encode_key s.inst).length =
      32 + 72 * valid_count s.inst ∧
    32 + 72 * valid_count s.inst ≤ 608 := by
  have hcnt := valid_count_le s.inst
  refine ⟨?_, record_layout_length _ _, by omega⟩
  rw [write_inst_to_file_active s ht hip]

theorem write_inst_to_file_layout_witness :
    sample_state.tracing = true ∧ sample_state.inst.ip ≠ 0 ∧
    (record_layout (write_inst_to_file sample_state).inst.encode_key sample_state.inst).length =
      32 + 72 * valid_count sample_state.inst :=
  ⟨rfl, by decide, (write_inst_to_file_layout sample_state rfl (by decide)).2.1⟩

/-- C4: while capture is active, `ip = 0` writes nothing and leaves the state
as it is, and `ip != 0` writes exactly one buffer, of at least 32 bytes,
carrying `ip` in bytes 8-15, whatever the other fields hold; a record with no
register entry, no valid slot and zero branch fields is written as exactly 32
bytes: the key 24, `ip`, and sixteen zero bytes. -/
theorem write_inst_to_file_gate (s : State) (ht : s.tracing = true) :
    (s.inst.ip = 0 → write_inst_to_file s = s) ∧
    (s.inst.ip ≠ 0 → ∃ bytes : List Nat,
      (write_inst_to_file s).writes = s.writes ++ [bytes] ∧ 32 ≤ bytes.length ∧
      (bytes.drop 8).take 8 = le_bytes 8 s.inst.ip) ∧
    (s.inst.ip ≠ 0 → s.inst.is_branch = 0 → s.inst.branch_taken = 0 →
      (∀ i, s.inst.destination_registers i = 0) → (∀ i, s.inst.source_registers i = 0) →
      (∀ i, s.inst.d_valid i = 0) → (∀ i, s.inst.s_valid i = 0) →
      (write_inst_to_file s).writes =
        s.writes ++ [[24, 0, 0, 0, 0, 0, 0, 0] ++ le_bytes 8 s.inst.ip ++ List.replicate 16 0] ∧
      ([24, 0, 0, 0, 0, 0, 0, 0] ++ le_bytes 8 s.inst.ip ++ List.replicate 16 0).length = 32) := by
  refine ⟨?_, ?_, ?_⟩
  · intro h0
    simp [write_inst_to_file, h0]
  · intro hip
    refine ⟨record_layout (reference_key s.inst (32 + 72 * valid_count s.inst)) s.inst, ?_, ?_, ?_⟩
    · rw [write_inst_to_file_active s ht hip]
    · rw [record_layout_length]; omega
    · simp only [record_layout, List.append_assoc]
      rw [List.drop_left' (le_bytes_length 8 _), List.take_left' (le_bytes_length 8 _)]
  · intro hip hb ht2 hd hs hdv hsv
    refine ⟨?_, by simp [le_bytes_length]⟩
    rw [write_inst_to_file_active s ht hip]
    have hc : valid_count s.inst = 0 := by
      simp [valid_count, slots, hdv, hsv]
    simp only [hc, record_layout, slot_bytes, hdv, hsv, hd, hs, hb, ht2, reference_key, nibble]
    simp [le_bytes]

theorem write_inst_to_file_gate_witness :
    sample_state.tracing = true ∧
    ∃ bytes : List Nat,
      (write_inst_to_file sample_state).writes = sample_state.writes ++ [bytes] ∧
      32 ≤ bytes.length ∧ (bytes.drop 8).take 8 = le_bytes 8 sample_state.inst.ip := by
  obtain ⟨bytes, h⟩ := (write_inst_to_file_gate sample_state rfl).2.1 (by decide)
  exact ⟨rfl, bytes, h⟩

/-! ## Reading back what was written -/

theorem take_le_bytes_append (n v : Nat) (r : List Nat) :
    (le_bytes n v ++ r).take n = le_bytes n v :=
  List.take_left' (le_bytes_length n v)

theorem drop_le_bytes_append (n v : Nat) (r : List Nat) :
    (le_bytes n v ++ r).drop n = r :=
  List.drop_left' (le_bytes_length n v)

theorem pick4_eta {α : Type} (f : Fin 4 → α) : pick4 (f 0) (f 1) (f 2) (f 3) = f := by
  funext i
  fin_cases i <;> rfl

theorem pick4_comp {α β : Type} (g : α → β) (a b c d : α) :
    (fun i => g (pick4 a b c d i)) = pick4 (g a) (g b) (g c) (g d) := by
  funext i
  fin_cases i <;> rfl

theorem getD_four (a b c d : Nat) :
    (fun i : Fin 4 => [a, b, c, d].getD i.val 0) = pick4 a b c d := by
  funext i
  fin_cases i <;> rfl

theorem getD_ofFn (val : Fin 64 → Nat) :
    (fun j : Fin 64 => (List.ofFn val).getD j.val 0) = val := by
  funext j
  rw [List.getD_eq_getElem _ _ (by simp), List.getElem_ofFn]

theorem read_slot_slot_bytes (p : Bool) (v a : Nat) (val : Fin 64 → Nat) (rest : List Nat)
    (hp : p = decide (v ≠ 0)) (ha : a < 2 ^ 64)
    (h : v = 1 ∨ (v = 0 ∧ a = 0 ∧ ∀ j, val j = 0)) :
    read_slot p (slot_bytes v a val ++ rest) =
      some ({ addr := a, valid := v, value := val }, rest) := by
  rcases h with h1 | ⟨h0, ha0, hv0⟩
  · subst h1
    subst hp
    have hlen : ¬ (le_bytes 8 a ++ (List.ofFn val ++ rest)).length < 72 := by
      simp only [List.length_append, le_bytes_length, List.length_ofFn]
      omega
    have h72 : (le_bytes 8 a ++ (List.ofFn val ++ rest)).drop 72 = rest := by
      rw [show 72 = 8 + 64 from rfl, ← List.drop_drop, drop_le_bytes_append,
        List.drop_left' (List.length_ofFn val)]
    simp only [read_slot, slot_bytes, ne_eq, one_ne_zero, not_false_eq_true, decide_True,
      if_true, List.append_assoc, hlen, if_false, take_le_bytes_append, drop_le_bytes_append,
      List.take_left' (List.length_ofFn val), h72, from_le_le_bytes, getD_ofFn]
    rw [Nat.mod_eq_of_lt (show a < 256 ^ 8 from ha)]
  · subst h0
    subst hp
    subst ha0
    have hval : val = fun _ => 0 := funext hv0
    subst hval
    simp [read_slot, slot_bytes, Slot.absent]

theorem key_present_eq (k bit v : Nat) (h : (k >>> bit) % 16 = nibble v) :
    key_present k bit = decide (v ≠ 0) := by
  unfold key_present
  rw [h]
  unfold nibble
  by_cases hv : v = 0 <;> simp [hv]

theorem decode_record_layout (k : Nat) (inst : trace_instr_format_t) (hk : k < 2 ^ 64)
    (hlen : k % 2 ^ 32 + 8 = 32 + 72 * valid_count inst)
    (hd : ∀ i : Fin 4, (k >>> (32 + 4 * i.val)) % 16 = nibble (inst.d_valid i))
    (hs : ∀ i : Fin 4, (k >>> (48 + 4 * i.val)) % 16 = nibble (inst.s_valid i))
    (hw : well_typed inst) (hp : populated inst) :
    decode_record (record_layout k inst) = some { inst with encode_key := k } := by
  obtain ⟨-, w2, w3, w4, w5, w6, w7, w8, -, -, -, -⟩ := hw
  obtain ⟨pd, ps⟩ := hp
  have l1 : (record_layout k inst).length = k % 2 ^ 32 + 8 := by
    rw [record_layout_length, hlen]
  have l2 : ¬ k % 2 ^ 32 + 8 < 32 := by omega
  have hkey : from_le ((record_layout k inst).take 8) = k := by
    rw [record_layout_take_key, from_le_le_bytes]
    exact Nat.mod_eq_of_lt hk
  unfold decode_record
  simp only [hkey, l1, l2, ne_eq, not_true_eq_false, if_false]
  simp only [record_layout, List.append_assoc, drop_le_bytes_append, take_le_bytes_append,
    from_le_le_bytes]
  have e4 : ∀ (a b c d : Nat) (r : List Nat), ([a, b, c, d] ++ r).drop 4 = r := fun _ _ _ _ _ => rfl
  have t4 : ∀ (a b c d : Nat) (r : List Nat), ([a, b, c, d] ++ r).take 4 = [a, b, c, d] :=
    fun _ _ _ _ _ => rfl
  simp only [e4, t4]
  rw [read_slot_slot_bytes _ _ _ _ _ (key_present_eq k 32 _ (hd 0)) (w7 0) (pd 0)]
  simp only [Option.bind_eq_bind, Option.some_bind]
  rw [read_slot_slot_bytes _ _ _ _ _ (key_present_eq k 36 _ (hd 1)) (w7 1) (pd 1)]
  simp only [Option.bind_eq_bind, Option.some_bind]
  rw [read_slot_slot_bytes _ _ _ _ _ (key_present_eq k 40 _ (hd 2)) (w7 2) (pd 2)]
  simp only [Option.bind_eq_bind, Option.some_bind]
  rw [read_slot_slot_bytes _ _ _ _ _ (key_present_eq k 44 _ (hd 3)) (w7 3) (pd 3)]
  simp only [Option.bind_eq_bind, Option.some_bind]
  rw [read_slot_slot_bytes _ _ _ _ _ (key_present_eq k 48 _ (hs 0)) (w8 0) (ps 0)]
  simp only [Option.bind_eq_bind, Option.some_bind]
  rw [read_slot_slot_bytes _ _ _ _ _ (key_present_eq k 52 _ (hs 1)) (w8 1) (ps 1)]
  simp only [Option.bind_eq_bind, Option.some_bind]
  rw [read_slot_slot_bytes _ _ _ _ _ (key_present_eq k 56 _ (hs 2)) (w8 2) (ps 2)]
  simp only [Option.bind_eq_bind, Option.some_bind]
  have last := read_slot_slot_bytes _ _ _ _ [] (key_present_eq k 60 _ (hs 3)) (w8 3) (ps 3)
  rw [List.append_nil] at last
  rw [last]
  simp only [Option.bind_eq_bind, Option.some_bind, not_true_eq_false, if_false, getD_four,
    pick4_comp, pick4_eta, Nat.mod_eq_of_lt (show inst.ip < 256 ^ 8 from w2),
    Nat.mod_eq_of_lt (show inst.is_branch < 256 ^ 4 from w3),
    Nat.mod_eq_of_lt (show inst.branch_taken < 256 ^ 4 from w4)]

theorem sample_record_well_typed : well_typed sample_record := by
  unfold well_typed
  decide

theorem sample_record_populated : populated sample_record := by
  unfold populated
  decide

/-- C3: round trip.  For a record with nonzero `ip`, fields in the range of
their C types and 0 to 4 populated memory slots per side, the reader applied
to the bytes written by `write_inst_to_file` returns that record (`ip`, branch
fields, all eight register slots, every address, valid flag and snapshot; the
key field holds the key that was read); two such records that are written as
the same bytes agree in every field other than the key. -/
theorem decode_record_write_inst_to_file (s : State) (ht : s.tracing = true)
    (hip : s.inst.ip ≠ 0) (hw : well_typed s.inst) (hp : populated s.inst) :
    ∃ bytes : List Nat,
      (write_inst_to_file s).writes = s.writes ++ [bytes] ∧
      decode_record bytes = some { s.inst with encode_key := from_le (bytes.take 8) } ∧
      ∀ t : State, t.tracing = true → t.inst.ip ≠ 0 → well_typed t.inst → populated t.inst →
        (write_inst_to_file t).writes = t.writes ++ [bytes] →
        { t.inst with encode_key := 0 } = { s.inst with encode_key := 0 } := by
  have key : ∀ u : State, well_typed u.inst → populated u.inst →
      decode_record (record_layout (reference_key u.inst (32 + 72 * valid_count u.inst)) u.inst) =
        some { u.inst with
               encode_key := reference_key u.inst (32 + 72 * valid_count u.inst) } := by
    intro u huw hup
    have hcnt := valid_count_le u.inst
    obtain ⟨h1, h2, h3, h4, -, -⟩ :=
      reference_key_facts u.inst (32 + 72 * valid_count u.inst) (by omega)
    exact decode_record_layout _ _ h1 (by omega) h3 h4 huw hup
  have hcnt := valid_count_le s.inst
  refine ⟨record_layout (reference_key s.inst (32 + 72 * valid_count s.inst)) s.inst, ?_, ?_, ?_⟩
  · rw [write_inst_to_file_active s ht hip]
  · rw [layout_key_value s.inst _ (by omega)]
    exact key s hw hp
  · intro t htt htip htw htp hwr
    rw [write_inst_to_file_active t htt htip] at hwr
    have hb := List.append_cancel_left hwr
    simp only [List.cons.injEq, and_true] at hb
    have e1 := key t htw htp
    rw [hb, key s hw hp] at e1
    have e2 := Option.some.inj e1
    have e3 := congrArg (fun r : trace_instr_format_t => { r with encode_key := 0 }) e2
    exact e3.symm

theorem decode_record_write_inst_to_file_witness :
    sample_state.tracing = true ∧ sample_state.inst.ip ≠ 0 ∧ well_typed sample_state.inst ∧
    populated sample_state.inst ∧
    ∃ bytes : List Nat,
      (write_inst_to_file sample_state).writes = sample_state.writes ++ [bytes] ∧
      decode_record bytes =
        some { sample_state.inst with encode_key := from_le (bytes.take 8) } := by
  obtain ⟨bytes, h1, h2, -⟩ := decode_record_write_inst_to_file sample_state rfl (by decide)
    sample_record_well_typed sample_record_populated
  exact ⟨rfl, by decide, sample_record_well_typed, sample_record_populated, bytes, h1, h2⟩

/-! ## The window state machine -/

theorem inc_inst_instructions (o : Options) (s : State) :
    (inc_inst o s).instructions = (s.instructions + 1) % 2 ^ 64 := by
  unfold inc_inst
  generalize (s.instructions + 1) % 2 ^ 64 = i
  generalize (o.skip + o.trace_instrs + 1) % 2 ^ 64 = t
  simp only
  split_ifs <;> rfl

theorem inc_inst_tracing (o : Options) (s : State) :
    (inc_inst o s).tracing =
      if (s.instructions + 1) % 2 ^ 64 = (o.skip + o.trace_instrs + 1) % 2 ^ 64 then false
      else if (s.instructions + 1) % 2 ^ 64 = o.skip then true else s.tracing := by
  unfold inc_inst
  generalize (s.instructions + 1) % 2 ^ 64 = i
  generalize (o.skip + o.trace_instrs + 1) % 2 ^ 64 = t
  simp only
  split_ifs <;> simp_all

theorem inc_inst_tracing_done (o : Options) (s : State) :
    (inc_inst o s).tracing_done =
      (s.tracing_done ||
        decide ((s.instructions + 1) % 2 ^ 64 = (o.skip + o.trace_instrs + 1) % 2 ^ 64)) := by
  unfold inc_inst
  generalize (s.instructions + 1) % 2 ^ 64 = i
  generalize (o.skip + o.trace_instrs + 1) % 2 ^ 64 = t
  simp only
  split_ifs <;> simp_all

theorem inc_inst_closes (o : Options) (s : State) :
    (inc_inst o s).closes =
      s.closes + (if (s.instructions + 1) % 2 ^ 64 = (o.skip + o.trace_instrs + 1) % 2 ^ 64 ∧
        s.tracing_done = false then 1 else 0) := by
  unfold inc_inst
  generalize (s.instructions + 1) % 2 ^ 64 = i
  generalize (o.skip + o.trace_instrs + 1) % 2 ^ 64 = t
  simp only
  split_ifs <;> simp_all

theorem inc_inst_completed (o : Options) (s : State) :
    (inc_inst o s).notices.count Notice.completed =
      s.notices.count Notice.completed +
        (if (s.instructions + 1) % 2 ^ 64 = (o.skip + o.trace_instrs + 1) % 2 ^ 64 ∧
          s.tracing_done = false then 1 else 0) := by
  unfold inc_inst
  generalize (s.instructions + 1) % 2 ^ 64 = i
  generalize (o.skip + o.trace_instrs + 1) % 2 ^ 64 = t
  simp only
  split_ifs <;> simp_all [List.count_cons, List.count_append]

theorem inc_inst_exited (o : Options) (s : State) :
    (inc_inst o s).exited =
      (s.exited || (decide ((s.instructions + 1) % 2 ^ 64 =
        (o.skip + o.trace_instrs + 1) % 2 ^ 64) && !s.tracing_done && o.exit_after_tracing)) := by
  unfold inc_inst
  generalize (s.instructions + 1) % 2 ^ 64 = i
  generalize (o.skip + o.trace_instrs + 1) % 2 ^ 64 = t
  simp only
  split_ifs <;> simp_all

theorem boundaries_succ (o : Options) (n : Nat) (s : State) :
    boundaries o (n + 1) s = boundary o (boundaries o n s) := rfl

/-- With exit-after-tracing disabled, the process never exits, the counter is
the number of events modulo `2 ^ 64`, and the completion effects were executed
once if `tracing_done` is set and never otherwise. -/
theorem boundaries_no_exit (o : Options) (hex : o.exit_after_tracing = false) (n : Nat) :
    (boundaries o n State.initial).exited = false ∧
    (boundaries o n State.initial).instructions = n % 2 ^ 64 ∧
    (boundaries o n State.initial).closes =
      (if (boundaries o n State.initial).tracing_done = true then 1 else 0) ∧
    (boundaries o n State.initial).notices.count Notice.completed =
      (if (boundaries o n State.initial).tracing_done = true then 1 else 0) ∧
    ((boundaries o n State.initial).tracing_done = true ↔
      ∃ k, 1 ≤ k ∧ k ≤ n ∧ k % 2 ^ 64 = (o.skip + o.trace_instrs + 1) % 2 ^ 64) := by
  induction n with
  | zero =>
    refine ⟨rfl, rfl, rfl, rfl, ?_⟩
    constructor
    · intro h; exact absurd h (Bool.false_ne_true)
    · rintro ⟨k, h1, h2, -⟩; omega
  | succ n ih =>
    obtain ⟨i1, i2, i3, i4, i5⟩ := ih
    have hb : boundaries o (n + 1) State.initial = inc_inst o (boundaries o n State.initial) := by
      rw [boundaries_succ, boundary, i1]; rfl
    rw [hb, inc_inst_exited, inc_inst_instructions, inc_inst_closes, inc_inst_completed,
      inc_inst_tracing_done, i1, i2, i3, i4, hex]
    have hmod : (n % 2 ^ 64 + 1) % 2 ^ 64 = (n + 1) % 2 ^ 64 := by omega
    rw [hmod]
    refine ⟨by simp, rfl, ?_, ?_, ?_⟩
    · cases hd : (boundaries o n State.initial).tracing_done <;> simp
    · cases hd : (boundaries o n State.initial).tracing_done <;> simp
    · simp only [Bool.or_eq_true, decide_eq_true_eq, i5]
      constructor
      · rintro (⟨k, h1, h2, h3⟩ | h)
        · exact ⟨k, h1, by omega, h3⟩
        · exact ⟨n + 1, by omega, le_refl _, h⟩
      · rintro ⟨k, h1, h2, h3⟩
        by_cases hk : k = n + 1
        · right; rw [← hk]; exact h3
        · left; exact ⟨k, h1, by omega, h3⟩

/-- With exit-after-tracing disabled, `skip >= 1` and no wrap of
`skip + trace_instrs + 1`: capture is active after `n` events exactly when
`n mod 2 ^ 64` lies in `[skip, skip + trace_instrs]`. -/
theorem boundaries_no_exit_tracing (o : Options) (hex : o.exit_after_tracing = false)
    (h1 : 1 ≤ o.skip) (hT : o.skip + o.trace_instrs + 1 < 2 ^ 64) (n : Nat) :
    ((boundaries o n State.initial).tracing = true ↔
      o.skip ≤ n % 2 ^ 64 ∧ n % 2 ^ 64 ≤ o.skip + o.trace_instrs) := by
  induction n with
  | zero =>
    constructor
    · intro h; exact absurd h (Bool.false_ne_true)
    · intro h; omega
  | succ n ih =>
    obtain ⟨i1, i2, -⟩ := boundaries_no_exit o hex n
    have hb : boundaries o (n + 1) State.initial = inc_inst o (boundaries o n State.initial) := by
      rw [boundaries_succ, boundary, i1]; rfl
    rw [hb, inc_inst_tracing, i2]
    have hmod : (n % 2 ^ 64 + 1) % 2 ^ 64 = (n + 1) % 2 ^ 64 := by omega
    have hTm : (o.skip + o.trace_instrs + 1) % 2 ^ 64 = o.skip + o.trace_instrs + 1 :=
      Nat.mod_eq_of_lt hT
    rw [hmod, hTm]
    split_ifs with c1 c2
    · simp only [Bool.false_eq_true, false_iff]; omega
    · simp only [true_iff]; omega
    · rw [ih]; omega

/-- With exit-after-tracing enabled and no wrap of `skip + trace_instrs + 1`:
the run stops at the Done transition; with `skip >= 1` capture is active
after `n` events exactly when `n` lies in `[skip, skip + trace_instrs]`. -/
theorem boundaries_exit (o : Options) (hex : o.exit_after_tracing = true)
    (hT : o.skip + o.trace_instrs + 1 < 2 ^ 64) (n : Nat) :
    (boundaries o n State.initial).instructions = min n (o.skip + o.trace_instrs + 1) ∧
    ((boundaries o n State.initial).exited = true ↔ o.skip + o.trace_instrs + 1 ≤ n) ∧
    ((boundaries o n State.initial).tracing_done = true ↔ o.skip + o.trace_instrs + 1 ≤ n) ∧
    (1 ≤ o.skip → ((boundaries o n State.initial).tracing = true ↔
      o.skip ≤ n ∧ n ≤ o.skip + o.trace_instrs)) ∧
    (o.skip = 0 → (boundaries o n State.initial).tracing = false) := by
  induction n with
  | zero =>
    refine ⟨by simp [boundaries, State.initial], ?_, ?_, ?_, ?_⟩
    · constructor
      · intro h; exact absurd h (Bool.false_ne_true)
      · intro h; omega
    · constructor
      · intro h; exact absurd h (Bool.false_ne_true)
      · intro h; omega
    · intro h1
      constructor
      · intro h; exact absurd h (Bool.false_ne_true)
      · intro h; omega
    · intro _; rfl
  | succ n ih =>
    obtain ⟨i1, i2, i3, i4, i5⟩ := ih
    have hTm : (o.skip + o.trace_instrs + 1) % 2 ^ 64 = o.skip + o.trace_instrs + 1 :=
      Nat.mod_eq_of_lt hT
    by_cases hx : (boundaries o n State.initial).exited = true
    · have hb : boundaries o (n + 1) State.initial = boundaries o n State.initial := by
        rw [boundaries_succ, boundary, hx]; rfl
      have hle := i2.mp hx
      rw [hb, i1]
      refine ⟨by omega, ?_, ?_, ?_, ?_⟩
      · rw [i2]; omega
      · rw [i3]; omega
      · intro h1; rw [i4 h1]; omega
      · exact i5
    · have hx2 : (boundaries o n State.initial).exited = false := by
        cases h : (boundaries o n State.initial).exited
        · rfl
        · exact absurd h hx
      have hlt : n < o.skip + o.trace_instrs + 1 := by
        by_contra hc
        exact hx (i2.mpr (by omega))
      have hd : (boundaries o n State.initial).tracing_done = false := by
        cases h : (boundaries o n State.initial).tracing_done
        · rfl
        · have := i3.mp h; omega
      have hb : boundaries o (n + 1) State.initial = inc_inst o (boundaries o n State.initial) := by
        rw [boundaries_succ, boundary, hx2]; rfl
      have hi : (boundaries o n State.initial).instructions = n := by rw [i1]; omega
      have hmod : (n + 1) % 2 ^ 64 = n + 1 := by omega
      rw [hb, inc_inst_exited, inc_inst_instructions, inc_inst_tracing, inc_inst_tracing_done, hx2,
        hd, hex, hi, hmod, hTm]
      refine ⟨by omega, ?_, ?_, ?_, ?_⟩
      · simp; omega
      · simp; omega
      · intro h1
        split_ifs with c1 c2
        · simp only [Bool.false_eq_true, false_iff]; omega
        · simp only [true_iff]; omega
        · rw [i4 h1]; omega
      · intro h0
        split_ifs with c1 c2
        · rfl
        · omega
        · exact i5 h0

/-- With the skip count 0 capture is not active after any number of events
below `2 ^ 64`, whatever the other options. -/
theorem boundaries_skip_zero (o : Options) (h0 : o.skip = 0) (n : Nat) (hn : n < 2 ^ 64) :
    (boundaries o n State.initial).tracing = false ∧
    (boundaries o n State.initial).instructions ≤ n := by
  induction n with
  | zero => exact ⟨rfl, le_refl _⟩
  | succ n ih =>
    obtain ⟨i1, i2⟩ := ih (by omega)
    rw [boundaries_succ, boundary]
    split_ifs with hx
    · exact ⟨i1, by omega⟩
    · rw [inc_inst_tracing, inc_inst_instructions, i1, h0]
      have hmod : ((boundaries o n State.initial).instructions + 1) % 2 ^ 64 =
          (boundaries o n State.initial).instructions + 1 := by omega
      rw [hmod]
      refine ⟨?_, by omega⟩
      split_ifs <;> first | rfl | contradiction

theorem ct_fini_closes (s : State) :
    (ct_fini s).closes = s.closes + (if s.tracing_done = true then 0 else 1) := by
  unfold ct_fini
  cases h : s.tracing_done <;> simp [h]

/-- C5 (as amended): for `skip >= 1` and `skip + trace_instrs + 1 < 2 ^ 64`,
after `n` boundary events from the initial state capture is inactive and not
done for `n < skip`, active for `skip <= n <= skip + trace_instrs`, and
inactive and done for `skip + trace_instrs + 1 <= n < 2 ^ 64 + skip`. -/
theorem window_phases (o : Options) (h1 : 1 ≤ o.skip)
    (hT : o.skip + o.trace_instrs + 1 < 2 ^ 64) (n : Nat) (hn : n < 2 ^ 64 + o.skip) :
    (n < o.skip → (boundaries o n State.initial).tracing = false ∧
      (boundaries o n State.initial).tracing_done = false) ∧
    (o.skip ≤ n → n ≤ o.skip + o.trace_instrs →
      (boundaries o n State.initial).tracing = true ∧
      (boundaries o n State.initial).tracing_done = false) ∧
    (o.skip + o.trace_instrs + 1 ≤ n → (boundaries o n State.initial).tracing = false ∧
      (boundaries o n State.initial).tracing_done = true) := by
  have key : ((boundaries o n State.initial).tracing = true ↔
        o.skip ≤ n ∧ n ≤ o.skip + o.trace_instrs) ∧
      ((boundaries o n State.initial).tracing_done = true ↔ o.skip + o.trace_instrs + 1 ≤ n) := by
    cases hex : o.exit_after_tracing
    · obtain ⟨-, -, -, -, i5⟩ := boundaries_no_exit o hex n
      have i6 := boundaries_no_exit_tracing o hex h1 hT n
      refine ⟨?_, ?_⟩
      · rw [i6]; omega
      · rw [i5, Nat.mod_eq_of_lt hT]
        constructor
        · rintro ⟨k, k1, k2, k3⟩
          by_contra hc
          rw [Nat.mod_eq_of_lt (by omega)] at k3
          omega
        · intro h
          exact ⟨o.skip + o.trace_instrs + 1, by omega, h, Nat.mod_eq_of_lt hT⟩
    · obtain ⟨-, -, i3, i4, -⟩ := boundaries_exit o hex hT n
      exact ⟨i4 h1, i3⟩
  obtain ⟨kt, kd⟩ := key
  have bt : ∀ b : Bool, ¬ b = true → b = false := fun b h => by cases b <;> simp_all
  refine ⟨?_, ?_, ?_⟩
  · intro h
    exact ⟨bt _ (fun c => by have := kt.mp c; omega), bt _ (fun c => by have := kd.mp c; omega)⟩
  · intro ha hb
    exact ⟨kt.mpr ⟨ha, hb⟩, bt _ (fun c => by have := kd.mp c; omega)⟩
  · intro h
    exact ⟨bt _ (fun c => by have := kt.mp c; omega), kd.mpr h⟩

theorem window_phases_witness :
    (∀ n ∈ List.range 10,
      (boundaries { skip := 10, trace_instrs := 5, exit_after_tracing := false } n
        State.initial).tracing = false) ∧
    (boundaries { skip := 10, trace_instrs := 5, exit_after_tracing := false } 10
      State.initial).tracing = true ∧
    (boundaries { skip := 10, trace_instrs := 5, exit_after_tracing := false } 15
      State.initial).tracing = true ∧
    (boundaries { skip := 10, trace_instrs := 5, exit_after_tracing := false } 16
      State.initial).tracing = false ∧
    (boundaries { skip := 10, trace_instrs := 5, exit_after_tracing := false } 16
      State.initial).tracing_done = true :=
  ⟨by decide,
   ((window_phases ⟨10, 5, false⟩ (by decide) (by decide) 10 (by decide)).2.1
      (by decide) (by decide)).1,
   ((window_phases ⟨10, 5, false⟩ (by decide) (by decide) 15 (by decide)).2.1
      (by decide) (by decide)).1,
   ((window_phases ⟨10, 5, false⟩ (by decide) (by decide) 16 (by decide)).2.2 (by decide)).1,
   ((window_phases ⟨10, 5, false⟩ (by decide) (by decide) 16 (by decide)).2.2 (by decide)).2⟩

/-- C5 (counterexample): with skip 10, trace count 5 and exit-after-tracing
disabled, after `2 ^ 64 + 10` boundary events, a number that is at least
`skip + trace + 1 = 16`, capture is active again: the 64-bit counter wrapped
and met the skip count a second time. -/
theorem window_reopens_after_wrap :
    10 + 5 + 1 ≤ 2 ^ 64 + 10 ∧
    (boundaries { skip := 10, trace_instrs := 5, exit_after_tracing := false } (2 ^ 64 + 10)
      State.initial).tracing = true :=
  ⟨by decide,
   (boundaries_no_exit_tracing ⟨10, 5, false⟩ rfl (by decide) (by decide) (2 ^ 64 + 10)).mpr
     (by decide)⟩

/-- C6 (the code at the failing input): with the skip count 0 capture is not
active after any number of boundary events below `2 ^ 64`: the counter is
incremented before it is compared with the skip count, so it never equals 0. -/
theorem inc_inst_skip_zero_inactive (o : Options) (h0 : o.skip = 0) (n : Nat)
    (hn : n < 2 ^ 64) : (boundaries o n State.initial).tracing = false :=
  (boundaries_skip_zero o h0 n hn).1

theorem inc_inst_skip_zero_inactive_witness :
    Options.default.skip = 0 ∧ (boundaries Options.default 1 State.initial).tracing = false ∧
    (boundaries Options.default 1000 State.initial).tracing = false :=
  ⟨rfl, inc_inst_skip_zero_inactive Options.default rfl 1 (by decide),
    inc_inst_skip_zero_inactive Options.default rfl 1000 (by decide)⟩

/-- C7: with exit-after-tracing disabled, after any number `n` of boundary
events the completion notice was printed and the stream closed by `inc_inst`
at most once each, exactly once if `n >= skip + trace_instrs + 1`; after
`ct_fini` the stream has been closed exactly once over the whole run: by
`inc_inst` if the Done transition was reached, by `ct_fini` otherwise. -/
theorem completion_once (o : Options) (hex : o.exit_after_tracing = false) (n : Nat) :
    (boundaries o n State.initial).closes ≤ 1 ∧
    (boundaries o n State.initial).notices.count Notice.completed ≤ 1 ∧
    (o.skip + o.trace_instrs + 1 ≤ n →
      (boundaries o n State.initial).tracing_done = true ∧
      (boundaries o n State.initial).closes = 1 ∧
      (boundaries o n State.initial).notices.count Notice.completed = 1) ∧
    (ct_fini (boundaries o n State.initial)).closes = 1 ∧
    ((boundaries o n State.initial).tracing_done = true →
      (boundaries o n State.initial).closes = 1 ∧
      (ct_fini (boundaries o n State.initial)).closes =
        (boundaries o n State.initial).closes) ∧
    ((boundaries o n State.initial).tracing_done = false →
      (boundaries o n State.initial).closes = 0 ∧
      (ct_fini (boundaries o n State.initial)).closes =
        (boundaries o n State.initial).closes + 1) := by
  obtain ⟨-, -, i3, i4, i5⟩ := boundaries_no_exit o hex n
  rw [ct_fini_closes, i3, i4]
  cases hd : (boundaries o n State.initial).tracing_done
  · simp only [Bool.false_eq_true, if_false, true_and, implies_true, and_true, false_implies]
    refine ⟨by omega, by omega, ?_⟩
    intro h
    have : (boundaries o n State.initial).tracing_done = true :=
      i5.mpr ⟨o.skip + o.trace_instrs + 1, by omega, h, rfl⟩
    rw [hd] at this
    exact absurd this Bool.false_ne_true
  · simp

theorem completion_once_witness :
    (ct_fini (boundaries { skip := 10, trace_instrs := 5, exit_after_tracing := false } 20
      State.initial)).closes = 1 ∧
    (ct_fini (boundaries { skip := 10, trace_instrs := 5, exit_after_tracing := false } 3
      State.initial)).closes = 1 ∧
    (boundaries { skip := 10, trace_instrs := 5, exit_after_tracing := false } 20
      State.initial).notices.count Notice.completed = 1 :=
  ⟨(completion_once ⟨10, 5, false⟩ rfl 20).2.2.2.1,
   (completion_once ⟨10, 5, false⟩ rfl 3).2.2.2.1,
   ((completion_once ⟨10, 5, false⟩ rfl 20).2.2.1 (by decide)).2.2⟩

/-! ## The accumulator -/

theorem already_found_iff (a : Fin 4 → Nat) (v : Nat) :
    already_found a v = true ↔ ∃ i, a i = v := by
  simp only [already_found, slots, List.any_cons, List.any_nil, Bool.or_false, Bool.or_eq_true,
    decide_eq_true_eq]
  constructor
  · rintro (h | h | h | h) <;> exact ⟨_, h⟩
  · rintro ⟨i, h⟩
    fin_cases i
    · exact Or.inl h
    · exact Or.inr (Or.inl h)
    · exact Or.inr (Or.inr (Or.inl h))
    · exact Or.inr (Or.inr (Or.inr h))

theorem already_found_false (a : Fin 4 → Nat) (v : Nat) (h : ∀ i, a i ≠ v) :
    already_found a v = false := by
  cases hf : already_found a v
  · rfl
  · obtain ⟨i, hi⟩ := (already_found_iff a v).mp hf
    exact absurd hi (h i)

theorem first_empty_some (a : Fin 4 → Nat) (i : Fin 4) (hi : a i = 0)
    (hlow : ∀ j, j < i → a j ≠ 0) : first_empty a = some i := by
  unfold first_empty slots
  fin_cases i
  · have e : a 0 = 0 := hi
    simp [List.find?, e]
  · have e : a 1 = 0 := hi
    have h0 := hlow 0 (by decide)
    simp [List.find?, e, h0]
  · have e : a 2 = 0 := hi
    have h0 := hlow 0 (by decide)
    have h1 := hlow 1 (by decide)
    simp [List.find?, e, h0, h1]
  · have e : a 3 = 0 := hi
    have h0 := hlow 0 (by decide)
    have h1 := hlow 1 (by decide)
    have h2 := hlow 2 (by decide)
    simp [List.find?, e, h0, h1, h2]

theorem first_empty_none (a : Fin 4 → Nat) (h : ∀ i, a i ≠ 0) : first_empty a = none := by
  unfold first_empty slots
  simp [List.find?, h 0, h 1, h 2, h 3]

theorem first_empty_zero (a : Fin 4 → Nat) (i : Fin 4) (h : first_empty a = some i) :
    a i = 0 := by
  unfold first_empty at h
  have := List.find?_some h
  simpa using this

theorem already_found_update (a : Fin 4 → Nat) (i : Fin 4) (v : Nat) :
    already_found (Function.update a i v) v = true :=
  (already_found_iff _ _).mpr ⟨i, Function.update_same i v a⟩

theorem trace_reg_read_result (r : Int) (s : State) (ht : s.tracing = true) :
    trace_reg_read r s = s ∨
    ∃ i, trace_reg_read r s =
      { s with
        inst := { s.inst with
          source_registers := Function.update s.inst.source_registers i (uchar r) } } := by
  unfold trace_reg_read
  simp only [ht, Bool.not_true, Bool.false_eq_true, if_false]
  split_ifs
  · exact Or.inl rfl
  · cases first_empty s.inst.source_registers with
    | none => exact Or.inl rfl
    | some i => exact Or.inr ⟨i, rfl⟩

theorem trace_reg_write_result (r : Int) (s : State) (ht : s.tracing = true) :
    trace_reg_write r s = s ∨
    ∃ i, trace_reg_write r s =
      { s with
        inst := { s.inst with
          destination_registers :=
            Function.update s.inst.destination_registers i (uchar r) } } := by
  unfold trace_reg_write
  simp only [ht, Bool.not_true, Bool.false_eq_true, if_false]
  split_ifs
  · exact Or.inl rfl
  · cases first_empty s.inst.destination_registers with
    | none => exact Or.inl rfl
    | some i => exact Or.inr ⟨i, rfl⟩

theorem trace_load_result (m : Memory) (addr size : Nat) (s : State) (ht : s.tracing = true) :
    trace_load m addr size s = s ∨
    ∃ i, trace_load m addr size s =
      { s with
        inst := { s.inst with
          source_memory := Function.update s.inst.source_memory i (addr % 2 ^ 64),
          s_valid := Function.update s.inst.s_valid i 1,
          s_value := Function.update s.inst.s_value i
            (fun j => (m (((addr >>> 6) <<< 6) % 2 ^ 64 + j.val)).val) } } := by
  unfold trace_load
  simp only [ht, Bool.not_true, Bool.false_eq_true, if_false]
  split_ifs
  · exact Or.inl rfl
  · cases first_empty s.inst.source_memory with
    | none => exact Or.inl rfl
    | some i => exact Or.inr ⟨i, rfl⟩

theorem trace_store_result (m : Memory) (addr size : Nat) (s : State) (ht : s.tracing = true) :
    trace_store m addr size s = s ∨
    ∃ i, trace_store m addr size s =
      { s with
        inst := { s.inst with
          destination_memory := Function.update s.inst.destination_memory i (addr % 2 ^ 64),
          d_valid := Function.update s.inst.d_valid i 1,
          d_value := Function.update s.inst.d_value i
            (fun j => (m (((addr >>> 6) <<< 6) % 2 ^ 64 + j.val)).val) } } := by
  unfold trace_store
  simp only [ht, Bool.not_true, Bool.false_eq_true, if_false]
  split_ifs
  · exact Or.inl rfl
  · cases first_empty s.inst.destination_memory with
    | none => exact Or.inl rfl
    | some i => exact Or.inr ⟨i, rfl⟩

/-- C8: deduplication.  While capture is active, applying `trace_reg_read`,
`trace_reg_write`, `trace_load` or `trace_store` a second time with the same
value leaves the state as the first application left it, also when the memory
contents and the size argument of the second call differ. -/
theorem insert_twice (s : State) (ht : s.tracing = true) (r : Int) (addr size size2 : Nat)
    (m m2 : Memory) :
    trace_reg_read r (trace_reg_read r s) = trace_reg_read r s ∧
    trace_reg_write r (trace_reg_write r s) = trace_reg_write r s ∧
    trace_load m2 addr size2 (trace_load m addr size s) = trace_load m addr size s ∧
    trace_store m2 addr size2 (trace_store m addr size s) = trace_store m addr size s := by
  refine ⟨?_, ?_, ?_, ?_⟩
  · rcases trace_reg_read_result r s ht with h | ⟨i, h⟩
    · rw [h]; exact h
    · rw [h]
      simp only [trace_reg_read, ht, Bool.not_true, Bool.false_eq_true, if_false,
        already_found_update, if_true]
  · rcases trace_reg_write_result r s ht with h | ⟨i, h⟩
    · rw [h]; exact h
    · rw [h]
      simp only [trace_reg_write, ht, Bool.not_true, Bool.false_eq_true, if_false,
        already_found_update, if_true]
  · rcases trace_load_result m addr size s ht with h | ⟨i, h⟩
    · rw [h]
      unfold trace_load at h ⊢
      simp only [ht, Bool.not_true, Bool.false_eq_true, if_false] at h ⊢
      split_ifs with hf
      · rfl
      · rw [if_neg hf] at h
        cases hfe : first_empty s.inst.source_memory with
        | none => rfl
        | some i =>
          rw [hfe] at h
          have h1 := congrArg (fun t : State => t.inst.source_memory i) h
          simp only [Function.update_same] at h1
          rw [first_empty_zero _ _ hfe] at h1
          exact absurd ((already_found_iff _ _).mpr ⟨i, by rw [first_empty_zero _ _ hfe, h1]⟩) hf
    · rw [h]
      simp only [trace_load, ht, Bool.not_true, Bool.false_eq_true, if_false,
        already_found_update, if_true]
  · rcases trace_store_result m addr size s ht with h | ⟨i, h⟩
    · rw [h]
      unfold trace_store at h ⊢
      simp only [ht, Bool.not_true, Bool.false_eq_true, if_false] at h ⊢
      split_ifs with hf
      · rfl
      · rw [if_neg hf] at h
        cases hfe : first_empty s.inst.destination_memory with
        | none => rfl
        | some i =>
          rw [hfe] at h
          have h1 := congrArg (fun t : State => t.inst.destination_memory i) h
          simp only [Function.update_same] at h1
          rw [first_empty_zero _ _ hfe] at h1
          exact absurd ((already_found_iff _ _).mpr ⟨i, by rw [first_empty_zero _ _ hfe, h1]⟩) hf
    · rw [h]
      simp only [trace_store, ht, Bool.not_true, Bool.false_eq_true, if_false,
        already_found_update, if_true]

theorem uchar_natCast (v : Nat) (hv : v < 256) : uchar (v : Int) = v := by
  unfold uchar
  omega

theorem cache_block_mask (addr : Nat) (ha : addr < 2 ^ 64) :
    ((addr >>> 6) <<< 6) % 2 ^ 64 = addr &&& 0xFFFFFFFFFFFFFFC0 := by
  have hle : (addr >>> 6) <<< 6 ≤ addr := by
    rw [Nat.shiftLeft_eq, Nat.shiftRight_eq_div_pow]
    exact Nat.div_mul_le_self addr (2 ^ 6)
  rw [Nat.mod_eq_of_lt (by omega)]
  apply Nat.eq_of_testBit_eq
  intro j
  have hc : (0xFFFFFFFFFFFFFFC0 : Nat) = (2 ^ 58 - 1) <<< 6 := by decide
  rw [Nat.testBit_and, hc, Nat.testBit_shiftLeft, Nat.testBit_shiftLeft, Nat.testBit_shiftRight,
    Nat.testBit_two_pow_sub_one]
  by_cases h6 : 6 ≤ j
  · have e : 6 + (j - 6) = j := by omega
    rw [e]
    by_cases h64 : j < 64
    · have : j - 6 < 58 := by omega
      simp [h6, this]
    · have hlt : addr < 2 ^ j :=
        lt_of_lt_of_le ha (Nat.pow_le_pow_right (by decide) (by omega))
      rw [Nat.testBit_lt_two_pow hlt]
      simp
  · simp [h6]

theorem insert_twice_witness :
    active_state.tracing = true ∧
    trace_reg_read 7 (trace_reg_read 7 active_state) = trace_reg_read 7 active_state ∧
    trace_load (fun _ => 9) 0x2345 4
        (trace_load sample_memory 0x2345 8 active_state) =
      trace_load sample_memory 0x2345 8 active_state :=
  ⟨rfl, (insert_twice active_state rfl 7 0x2345 8 4 sample_memory (fun _ => 9)).1,
    (insert_twice active_state rfl 7 0x2345 8 4 sample_memory (fun _ => 9)).2.2.1⟩

/-- C9: first fit and capacity.  While capture is active, for a value not
already present in the target set (a register id below 256, an address below
`2 ^ 64`): if slot `i` is empty and every lower slot is occupied, the
operation writes the value to slot `i` and changes nothing else in that set
(`trace_load` and `trace_store` also set the valid flag and the snapshot of
slot `i`); if all four slots are occupied the state is left as it is. -/
theorem insert_first_fit (s : State) (ht : s.tracing = true) :
    (∀ v : Nat, v < 256 → (∀ j, s.inst.source_registers j ≠ v) →
      (∀ i, s.inst.source_registers i = 0 → (∀ j, j < i → s.inst.source_registers j ≠ 0) →
        trace_reg_read (v : Int) s =
          { s with
            inst := { s.inst with
              source_registers := Function.update s.inst.source_registers i v } }) ∧
      ((∀ i, s.inst.source_registers i ≠ 0) → trace_reg_read (v : Int) s = s)) ∧
    (∀ v : Nat, v < 256 → (∀ j, s.inst.destination_registers j ≠ v) →
      (∀ i, s.inst.destination_registers i = 0 →
        (∀ j, j < i → s.inst.destination_registers j ≠ 0) →
        trace_reg_write (v : Int) s =
          { s with
            inst := { s.inst with
              destination_registers := Function.update s.inst.destination_registers i v } }) ∧
      ((∀ i, s.inst.destination_registers i ≠ 0) → trace_reg_write (v : Int) s = s)) ∧
    (∀ (m : Memory) (addr size : Nat), addr < 2 ^ 64 → (∀ j, s.inst.source_memory j ≠ addr) →
      (∀ i, s.inst.source_memory i = 0 → (∀ j, j < i → s.inst.source_memory j ≠ 0) →
        trace_load m addr size s =
          { s with
            inst := { s.inst with
              source_memory := Function.update s.inst.source_memory i addr,
              s_valid := Function.update s.inst.s_valid i 1,
              s_value := Function.update s.inst.s_value i
                (fun j => (m (((addr >>> 6) <<< 6) % 2 ^ 64 + j.val)).val) } }) ∧
      ((∀ i, s.inst.source_memory i ≠ 0) → trace_load m addr size s = s)) ∧
    (∀ (m : Memory) (addr size : Nat), addr < 2 ^ 64 →
      (∀ j, s.inst.destination_memory j ≠ addr) →
      (∀ i, s.inst.destination_memory i = 0 →
        (∀ j, j < i → s.inst.destination_memory j ≠ 0) →
        trace_store m addr size s =
          { s with
            inst := { s.inst with
              destination_memory := Function.update s.inst.destination_memory i addr,
              d_valid := Function.update s.inst.d_valid i 1,
              d_value := Function.update s.inst.d_value i
                (fun j => (m (((addr >>> 6) <<< 6) % 2 ^ 64 + j.val)).val) } }) ∧
      ((∀ i, s.inst.destination_memory i ≠ 0) → trace_store m addr size s = s)) := by
  refine ⟨?_, ?_, ?_, ?_⟩
  · intro v hv hnp
    have hf := already_found_false _ _ hnp
    refine ⟨?_, ?_⟩
    · intro i hi hlow
      simp only [trace_reg_read, ht, Bool.not_true, Bool.false_eq_true, if_false,
        uchar_natCast v hv, hf, first_empty_some _ i hi hlow]
    · intro hfull
      simp only [trace_reg_read, ht, Bool.not_true, Bool.false_eq_true, if_false,
        uchar_natCast v hv, hf, first_empty_none _ hfull]
  · intro v hv hnp
    have hf := already_found_false _ _ hnp
    refine ⟨?_, ?_⟩
    · intro i hi hlow
      simp only [trace_reg_write, ht, Bool.not_true, Bool.false_eq_true, if_false,
        uchar_natCast v hv, hf, first_empty_some _ i hi hlow]
    · intro hfull
      simp only [trace_reg_write, ht, Bool.not_true, Bool.false_eq_true, if_false,
        uchar_natCast v hv, hf, first_empty_none _ hfull]
  · intro m addr size ha hnp
    have hf := already_found_false _ _ hnp
    refine ⟨?_, ?_⟩
    · intro i hi hlow
      simp only [trace_load, ht, Bool.not_true, Bool.false_eq_true, if_false,
        Nat.mod_eq_of_lt ha, hf, first_empty_some _ i hi hlow]
    · intro hfull
      simp only [trace_load, ht, Bool.not_true, Bool.false_eq_true, if_false,
        Nat.mod_eq_of_lt ha, hf, first_empty_none _ hfull]
  · intro m addr size ha hnp
    have hf := already_found_false _ _ hnp
    refine ⟨?_, ?_⟩
    · intro i hi hlow
      simp only [trace_store, ht, Bool.not_true, Bool.false_eq_true, if_false,
        Nat.mod_eq_of_lt ha, hf, first_empty_some _ i hi hlow]
    · intro hfull
      simp only [trace_store, ht, Bool.not_true, Bool.false_eq_true, if_false,
        Nat.mod_eq_of_lt ha, hf, first_empty_none _ hfull]

theorem insert_first_fit_witness :
    active_state.tracing = true ∧ full_state.tracing = true ∧
    trace_reg_read 7 active_state =
      { active_state with
        inst := { active_state.inst with
          source_registers := Function.update active_state.inst.source_registers 0 7 } } ∧
    trace_reg_read 5 full_state = full_state :=
  ⟨rfl, rfl,
    ((insert_first_fit active_state rfl).1 7 (by decide) (by decide)).1 0 rfl (by decide),
    ((insert_first_fit full_state rfl).1 5 (by decide) (by decide)).2 (by decide)⟩

/-- C10: snapshot capture.  While capture is active, for an address below
`2 ^ 64` that is not yet in the target set, with slot `i` the lowest empty
slot: after `trace_load` (`trace_store`) slot `i` holds the address, its valid
flag is 1 and snapshot byte `j` is the memory byte at `(addr & ~63) + j`; the
result is the same for every size; the base `(addr >> 6) << 6` the code
computes is `addr & ~63`. -/
theorem snapshot_capture (s : State) (ht : s.tracing = true) (m : Memory) (addr size : Nat)
    (ha : addr < 2 ^ 64) (i : Fin 4) :
    ((∀ j, s.inst.source_memory j ≠ addr) → s.inst.source_memory i = 0 →
      (∀ j, j < i → s.inst.source_memory j ≠ 0) →
      (trace_load m addr size s).inst.source_memory i = addr ∧
      (trace_load m addr size s).inst.s_valid i = 1 ∧
      (∀ j : Fin 64, (trace_load m addr size s).inst.s_value i j =
        (m ((addr &&& 0xFFFFFFFFFFFFFFC0) + j.val)).val) ∧
      ∀ size2, trace_load m addr size2 s = trace_load m addr size s) ∧
    ((∀ j, s.inst.destination_memory j ≠ addr) → s.inst.destination_memory i = 0 →
      (∀ j, j < i → s.inst.destination_memory j ≠ 0) →
      (trace_store m addr size s).inst.destination_memory i = addr ∧
      (trace_store m addr size s).inst.d_valid i = 1 ∧
      (∀ j : Fin 64, (trace_store m addr size s).inst.d_value i j =
        (m ((addr &&& 0xFFFFFFFFFFFFFFC0) + j.val)).val) ∧
      ∀ size2, trace_store m addr size2 s = trace_store m addr size s) ∧
    ((addr >>> 6) <<< 6) % 2 ^ 64 = addr &&& 0xFFFFFFFFFFFFFFC0 := by
  have hmask := cache_block_mask addr ha
  refine ⟨?_, ?_, hmask⟩
  · intro hnp hi hlow
    have hf := already_found_false _ _ hnp
    have e : ∀ sz, trace_load m addr sz s =
        { s with
          inst := { s.inst with
            source_memory := Function.update s.inst.source_memory i addr,
            s_valid := Function.update s.inst.s_valid i 1,
            s_value := Function.update s.inst.s_value i
              (fun j => (m (((addr >>> 6) <<< 6) % 2 ^ 64 + j.val)).val) } } := by
      intro sz
      simp only [trace_load, ht, Bool.not_true, Bool.false_eq_true, if_false,
        Nat.mod_eq_of_lt ha, hf, first_empty_some _ i hi hlow]
    refine ⟨?_, ?_, ?_, ?_⟩
    · rw [e]; exact Function.update_same _ _ _
    · rw [e]; exact Function.update_same _ _ _
    · intro j
      rw [e, ← hmask]
      simp only [Function.update_same]
    · intro sz; rw [e, e]
  · intro hnp hi hlow
    have hf := already_found_false _ _ hnp
    have e : ∀ sz, trace_store m addr sz s =
        { s with
          inst := { s.inst with
            destination_memory := Function.update s.inst.destination_memory i addr,
            d_valid := Function.update s.inst.d_valid i 1,
            d_value := Function.update s.inst.d_value i
              (fun j => (m (((addr >>> 6) <<< 6) % 2 ^ 64 + j.val)).val) } } := by
      intro sz
      simp only [trace_store, ht, Bool.not_true, Bool.false_eq_true, if_false,
        Nat.mod_eq_of_lt ha, hf, first_empty_some _ i hi hlow]
    refine ⟨?_, ?_, ?_, ?_⟩
    · rw [e]; exact Function.update_same _ _ _
    · rw [e]; exact Function.update_same _ _ _
    · intro j
      rw [e, ← hmask]
      simp only [Function.update_same]
    · intro sz; rw [e, e]

theorem snapshot_capture_witness :
    active_state.tracing = true ∧ 0x2345 < 2 ^ 64 ∧
    (trace_store sample_memory 0x2345 8 active_state).inst.destination_memory 0 = 0x2345 ∧
    (trace_store sample_memory 0x2345 8 active_state).inst.d_valid 0 = 1 ∧
    (∀ j : Fin 64, (trace_store sample_memory 0x2345 8 active_state).inst.d_value 0 j =
      (sample_memory ((0x2345 &&& 0xFFFFFFFFFFFFFFC0) + j.val)).val) :=
  ⟨rfl, by decide,
    ((snapshot_capture active_state rfl sample_memory 0x2345 8 (by decide) 0).2.1
      (by decide) rfl (by decide)).1,
    ((snapshot_capture active_state rfl sample_memory 0x2345 8 (by decide) 0).2.1
      (by decide) rfl (by decide)).2.1,
    ((snapshot_capture active_state rfl sample_memory 0x2345 8 (by decide) 0).2.1
      (by decide) rfl (by decide)).2.2.1⟩

/-! ## Branch events, reset and the inactive state -/

/-- C11: conditional-branch direction.  The full-mode handler sets
`is_branch = 1` and `branch_taken = guard XOR inverted`; the lite-mode handler
follows the same rule: it increments (as an `unsigned int`, modulo `2 ^ 32`)
the taken tally when `guard XOR inverted` holds and the not-taken tally
otherwise, and changes nothing else. -/
theorem branch_direction (arch : Arch) (ci guard : Bool) (s : State) (ht : s.tracing = true)
    (t : ctlite.State) :
    (trace_branch_conditional arch ci guard s).inst.is_branch = 1 ∧
    (trace_branch_conditional arch ci guard s).inst.branch_taken =
      (if xor guard ci then 1 else 0) ∧
    ctlite.trace_branch_conditional ci guard t =
      (if xor guard ci then { t with TBranches := (t.TBranches + 1) % 2 ^ 32 }
       else { t with UBranches := (t.UBranches + 1) % 2 ^ 32 }) ∧
    (xor guard ci = true → t.TBranches + 1 < 2 ^ 32 →
      (ctlite.trace_branch_conditional ci guard t).TBranches = t.TBranches + 1 ∧
      (ctlite.trace_branch_conditional ci guard t).UBranches = t.UBranches) ∧
    (xor guard ci = false → t.UBranches + 1 < 2 ^ 32 →
      (ctlite.trace_branch_conditional ci guard t).UBranches = t.UBranches + 1 ∧
      (ctlite.trace_branch_conditional ci guard t).TBranches = t.TBranches) := by
  refine ⟨?_, ?_, ?_, ?_, ?_⟩
  · cases arch <;> simp [trace_branch_conditional, ht]
  · cases arch <;> cases ci <;> cases guard <;> simp [trace_branch_conditional, ht]
  · cases ci <;> cases guard <;> simp [ctlite.trace_branch_conditional]
  · intro hx hlt
    cases ci <;> cases guard <;>
      simp_all [ctlite.trace_branch_conditional, Nat.mod_eq_of_lt]
  · intro hx hlt
    cases ci <;> cases guard <;>
      simp_all [ctlite.trace_branch_conditional, Nat.mod_eq_of_lt]

theorem branch_direction_witness :
    active_state.tracing = true ∧
    (trace_branch_conditional Arch.arm64 false true active_state).inst.branch_taken = 1 ∧
    (trace_branch_conditional Arch.arm64 true true active_state).inst.branch_taken = 0 :=
  ⟨rfl,
    (branch_direction Arch.arm64 false true active_state rfl ⟨0, 0, 0, fun _ => 0, fun _ => 0, []⟩).2.1,
    (branch_direction Arch.arm64 true true active_state rfl ⟨0, 0, 0, fun _ => 0, fun _ => 0, []⟩).2.1⟩

/-- C12: while capture is active, `trace_branch_direct` and
`trace_branch_indirect` return a state exactly for the kinds `Ijk_Call`,
`Ijk_Ret` and `Ijk_Boring`, and that state has `is_branch = 1` and
`branch_taken = 1`; for every other kind they end in the failed assertion. -/
theorem branch_kinds (arch : Arch) (jk : IRJumpKind) (s : State) (ht : s.tracing = true) :
    ((trace_branch_direct arch jk s).isSome = true ↔
      jk = IRJumpKind.Ijk_Call ∨ jk = IRJumpKind.Ijk_Ret ∨ jk = IRJumpKind.Ijk_Boring) ∧
    (∀ t, trace_branch_direct arch jk s = some t →
      t.inst.is_branch = 1 ∧ t.inst.branch_taken = 1) ∧
    ((trace_branch_indirect arch jk s).isSome = true ↔
      jk = IRJumpKind.Ijk_Call ∨ jk = IRJumpKind.Ijk_Ret ∨ jk = IRJumpKind.Ijk_Boring) ∧
    (∀ t, trace_branch_indirect arch jk s = some t →
      t.inst.is_branch = 1 ∧ t.inst.branch_taken = 1) ∧
    (∀ tag, jk = IRJumpKind.Ijk_other tag →
      trace_branch_direct arch jk s = none ∧ trace_branch_indirect arch jk s = none) := by
  refine ⟨?_, ?_, ?_, ?_, ?_⟩
  · cases jk <;> cases arch <;> simp [trace_branch_direct, ht]
  · intro t h
    cases jk <;> cases arch <;> simp [trace_branch_direct, ht] at h <;> subst h <;> exact ⟨rfl, rfl⟩
  · cases jk <;> cases arch <;> simp [trace_branch_indirect, ht]
  · intro t h
    cases jk <;> cases arch <;> simp [trace_branch_indirect, ht] at h <;> subst h <;>
      exact ⟨rfl, rfl⟩
  · intro tag h
    subst h
    cases arch <;> simp [trace_branch_direct, trace_branch_indirect, ht]

theorem branch_kinds_witness :
    active_state.tracing = true ∧
    (trace_branch_direct Arch.arm64 IRJumpKind.Ijk_Call active_state).isSome = true ∧
    trace_branch_indirect Arch.arm64 (IRJumpKind.Ijk_other 7) active_state = none :=
  ⟨rfl, (branch_kinds Arch.arm64 IRJumpKind.Ijk_Call active_state rfl).1.mpr (Or.inl rfl),
    ((branch_kinds Arch.arm64 (IRJumpKind.Ijk_other 7) active_state rfl).2.2.2.2 7 rfl).2⟩

/-- C16: when capture is not active, every accumulator operation leaves the
state, and with it every field of the record, as it is, for every argument;
`write_inst_to_file` writes nothing. -/
theorem inactive_noop (s : State) (ht : s.tracing = false) (arch : Arch) (m : Memory)
    (addr size : Nat) (r : Int) (ci guard : Bool) (jk : IRJumpKind) :
    trace_instr addr size s = s ∧ trace_load m addr size s = s ∧
    trace_store m addr size s = s ∧ trace_reg_read r s = s ∧ trace_reg_write r s = s ∧
    trace_branch_conditional arch ci guard s = s ∧ trace_branch_direct arch jk s = some s ∧
    trace_branch_indirect arch jk s = some s ∧ zero_inst s = s ∧
    write_inst_to_file s = s ∧ (write_inst_to_file s).writes = s.writes := by
  simp [trace_instr, trace_load, trace_store, trace_reg_read, trace_reg_write,
    trace_branch_conditional, trace_branch_direct, trace_branch_indirect, zero_inst,
    write_inst_to_file, ht]

theorem inactive_noop_witness :
    State.initial.tracing = false ∧
    trace_store sample_memory 0x2000 8 State.initial = State.initial ∧
    trace_branch_direct Arch.arm64 (IRJumpKind.Ijk_other 7) State.initial = some State.initial :=
  ⟨rfl,
    (inactive_noop State.initial rfl Arch.arm64 sample_memory 0x2000 8 2 false true
      (IRJumpKind.Ijk_other 7)).2.2.1,
    (inactive_noop State.initial rfl Arch.arm64 sample_memory 0x2000 8 2 false true
      (IRJumpKind.Ijk_other 7)).2.2.2.2.2.2.1⟩

/-- C17: while capture is active, after `zero_inst` the fields `ip`,
`is_branch`, `branch_taken`, the four destination and four source register
slots, the four destination and four source addresses, the eight valid flags
and all 8 x 64 snapshot bytes are 0, whatever they held before.  (The scratch
field `encode_key` is left as it is.) -/
theorem zero_inst_zeroes (s : State) (ht : s.tracing = true) :
    (zero_inst s).inst.ip = 0 ∧ (zero_inst s).inst.is_branch = 0 ∧
    (zero_inst s).inst.branch_taken = 0 ∧
    (∀ i, (zero_inst s).inst.destination_registers i = 0 ∧
      (zero_inst s).inst.source_registers i = 0 ∧
      (zero_inst s).inst.destination_memory i = 0 ∧ (zero_inst s).inst.source_memory i = 0 ∧
      (zero_inst s).inst.d_valid i = 0 ∧ (zero_inst s).inst.s_valid i = 0) ∧
    (∀ i j, (zero_inst s).inst.d_value i j = 0 ∧ (zero_inst s).inst.s_value i j = 0) ∧
    (zero_inst s).inst.encode_key = s.inst.encode_key := by
  simp [zero_inst, ht]

theorem zero_inst_zeroes_witness :
    sample_state.tracing = true ∧ sample_state.inst.ip ≠ 0 ∧
    (zero_inst sample_state).inst.ip = 0 ∧
    (∀ i j, (zero_inst sample_state).inst.d_value i j = 0 ∧
      (zero_inst sample_state).inst.s_value i j = 0) :=
  ⟨rfl, by decide, (zero_inst_zeroes sample_state rfl).1, (zero_inst_zeroes sample_state rfl).2.2.2.2.1⟩

/-! ## Synthesized register traffic -/

theorem mem_register_set (a : Fin 4 → Nat) (v : Nat) :
    v ∈ register_set a ↔ v ≠ 0 ∧ (a 0 = v ∨ a 1 = v ∨ a 2 = v ∨ a 3 = v) := by
  simp only [register_set, Finset.mem_erase, Finset.mem_image, Finset.mem_univ, true_and, ne_eq]
  constructor
  · rintro ⟨h0, i, hi⟩
    refine ⟨h0, ?_⟩
    fin_cases i
    · exact Or.inl hi
    · exact Or.inr (Or.inl hi)
    · exact Or.inr (Or.inr (Or.inl hi))
    · exact Or.inr (Or.inr (Or.inr hi))
  · rintro ⟨h0, h | h | h | h⟩ <;> exact ⟨h0, _, h⟩

theorem to_uint8_fit (v : Nat) (h : v < 256) : to_uint8 v = v := Nat.mod_eq_of_lt h

theorem zero_inst_active (s : State) (ht : s.tracing = true) :
    zero_inst s =
      { s with
        inst :=
          { encode_key := s.inst.encode_key, ip := 0, is_branch := 0, branch_taken := 0,
            destination_registers := fun _ => 0, source_registers := fun _ => 0,
            destination_memory := fun _ => 0, source_memory := fun _ => 0,
            d_valid := fun _ => 0, d_value := fun _ _ => 0,
            s_valid := fun _ => 0, s_value := fun _ _ => 0 } } := by
  simp [zero_inst, ht]

/-- The register set of a four-slot array given by its entries. -/
theorem register_set_pick4 (a b c d : Nat) (v : Nat) :
    v ∈ register_set (pick4 a b c d) ↔ v ≠ 0 ∧ (a = v ∨ b = v ∨ c = v ∨ d = v) :=
  mem_register_set _ _

theorem const_zero_pick4 : (fun _ : Fin 4 => (0 : Nat)) = pick4 0 0 0 0 := by
  funext i; fin_cases i <;> rfl

theorem update_pick4_0 (a b c d v : Nat) :
    Function.update (pick4 a b c d) 0 v = pick4 v b c d := by
  funext i; fin_cases i <;> rfl

theorem update_pick4_1 (a b c d v : Nat) :
    Function.update (pick4 a b c d) 1 v = pick4 a v c d := by
  funext i; fin_cases i <;> rfl

theorem update_pick4_2 (a b c d v : Nat) :
    Function.update (pick4 a b c d) 2 v = pick4 a b v d := by
  funext i; fin_cases i <;> rfl

theorem register_set_one (a : Nat) (ha : 0 < a) : register_set (pick4 a 0 0 0) = {a} := by
  ext v
  rw [register_set_pick4, Finset.mem_singleton]
  constructor
  · rintro ⟨h0, h | h | h | h⟩ <;> omega
  · intro h; subst h; exact ⟨by omega, Or.inl rfl⟩

theorem register_set_none : register_set (pick4 0 0 0 0) = ∅ := by
  ext v
  rw [register_set_pick4]
  simp only [Finset.not_mem_empty, iff_false, not_and]
  rintro h0 (h | h | h | h) <;> omega

theorem register_set_two (a b : Nat) (ha : 0 < a) (hb : 0 < b) :
    register_set (pick4 a b 0 0) = {a, b} := by
  ext v
  rw [register_set_pick4, Finset.mem_insert, Finset.mem_singleton]
  constructor
  · rintro ⟨h0, h | h | h | h⟩ <;> omega
  · rintro (h | h) <;> subst h
    · exact ⟨by omega, Or.inl rfl⟩
    · exact ⟨by omega, Or.inr (Or.inl rfl)⟩

theorem register_set_two_gap (a b : Nat) (ha : 0 < a) (hb : 0 < b) :
    register_set (pick4 a 0 b 0) = {a, b} := by
  ext v
  rw [register_set_pick4, Finset.mem_insert, Finset.mem_singleton]
  constructor
  · rintro ⟨h0, h | h | h | h⟩ <;> omega
  · rintro (h | h) <;> subst h
    · exact ⟨by omega, Or.inl rfl⟩
    · exact ⟨by omega, Or.inr (Or.inr (Or.inl rfl))⟩

theorem register_set_gap_one (a : Nat) (ha : 0 < a) : register_set (pick4 0 0 a 0) = {a} := by
  ext v
  rw [register_set_pick4, Finset.mem_singleton]
  constructor
  · rintro ⟨h0, h | h | h | h⟩ <;> omega
  · intro h; subst h; exact ⟨by omega, Or.inr (Or.inr (Or.inl rfl))⟩

theorem register_set_three (a b c : Nat) (ha : 0 < a) (hb : 0 < b) (hc : 0 < c) :
    register_set (pick4 a b c 0) = {a, b, c} := by
  ext v
  rw [register_set_pick4, Finset.mem_insert, Finset.mem_insert, Finset.mem_singleton]
  constructor
  · rintro ⟨h0, h | h | h | h⟩ <;> omega
  · rintro (h | h | h) <;> subst h
    · exact ⟨by omega, Or.inl rfl⟩
    · exact ⟨by omega, Or.inr (Or.inl rfl)⟩
    · exact ⟨by omega, Or.inr (Or.inr (Or.inl rfl))⟩

/-- C13: synthesized register traffic, x86-64 variant, for register ids that
are nonzero and fit a byte.  Applied to a freshly reset record while capture
is active, each branch event leaves the (destination, source) register sets
of the table: conditional `{RIP} / {RIP, RFLAGS}`, direct call
`{RIP, RSP} / {RIP, RSP}`, direct return `{RIP, RSP} / {RSP}`, direct plain
jump `{RIP} / {}`, indirect call `{RIP, RSP} / {RIP, RSP, RAX}`, indirect
return `{RIP, RSP} / {RSP, RAX}`, indirect plain jump `{RIP} / {RAX}`. -/
theorem register_traffic_x86_64 (x : PIN_REG) (hx : x.fits) (s : State)
    (ht : s.tracing = true) (ci guard : Bool) :
    traffic (trace_branch_conditional (Arch.x86_64 x) ci guard (zero_inst s)) =
      ({x.REG_RIP}, {x.REG_RIP, x.REG_RFLAGS}) ∧
    (trace_branch_direct (Arch.x86_64 x) IRJumpKind.Ijk_Call (zero_inst s)).map traffic =
      some ({x.REG_RIP, x.REG_RSP}, {x.REG_RIP, x.REG_RSP}) ∧
    (trace_branch_direct (Arch.x86_64 x) IRJumpKind.Ijk_Ret (zero_inst s)).map traffic =
      some ({x.REG_RIP, x.REG_RSP}, {x.REG_RSP}) ∧
    (trace_branch_direct (Arch.x86_64 x) IRJumpKind.Ijk_Boring (zero_inst s)).map traffic =
      some ({x.REG_RIP}, ∅) ∧
    (trace_branch_indirect (Arch.x86_64 x) IRJumpKind.Ijk_Call (zero_inst s)).map traffic =
      some ({x.REG_RIP, x.REG_RSP}, {x.REG_RIP, x.REG_RSP, x.REG_RAX}) ∧
    (trace_branch_indirect (Arch.x86_64 x) IRJumpKind.Ijk_Ret (zero_inst s)).map traffic =
      some ({x.REG_RIP, x.REG_RSP}, {x.REG_RSP, x.REG_RAX}) ∧
    (trace_branch_indirect (Arch.x86_64 x) IRJumpKind.Ijk_Boring (zero_inst s)).map traffic =
      some ({x.REG_RIP}, {x.REG_RAX}) := by
  obtain ⟨⟨p1, p2⟩, ⟨q1, q2⟩, ⟨f1, f2⟩, ⟨a1, a2⟩⟩ := hx
  rw [zero_inst_active s ht]
  simp only [traffic, trace_branch_conditional, trace_branch_direct, trace_branch_indirect, ht,
    Bool.not_true, Bool.false_eq_true, if_false, Option.map_some', to_uint8_fit _ p2,
    to_uint8_fit _ q2, to_uint8_fit _ f2, to_uint8_fit _ a2, const_zero_pick4, update_pick4_0,
    update_pick4_1, update_pick4_2, register_set_one _ p1,
    register_set_two _ _ p1 q1, register_set_two _ _ p1 f1, register_set_one _ q1,
    register_set_three _ _ _ p1 q1 a1, register_set_two_gap _ _ q1 a1,
    register_set_gap_one _ a1, register_set_none, and_self]

theorem sample_regs_fits : sample_regs.fits := by
  unfold PIN_REG.fits; decide

theorem register_traffic_x86_64_witness :
    sample_regs.fits ∧ active_state.tracing = true ∧
    (trace_branch_indirect (Arch.x86_64 sample_regs) IRJumpKind.Ijk_Call
      (zero_inst active_state)).map traffic = some ({26, 6}, {26, 6, 10}) :=
  ⟨sample_regs_fits, rfl,
    (register_traffic_x86_64 sample_regs sample_regs_fits active_state rfl false true).2.2.2.2.1⟩

/-- The arm64 table of register sets, as the code synthesizes it. -/
theorem arm64_traffic_table (s : State) (ht : s.tracing = true) (ci guard : Bool) :
    traffic (trace_branch_conditional Arch.arm64 ci guard (zero_inst s)) =
      ({REG_PC}, {REG_PC, REG_FLAGS}) ∧
    (trace_branch_direct Arch.arm64 IRJumpKind.Ijk_Call (zero_inst s)).map traffic =
      some ({REG_PC}, {REG_PC}) ∧
    (trace_branch_direct Arch.arm64 IRJumpKind.Ijk_Ret (zero_inst s)).map traffic =
      some ({REG_PC, REG_XSP}, {REG_X30}) ∧
    (trace_branch_direct Arch.arm64 IRJumpKind.Ijk_Boring (zero_inst s)).map traffic =
      some ({REG_PC}, ∅) ∧
    (trace_branch_indirect Arch.arm64 IRJumpKind.Ijk_Call (zero_inst s)).map traffic =
      some ({REG_PC, REG_X30}, {REG_PC, REG_X30}) ∧
    (trace_branch_indirect Arch.arm64 IRJumpKind.Ijk_Ret (zero_inst s)).map traffic =
      some ({REG_PC}, {REG_X30}) ∧
    (trace_branch_indirect Arch.arm64 IRJumpKind.Ijk_Boring (zero_inst s)).map traffic =
      some ({REG_PC}, {REG_X30}) := by
  have e : ∀ v, v < 256 → to_uint8 v = v := to_uint8_fit
  rw [zero_inst_active s ht]
  simp only [traffic, trace_branch_conditional, trace_branch_direct, trace_branch_indirect, ht,
    Bool.not_true, Bool.false_eq_true, if_false, Option.map_some',
    e REG_PC (by decide), e REG_FLAGS (by decide), e REG_XSP (by decide), e REG_X30 (by decide),
    const_zero_pick4, update_pick4_0, update_pick4_1, update_pick4_2,
    register_set_one REG_PC (by decide), register_set_one REG_X30 (by decide),
    register_set_two REG_PC REG_FLAGS (by decide) (by decide),
    register_set_two REG_PC REG_XSP (by decide) (by decide),
    register_set_two REG_PC REG_X30 (by decide) (by decide),
    register_set_two_gap REG_PC REG_X30 (by decide) (by decide), register_set_none, and_self]

/-- C14 (as amended): synthesized register traffic, arm64 variant.  Applied
to a freshly reset record while capture is active, each branch event leaves
the (destination, source) register sets: conditional `{PC} / {PC, FLAGS}`,
direct call `{PC} / {PC}`, direct return `{PC, XSP} / {X30}`, direct plain
jump `{PC} / {}`, indirect call `{PC, X30} / {PC, X30}`, indirect return
`{PC} / {X30}`, indirect plain jump `{PC} / {X30}`. -/
theorem register_traffic_arm64 (s : State) (ht : s.tracing = true) (ci guard : Bool) :
    traffic (trace_branch_conditional Arch.arm64 ci guard (zero_inst s)) =
      ({REG_PC}, {REG_PC, REG_FLAGS}) ∧
    (trace_branch_direct Arch.arm64 IRJumpKind.Ijk_Call (zero_inst s)).map traffic =
      some ({REG_PC}, {REG_PC}) ∧
    (trace_branch_direct Arch.arm64 IRJumpKind.Ijk_Ret (zero_inst s)).map traffic =
      some ({REG_PC, REG_XSP}, {REG_X30}) ∧
    (trace_branch_direct Arch.arm64 IRJumpKind.Ijk_Boring (zero_inst s)).map traffic =
      some ({REG_PC}, ∅) ∧
    (trace_branch_indirect Arch.arm64 IRJumpKind.Ijk_Call (zero_inst s)).map traffic =
      some ({REG_PC, REG_X30}, {REG_PC, REG_X30}) ∧
    (trace_branch_indirect Arch.arm64 IRJumpKind.Ijk_Ret (zero_inst s)).map traffic =
      some ({REG_PC}, {REG_X30}) ∧
    (trace_branch_indirect Arch.arm64 IRJumpKind.Ijk_Boring (zero_inst s)).map traffic =
      some ({REG_PC}, {REG_X30}) :=
  arm64_traffic_table s ht ci guard

theorem register_traffic_arm64_witness :
    active_state.tracing = true ∧
    (trace_branch_direct Arch.arm64 IRJumpKind.Ijk_Call (zero_inst active_state)).map traffic =
      some ({REG_PC}, {REG_PC}) :=
  ⟨rfl, (register_traffic_arm64 active_state rfl false true).2.1⟩

/-- C14 (counterexample): on arm64, from a freshly reset record with capture
active, a direct call leaves the register sets `{PC} / {PC}`, an indirect
call the sources `{PC, X30}` and an indirect return `{PC} / {X30}`: these
differ from the sets `{PC, XSP} / {PC, XSP}`, `{PC, XSP, X30}` and
`{PC, XSP} / {XSP, X30}` of the specified table, none of them containing `XSP`. -/
theorem arm64_call_traffic_differs :
    (trace_branch_direct Arch.arm64 IRJumpKind.Ijk_Call (zero_inst active_state)).map traffic =
      some ({REG_PC}, {REG_PC}) ∧
    (({REG_PC}, {REG_PC}) : Finset Nat × Finset Nat) ≠
      ({REG_PC, REG_XSP}, {REG_PC, REG_XSP}) ∧
    (trace_branch_indirect Arch.arm64 IRJumpKind.Ijk_Call (zero_inst active_state)).map traffic =
      some ({REG_PC, REG_X30}, {REG_PC, REG_X30}) ∧
    (({REG_PC, REG_X30}, {REG_PC, REG_X30}) : Finset Nat × Finset Nat) ≠
      ({REG_PC, REG_X30}, {REG_PC, REG_XSP, REG_X30}) ∧
    (trace_branch_indirect Arch.arm64 IRJumpKind.Ijk_Ret (zero_inst active_state)).map traffic =
      some ({REG_PC}, {REG_X30}) ∧
    (({REG_PC}, {REG_X30}) : Finset Nat × Finset Nat) ≠
      ({REG_PC, REG_XSP}, {REG_XSP, REG_X30}) := by
  have h := arm64_traffic_table active_state rfl false true
  exact ⟨h.2.1, by decide, h.2.2.2.2.1, by decide, h.2.2.2.2.2.1, by decide⟩

/-! ## The register maps -/

theorem arm64_b_neg (offset : Int) (h : offset < 0) :
    offset_to_arm64_register offset = none := by
  rw [offset_to_arm64_register, if_pos (show ¬ offset ≥ 0 by omega)]

theorem arm64_b0 (offset : Int) (h : 0 ≤ offset) (k : offset < 16) :
    offset_to_arm64_register offset = some 0 := by
  rw [offset_to_arm64_register, if_neg (show ¬ (¬ offset ≥ 0) by omega),
    if_pos (show offset < 16 by omega)]

theorem arm64_b1 (offset : Int) (h : 16 ≤ offset) (k : offset < 256) :
    offset_to_arm64_register offset = some (REG_X0 + ((offset - 16) / 8).toNat) := by
  rw [offset_to_arm64_register, if_neg (show ¬ (¬ offset ≥ 0) by omega),
    if_neg (show ¬ (offset < 16) by omega), if_pos (show offset < 256 by omega)]

theorem arm64_b2 (offset : Int) (h : 256 ≤ offset) (k : offset < 264) :
    offset_to_arm64_register offset = some REG_X30 := by
  rw [offset_to_arm64_register, if_neg (show ¬ (¬ offset ≥ 0) by omega),
    if_neg (show ¬ (offset < 16) by omega), if_neg (show ¬ (offset < 256) by omega),
    if_pos (show offset < 264 by omega)]

theorem arm64_b3 (offset : Int) (h : 264 ≤ offset) (k : offset < 272) :
    offset_to_arm64_register offset = some REG_XSP := by
  rw [offset_to_arm64_register, if_neg (show ¬ (¬ offset ≥ 0) by omega),
    if_neg (show ¬ (offset < 16) by omega), if_neg (show ¬ (offset < 256) by omega),
    if_neg (show ¬ (offset < 264) by omega), if_pos (show offset < 272 by omega)]

theorem arm64_b4 (offset : Int) (h : 272 ≤ offset) (k : offset < 280) :
    offset_to_arm64_register offset = some REG_PC := by
  rw [offset_to_arm64_register, if_neg (show ¬ (¬ offset ≥ 0) by omega),
    if_neg (show ¬ (offset < 16) by omega), if_neg (show ¬ (offset < 256) by omega),
    if_neg (show ¬ (offset < 264) by omega), if_neg (show ¬ (offset < 272) by omega),
    if_pos (show offset < 280 by omega)]

theorem arm64_b5 (offset : Int) (h : 280 ≤ offset) (k : offset < 312) :
    offset_to_arm64_register offset = some REG_FLAGS := by
  rw [offset_to_arm64_register, if_neg (show ¬ (¬ offset ≥ 0) by omega),
    if_neg (show ¬ (offset < 16) by omega), if_neg (show ¬ (offset < 256) by omega),
    if_neg (show ¬ (offset < 264) by omega), if_neg (show ¬ (offset < 272) by omega),
    if_neg (show ¬ (offset < 280) by omega), if_pos (show offset < 312 by omega)]

theorem arm64_b6 (offset : Int) (h : 312 ≤ offset) (k : offset < 320) :
    offset_to_arm64_register offset = some REG_UTHRD := by
  rw [offset_to_arm64_register, if_neg (show ¬ (¬ offset ≥ 0) by omega),
    if_neg (show ¬ (offset < 16) by omega), if_neg (show ¬ (offset < 256) by omega),
    if_neg (show ¬ (offset < 264) by omega), if_neg (show ¬ (offset < 272) by omega),
    if_neg (show ¬ (offset < 280) by omega), if_neg (show ¬ (offset < 312) by omega),
    if_pos (show offset < 320 by omega)]

theorem arm64_b7 (offset : Int) (h : 320 ≤ offset) (k : offset < 832) :
    offset_to_arm64_register offset = some (((offset - 312) / 16).toNat + REG_Q0) := by
  rw [offset_to_arm64_register, if_neg (show ¬ (¬ offset ≥ 0) by omega),
    if_neg (show ¬ (offset < 16) by omega), if_neg (show ¬ (offset < 256) by omega),
    if_neg (show ¬ (offset < 264) by omega), if_neg (show ¬ (offset < 272) by omega),
    if_neg (show ¬ (offset < 280) by omega), if_neg (show ¬ (offset < 312) by omega),
    if_neg (show ¬ (offset < 320) by omega), if_pos (show offset < 832 by omega)]

theorem arm64_b8 (offset : Int) (h : 832 ≤ offset) (k : offset < 848) :
    offset_to_arm64_register offset = some REG_QFLAGS := by
  rw [offset_to_arm64_register, if_neg (show ¬ (¬ offset ≥ 0) by omega),
    if_neg (show ¬ (offset < 16) by omega), if_neg (show ¬ (offset < 256) by omega),
    if_neg (show ¬ (offset < 264) by omega), if_neg (show ¬ (offset < 272) by omega),
    if_neg (show ¬ (offset < 280) by omega), if_neg (show ¬ (offset < 312) by omega),
    if_neg (show ¬ (offset < 320) by omega), if_neg (show ¬ (offset < 832) by omega),
    if_pos (show offset < 848 by omega)]

theorem arm64_b9 (offset : Int) (h : 848 ≤ offset) (k : offset < 896) :
    offset_to_arm64_register offset = some 0 := by
  rw [offset_to_arm64_register, if_neg (show ¬ (¬ offset ≥ 0) by omega),
    if_neg (show ¬ (offset < 16) by omega), if_neg (show ¬ (offset < 256) by omega),
    if_neg (show ¬ (offset < 264) by omega), if_neg (show ¬ (offset < 272) by omega),
    if_neg (show ¬ (offset < 280) by omega), if_neg (show ¬ (offset < 312) by omega),
    if_neg (show ¬ (offset < 320) by omega), if_neg (show ¬ (offset < 832) by omega),
    if_neg (show ¬ (offset < 848) by omega), if_pos (show offset < 896 by omega)]

theorem arm64_b_past (offset : Int) (h : 896 ≤ offset) :
    offset_to_arm64_register offset = none := by
  rw [offset_to_arm64_register, if_neg (show ¬ (¬ offset ≥ 0) by omega),
    if_neg (show ¬ (offset < 16) by omega), if_neg (show ¬ (offset < 256) by omega),
    if_neg (show ¬ (offset < 264) by omega), if_neg (show ¬ (offset < 272) by omega),
    if_neg (show ¬ (offset < 280) by omega), if_neg (show ¬ (offset < 312) by omega),
    if_neg (show ¬ (offset < 320) by omega), if_neg (show ¬ (offset < 832) by omega),
    if_neg (show ¬ (offset < 848) by omega), if_neg (show ¬ (offset < 896) by omega)]

theorem offset_to_arm64_register_bands (offset : Int) :
    (offset < 0 → offset_to_arm64_register offset = none) ∧
    (0 ≤ offset → offset < 16 → offset_to_arm64_register offset = some 0) ∧
    (16 ≤ offset → offset < 256 →
      offset_to_arm64_register offset = some (REG_X0 + ((offset - 16) / 8).toNat)) ∧
    (256 ≤ offset → offset < 264 → offset_to_arm64_register offset = some REG_X30) ∧
    (264 ≤ offset → offset < 272 → offset_to_arm64_register offset = some REG_XSP) ∧
    (272 ≤ offset → offset < 280 → offset_to_arm64_register offset = some REG_PC) ∧
    (280 ≤ offset → offset < 312 → offset_to_arm64_register offset = some REG_FLAGS) ∧
    (312 ≤ offset → offset < 320 → offset_to_arm64_register offset = some REG_UTHRD) ∧
    (320 ≤ offset → offset < 832 →
      offset_to_arm64_register offset = some (((offset - 312) / 16).toNat + REG_Q0)) ∧
    (832 ≤ offset → offset < 848 → offset_to_arm64_register offset = some REG_QFLAGS) ∧
    (848 ≤ offset → offset < 896 → offset_to_arm64_register offset = some 0) ∧
    (896 ≤ offset → offset_to_arm64_register offset = none) :=
  ⟨arm64_b_neg offset, arm64_b0 offset, arm64_b1 offset, arm64_b2 offset, arm64_b3 offset,
    arm64_b4 offset, arm64_b5 offset, arm64_b6 offset, arm64_b7 offset, arm64_b8 offset,
    arm64_b9 offset, arm64_b_past offset⟩

/-- C18 (the code at the failing input): in the general-purpose band
`[16, 256)` the arm64 map returns `REG_X0 + (offset - 16) / 8`, an id in
`REG_X0 .. REG_X29`; in the vector band `[320, 832)` it returns
`REG_Q0 + (offset - 312) / 16`, with 312 where the band starts at 320: offset
328, a byte of the first vector register, is mapped to `REG_Q0 + 1`, and the
offsets 824 to 831 are mapped to `REG_Q0 + 32`, which is `REG_QFLAGS`, outside
`REG_Q0 .. REG_Q31`. -/
theorem offset_to_arm64_register_vector_band :
    (∀ offset : Int, 16 ≤ offset → offset < 256 →
      offset_to_arm64_register offset = some (REG_X0 + ((offset - 16) / 8).toNat) ∧
      REG_X0 + ((offset - 16) / 8).toNat ≤ REG_X0 + 29) ∧
    (∀ offset : Int, 320 ≤ offset → offset < 832 →
      offset_to_arm64_register offset = some (REG_Q0 + ((offset - 312) / 16).toNat)) ∧
    offset_to_arm64_register 320 = some REG_Q0 ∧
    offset_to_arm64_register 328 = some (REG_Q0 + 1) ∧
    REG_Q0 + ((328 - 320 : Int) / 16).toNat = REG_Q0 ∧
    offset_to_arm64_register 831 = some REG_QFLAGS ∧ REG_Q0 + 31 < REG_QFLAGS := by
  refine ⟨?_, ?_, by decide, by decide, by decide, by decide, by decide⟩
  · intro offset h1 h2
    refine ⟨(offset_to_arm64_register_bands offset).2.2.1 h1 h2, ?_⟩
    unfold REG_X0
    omega
  · intro offset h1 h2
    rw [(offset_to_arm64_register_bands offset).2.2.2.2.2.2.2.2.1 h1 h2, Nat.add_comm]

/-- C19: the arm64 map ends in a failed assertion exactly for `offset < 0`
and `offset >= 896`; for every offset in `[0, 896)` it returns an id, and the
id is the untracked id 0 exactly for the offsets in `[0, 16)` and
`[848, 896)`. -/
theorem offset_to_arm64_register_fatal (offset : Int) :
    (offset_to_arm64_register offset = none ↔ offset < 0 ∨ 896 ≤ offset) ∧
    (0 ≤ offset → offset < 896 → ∃ r, offset_to_arm64_register offset = some r ∧
      (r = 0 ↔ offset < 16 ∨ 848 ≤ offset)) := by
  have hb := offset_to_arm64_register_bands offset
  obtain ⟨b0, b1, b2, b3, b4, b5, b6, b7, b8, b9, b10, b11⟩ := hb
  have cases12 : offset < 0 ∨ (0 ≤ offset ∧ offset < 16) ∨ (16 ≤ offset ∧ offset < 256) ∨
      (256 ≤ offset ∧ offset < 264) ∨ (264 ≤ offset ∧ offset < 272) ∨
      (272 ≤ offset ∧ offset < 280) ∨ (280 ≤ offset ∧ offset < 312) ∨
      (312 ≤ offset ∧ offset < 320) ∨ (320 ≤ offset ∧ offset < 832) ∨
      (832 ≤ offset ∧ offset < 848) ∨ (848 ≤ offset ∧ offset < 896) ∨ 896 ≤ offset := by omega
  rcases cases12 with h | ⟨h, k⟩ | ⟨h, k⟩ | ⟨h, k⟩ | ⟨h, k⟩ | ⟨h, k⟩ | ⟨h, k⟩ | ⟨h, k⟩ | ⟨h, k⟩ |
    ⟨h, k⟩ | ⟨h, k⟩ | h
  · rw [b0 h]
    exact ⟨by simp [h], fun h0 => by omega⟩
  · rw [b1 h k]
    refine ⟨by simp; omega, fun _ _ => ⟨0, rfl, ?_⟩⟩
    simp; omega
  · rw [b2 h k]
    refine ⟨by simp; omega, fun _ _ => ⟨_, rfl, ?_⟩⟩
    unfold REG_X0; omega
  · rw [b3 h k]
    refine ⟨by simp; omega, fun _ _ => ⟨_, rfl, ?_⟩⟩
    unfold REG_X30; omega
  · rw [b4 h k]
    refine ⟨by simp; omega, fun _ _ => ⟨_, rfl, ?_⟩⟩
    unfold REG_XSP; omega
  · rw [b5 h k]
    refine ⟨by simp; omega, fun _ _ => ⟨_, rfl, ?_⟩⟩
    unfold REG_PC; omega
  · rw [b6 h k]
    refine ⟨by simp; omega, fun _ _ => ⟨_, rfl, ?_⟩⟩
    unfold REG_FLAGS; omega
  · rw [b7 h k]
    refine ⟨by simp; omega, fun _ _ => ⟨_, rfl, ?_⟩⟩
    unfold REG_UTHRD; omega
  · rw [b8 h k]
    refine ⟨by simp; omega, fun _ _ => ⟨_, rfl, ?_⟩⟩
    unfold REG_Q0; omega
  · rw [b9 h k]
    refine ⟨by simp; omega, fun _ _ => ⟨_, rfl, ?_⟩⟩
    unfold REG_QFLAGS; omega
  · rw [b10 h k]
    refine ⟨by simp; omega, fun _ _ => ⟨0, rfl, ?_⟩⟩
    simp; omega
  · rw [b11 h]
    exact ⟨by simp [h], fun _ h1 => by omega⟩

theorem offset_to_x86_64_register_past (x : PIN_REG) (offset sz : Int) (h : 728 ≤ offset) :
    offset_to_x86_64_register x offset sz = some 0 := by
  rw [offset_to_x86_64_register, if_neg (show ¬ (¬ offset ≥ 0) by omega),
    if_neg (show ¬ (offset < 16) by omega), if_neg (show ¬ (offset < 208) by omega),
    if_neg (show ¬ (offset < 176) by omega), if_neg (show ¬ (offset < 184) by omega),
    if_neg (show ¬ (offset < 192) by omega), if_neg (show ¬ (offset < 200) by omega),
    if_neg (show ¬ (offset < 208) by omega), if_neg (show ¬ (offset < 216) by omega),
    if_neg (show ¬ (offset < 728) by omega)]

theorem offset_to_x86_64_register_neg (x : PIN_REG) (offset sz : Int) (h : offset < 0) :
    offset_to_x86_64_register x offset sz = none := by
  rw [offset_to_x86_64_register, if_pos (show ¬ offset ≥ 0 by omega)]

theorem offset_to_x86_64_register_low (x : PIN_REG) (offset sz : Int) (h : 0 ≤ offset)
    (k : offset < 16) : offset_to_x86_64_register x offset sz = some 0 := by
  rw [offset_to_x86_64_register, if_neg (show ¬ (¬ offset ≥ 0) by omega),
    if_pos (show offset < 16 by omega)]

theorem offset_to_x86_64_register_gpr (x : PIN_REG) (offset sz : Int) (h : 16 ≤ offset)
    (k : offset < 208) :
    offset_to_x86_64_register x offset sz =
      (match gpr_case x ((offset - 16) / 8) with
        | some r => some r
        | none => some 0) := by
  rw [offset_to_x86_64_register, if_neg (show ¬ (¬ offset ≥ 0) by omega),
    if_neg (show ¬ (offset < 16) by omega), if_pos (show offset < 208 by omega)]

theorem offset_to_x86_64_register_gap (x : PIN_REG) (offset sz : Int) (h : 208 ≤ offset)
    (k : offset < 216) : offset_to_x86_64_register x offset sz = some 0 := by
  rw [offset_to_x86_64_register, if_neg (show ¬ (¬ offset ≥ 0) by omega),
    if_neg (show ¬ (offset < 16) by omega), if_neg (show ¬ (offset < 208) by omega),
    if_neg (show ¬ (offset < 176) by omega), if_neg (show ¬ (offset < 184) by omega),
    if_neg (show ¬ (offset < 192) by omega), if_neg (show ¬ (offset < 200) by omega),
    if_neg (show ¬ (offset < 208) by omega), if_pos (show offset < 216 by omega)]

theorem offset_to_x86_64_register_ymm (x : PIN_REG) (offset sz : Int) (h : 216 ≤ offset)
    (k : offset < 728) :
    offset_to_x86_64_register x offset sz =
      some (x.REG_YMM ⟨((offset - 216) / 32).toNat, by omega⟩) := by
  rw [offset_to_x86_64_register, if_neg (show ¬ (¬ offset ≥ 0) by omega),
    if_neg (show ¬ (offset < 16) by omega), if_neg (show ¬ (offset < 208) by omega),
    if_neg (show ¬ (offset < 176) by omega), if_neg (show ¬ (offset < 184) by omega),
    if_neg (show ¬ (offset < 192) by omega), if_neg (show ¬ (offset < 200) by omega),
    if_neg (show ¬ (offset < 208) by omega), if_neg (show ¬ (offset < 216) by omega),
    if_pos (show offset < 728 by omega), dif_pos (by omega)]

theorem offset_to_x86_64_register_none (x : PIN_REG) (offset sz : Int) :
    offset_to_x86_64_register x offset sz = none ↔ offset < 0 := by
  constructor
  · intro hn
    by_contra hc
    have h0 : 0 ≤ offset := by omega
    have cases5 : offset < 16 ∨ (16 ≤ offset ∧ offset < 208) ∨ (208 ≤ offset ∧ offset < 216) ∨
        (216 ≤ offset ∧ offset < 728) ∨ 728 ≤ offset := by omega
    rcases cases5 with k | ⟨h, k⟩ | ⟨h, k⟩ | ⟨h, k⟩ | h
    · rw [offset_to_x86_64_register_low x offset sz h0 k] at hn
      exact Option.noConfusion hn
    · rw [offset_to_x86_64_register_gpr x offset sz h k] at hn
      cases hg : gpr_case x ((offset - 16) / 8) <;> rw [hg] at hn <;> exact Option.noConfusion hn
    · rw [offset_to_x86_64_register_gap x offset sz h k] at hn
      exact Option.noConfusion hn
    · rw [offset_to_x86_64_register_ymm x offset sz h k] at hn
      exact Option.noConfusion hn
    · rw [offset_to_x86_64_register_past x offset sz h] at hn
      exact Option.noConfusion hn
  · exact offset_to_x86_64_register_neg x offset sz

/-- C20 (as amended): in the x86-64 map an offset past the last vector
register (`offset >= 728`) is mapped to the untracked id 0 for every access
width, the same result as for an untracked register; the map ends in a failed
assertion only for a negative offset. -/
theorem offset_to_x86_64_register_unknown (x : PIN_REG) (offset sz : Int) :
    (728 ≤ offset → offset_to_x86_64_register x offset sz = some 0) ∧
    (offset_to_x86_64_register x offset sz = none ↔ offset < 0) :=
  ⟨offset_to_x86_64_register_past x offset sz, offset_to_x86_64_register_none x offset sz⟩

/-- C20 (counterexample): the offsets 728 and 100000 lie past every band of
the x86-64 map, and the map returns the untracked id 0 for them, not a
failure; an offset in the untracked band `[0, 16)` gives the same result. -/
theorem offset_to_x86_64_register_728 :
    offset_to_x86_64_register sample_regs 728 8 = some 0 ∧
    offset_to_x86_64_register sample_regs 100000 32 = some 0 ∧
    offset_to_x86_64_register sample_regs 8 8 = some 0 :=
  ⟨offset_to_x86_64_register_past sample_regs 728 8 (by decide),
    offset_to_x86_64_register_past sample_regs 100000 32 (by decide), by decide⟩

/-! ## End to end -/

theorem inc_inst_inst (o : Options) (s : State) : (inc_inst o s).inst = s.inst := by
  unfold inc_inst
  generalize (s.instructions + 1) % 2 ^ 64 = i
  generalize (o.skip + o.trace_instrs + 1) % 2 ^ 64 = t
  simp only
  split_ifs <;> rfl

theorem inc_inst_writes (o : Options) (s : State) : (inc_inst o s).writes = s.writes := by
  unfold inc_inst
  generalize (s.instructions + 1) % 2 ^ 64 = i
  generalize (o.skip + o.trace_instrs + 1) % 2 ^ 64 = t
  simp only
  split_ifs <;> rfl

theorem zero_inst_writes (s : State) : (zero_inst s).writes = s.writes := by
  unfold zero_inst; split_ifs <;> rfl

theorem trace_instr_writes (a sz : Nat) (s : State) : (trace_instr a sz s).writes = s.writes := by
  unfold trace_instr; split_ifs <;> rfl

theorem already_found_zero (v : Nat) (hv : v ≠ 0) :
    already_found (fun _ : Fin 4 => (0 : Nat)) v = false :=
  already_found_false _ _ (fun _ h => hv h.symm)

theorem first_empty_zero_fn : first_empty (fun _ : Fin 4 => (0 : Nat)) = some 0 :=
  first_empty_some _ 0 rfl (fun j hj => absurd hj (by omega))

/-- The record accumulated for an instruction at address `A` with a register
write of `r`, a store to `M` and a conditional branch, in this order, from a
reset: the branch event stores the program-counter id in destination slot 0,
where the register write had put `r`. -/
theorem accumulated_record (arch : Arch) (s : State) (ht : s.tracing = true) (m : Memory)
    (A isz M sz : Nat) (r : Int) (ci guard : Bool) (hA : A < 2 ^ 64) (hr : uchar r ≠ 0)
    (hM0 : M ≠ 0) (hM : M < 2 ^ 64) :
    ∃ srcs : Fin 4 → Nat,
      trace_branch_conditional arch ci guard
          (trace_store m M sz (trace_reg_write r (trace_instr A isz (zero_inst s)))) =
        { s with
          inst :=
            { encode_key := s.inst.encode_key, ip := A, is_branch := 1,
              branch_taken := if xor guard ci then 1 else 0,
              destination_registers := pick4 (program_counter_id arch) 0 0 0,
              source_registers := srcs,
              destination_memory := pick4 M 0 0 0, source_memory := fun _ => 0,
              d_valid := pick4 1 0 0 0,
              d_value := Function.update (fun _ _ => 0) 0
                (fun j => (m (((M >>> 6) <<< 6) % 2 ^ 64 + j.val)).val),
              s_valid := fun _ => 0, s_value := fun _ _ => 0 } } := by
  have e1 : trace_instr A isz (zero_inst s) =
      { s with
        inst :=
          { encode_key := s.inst.encode_key, ip := A, is_branch := 0, branch_taken := 0,
            destination_registers := fun _ => 0, source_registers := fun _ => 0,
            destination_memory := fun _ => 0, source_memory := fun _ => 0,
            d_valid := fun _ => 0, d_value := fun _ _ => 0,
            s_valid := fun _ => 0, s_value := fun _ _ => 0 } } := by
    have hA2 : A % 2 ^ 64 = A := Nat.mod_eq_of_lt hA
    simp only [trace_instr, zero_inst, ht, Bool.not_true, Bool.false_eq_true, if_false, hA2]
  rw [e1]
  have e2 : ∀ u : State, u.tracing = true → u.inst.destination_registers = (fun _ => 0) →
      trace_reg_write r u =
        { u with
          inst := { u.inst with
            destination_registers := Function.update (fun _ => 0) 0 (uchar r) } } := by
    intro u hu hd
    simp only [trace_reg_write, hu, hd, Bool.not_true, Bool.false_eq_true, if_false,
      already_found_zero _ hr, first_empty_zero_fn]
  rw [e2]
  rotate_left
  · exact ht
  · rfl
  have e3 : ∀ u : State, u.tracing = true → u.inst.destination_memory = (fun _ => 0) →
      trace_store m M sz u =
        { u with
          inst := { u.inst with
            destination_memory := Function.update (fun _ => 0) 0 M,
            d_valid := Function.update u.inst.d_valid 0 1,
            d_value := Function.update u.inst.d_value 0
              (fun j => (m (((M >>> 6) <<< 6) % 2 ^ 64 + j.val)).val) } } := by
    intro u hu hd
    simp only [trace_store, hu, hd, Bool.not_true, Bool.false_eq_true, if_false,
      Nat.mod_eq_of_lt hM, already_found_zero _ hM0, first_empty_zero_fn]
  rw [e3]
  rotate_left
  · exact ht
  · rfl
  have bt : (if guard = true then if ci = true then (0 : Nat) else 1
      else if ci = true then 1 else 0) = if xor guard ci = true then 1 else 0 := by
    cases guard <;> cases ci <;> rfl
  cases arch with
  | arm64 =>
    refine ⟨pick4 (to_uint8 REG_PC) (to_uint8 REG_FLAGS) 0 0, ?_⟩
    simp only [trace_branch_conditional, ht, Bool.not_true, Bool.false_eq_true, if_false,
      Function.update_idem, const_zero_pick4, update_pick4_0, update_pick4_1, program_counter_id,
      bt]
  | x86_64 x =>
    refine ⟨pick4 (to_uint8 x.REG_RIP) (to_uint8 x.REG_RFLAGS) 0 0, ?_⟩
    simp only [trace_branch_conditional, ht, Bool.not_true, Bool.false_eq_true, if_false,
      Function.update_idem, const_zero_pick4, update_pick4_0, update_pick4_1, program_counter_id,
      bt]

theorem write_inst_to_file_tracing (s : State) :
    (write_inst_to_file s).tracing = s.tracing := by
  unfold write_inst_to_file; split_ifs <;> rfl

theorem write_inst_to_file_exited (s : State) :
    (write_inst_to_file s).exited = s.exited := by
  unfold write_inst_to_file; split_ifs <;> rfl

theorem instruction_boundary_active (o : Options) (A isz : Nat) (s : State)
    (hx : s.exited = false) (hx1 : (inc_inst o s).exited = false) :
    instruction_boundary o A isz s =
      trace_instr A isz (zero_inst (write_inst_to_file (inc_inst o s))) := by
  simp only [instruction_boundary, hx, hx1, Bool.false_eq_true, if_false]

/-- C15 (what the code does): end to end.  From a boundary at a nonzero
address `A` that leaves capture active, a register write of a tracked id `r`,
a store to a nonzero address `M` and a conditional branch, the next boundary
with capture still active appends exactly one record, the layout of the
accumulated record, of 104 bytes, with `ip = A`, `is_branch = 1`,
`branch_taken = guard XOR inverted`, one valid destination memory slot holding
`M` and the 64 bytes at `M & ~63`; its destination registers are the
program-counter id in slot 0 and three empty slots, so that `r`, when it is
not the program counter, is in none of them: the branch event assigns slot 0,
where the register write had put `r`. -/
theorem end_to_end_record (arch : Arch) (o : Options) (s0 : State) (m : Memory)
    (A isz M sz A2 isz2 : Nat) (r : Int) (ci guard : Bool)
    (hx : s0.exited = false) (hx1 : (inc_inst o s0).exited = false)
    (ht1 : (inc_inst o s0).tracing = true)
    (hA0 : A ≠ 0) (hA : A < 2 ^ 64) (hr : uchar r ≠ 0) (hM0 : M ≠ 0) (hM : M < 2 ^ 64)
    (s1 s4 : State) (hs1 : s1 = instruction_boundary o A isz s0)
    (hs4 : s4 = trace_branch_conditional arch ci guard
      (trace_store m M sz (trace_reg_write r s1)))
    (ht4 : (inc_inst o s4).tracing = true) (hx4 : (inc_inst o s4).exited = false) :
    (instruction_boundary o A2 isz2 s4).writes =
      s1.writes ++ [record_layout (reference_key s4.inst 104) s4.inst] ∧
    (record_layout (reference_key s4.inst 104) s4.inst).length = 104 ∧
    s4.inst.ip = A ∧ s4.inst.is_branch = 1 ∧
    s4.inst.branch_taken = (if xor guard ci then 1 else 0) ∧
    s4.inst.destination_registers = pick4 (program_counter_id arch) 0 0 0 ∧
    (uchar r ≠ program_counter_id arch → ∀ i, s4.inst.destination_registers i ≠ uchar r) ∧
    s4.inst.destination_memory = pick4 M 0 0 0 ∧
    s4.inst.d_valid = pick4 1 0 0 0 ∧ (∀ i, s4.inst.s_valid i = 0) ∧
    (∀ j : Fin 64, s4.inst.d_value 0 j = (m ((M &&& 0xFFFFFFFFFFFFFFC0) + j.val)).val) := by
  have hu : (write_inst_to_file (inc_inst o s0)).tracing = true := by
    rw [write_inst_to_file_tracing]; exact ht1
  obtain ⟨srcs, e⟩ := accumulated_record arch (write_inst_to_file (inc_inst o s0)) hu m
    A isz M sz r ci guard hA hr hM0 hM
  rw [← instruction_boundary_active o A isz s0 hx hx1, ← hs1, ← hs4] at e
  have hw : s4.writes = s1.writes := by
    rw [e, hs1, instruction_boundary_active o A isz s0 hx hx1, trace_instr_writes,
      zero_inst_writes]
  have hip : s4.inst.ip = A := by rw [e]
  have hdv : s4.inst.d_valid = pick4 1 0 0 0 := by rw [e]
  have hsv : s4.inst.s_valid = fun _ => 0 := by rw [e]
  have hdr : s4.inst.destination_registers = pick4 (program_counter_id arch) 0 0 0 := by rw [e]
  have hvc : valid_count s4.inst = 1 := by
    unfold valid_count
    rw [hdv, hsv]
    rfl
  have hxs : s4.exited = false := by
    rw [e]
    show (write_inst_to_file (inc_inst o s0)).exited = false
    rw [write_inst_to_file_exited]; exact hx1
  have hb : instruction_boundary o A2 isz2 s4 =
      trace_instr A2 isz2 (zero_inst (write_inst_to_file (inc_inst o s4))) :=
    instruction_boundary_active o A2 isz2 s4 hxs hx4
  · refine ⟨?_, ?_, hip, by rw [e], by rw [e], hdr, ?_, by rw [e], hdv, ?_, ?_⟩
    · rw [hb, trace_instr_writes, zero_inst_writes,
        write_inst_to_file_active _ ht4 (by rw [inc_inst_inst, hip]; exact hA0)]
      simp only [inc_inst_inst, inc_inst_writes, hvc, hw]
    · rw [record_layout_length, hvc]
    · intro hpc i
      rw [hdr]
      fin_cases i
      · exact fun h => hpc h.symm
      · exact fun h => hr h.symm
      · exact fun h => hr h.symm
      · exact fun h => hr h.symm
    · intro i; rw [hsv]
    · intro j
      rw [e, ← cache_block_mask M hM]
      simp only [Function.update_same]

theorem end_to_end_record_witness :
    scenario_after.writes =
      [record_layout (reference_key scenario_before.inst 104) scenario_before.inst] ∧
    scenario_before.inst.ip = 0x1000 ∧ scenario_before.inst.is_branch = 1 ∧
    scenario_before.inst.branch_taken = 1 ∧
    scenario_before.inst.destination_registers = pick4 33 0 0 0 ∧
    (∀ i, scenario_before.inst.destination_registers i ≠ 2) ∧
    scenario_before.inst.destination_memory = pick4 0x2000 0 0 0 := by
  have h := end_to_end_record Arch.arm64 scenario_options State.initial sample_memory
    0x1000 4 0x2000 8 0x1004 4 2 false true rfl rfl rfl (by decide) (by decide) (by decide)
    (by decide) (by decide) _ scenario_before rfl rfl rfl rfl
  exact ⟨h.1, h.2.2.1, h.2.2.2.1, h.2.2.2.2.1, h.2.2.2.2.2.1,
    h.2.2.2.2.2.2.1 (by decide), h.2.2.2.2.2.2.2.1⟩

/-! ## The x86-64 register map, band by band -/

theorem gpr_case_some (x : PIN_REG) (q : Int) (h0 : 0 ≤ q) (h1 : q < 16) :
    gpr_case x q = some (gpr_table x q.toNat) := by
  have hq : q = 0 ∨ q = 1 ∨ q = 2 ∨ q = 3 ∨ q = 4 ∨ q = 5 ∨ q = 6 ∨ q = 7 ∨ q = 8 ∨ q = 9 ∨
      q = 10 ∨ q = 11 ∨ q = 12 ∨ q = 13 ∨ q = 14 ∨ q = 15 := by omega
  rcases hq with h | h | h | h | h | h | h | h | h | h | h | h | h | h | h | h <;> subst h <;> rfl

theorem gpr_case_none (x : PIN_REG) (q : Int) (h : 16 ≤ q) : gpr_case x q = none := by
  unfold gpr_case
  split <;> first | rfl | omega

theorem x86_64_bands_eq (x : PIN_REG) (offset sz : Int) (h0 : 0 ≤ offset) :
    offset_to_x86_64_register x offset sz = some (x86_64_bands x offset) := by
  have cases6 : offset < 16 ∨ (16 ≤ offset ∧ offset < 144) ∨ (144 ≤ offset ∧ offset < 208) ∨
      (208 ≤ offset ∧ offset < 216) ∨ (216 ≤ offset ∧ offset < 728) ∨ 728 ≤ offset := by omega
  rcases cases6 with k | ⟨h, k⟩ | ⟨h, k⟩ | ⟨h, k⟩ | ⟨h, k⟩ | h
  · rw [offset_to_x86_64_register_low x offset sz h0 k, x86_64_bands,
      dif_neg (by omega), dif_neg (by omega)]
  · rw [offset_to_x86_64_register_gpr x offset sz h (by omega),
      gpr_case_some x ((offset - 16) / 8) (by omega) (by omega), x86_64_bands, dif_pos ⟨h, k⟩]
  · rw [offset_to_x86_64_register_gpr x offset sz (by omega) k,
      gpr_case_none x ((offset - 16) / 8) (by omega), x86_64_bands,
      dif_neg (by omega), dif_neg (by omega)]
  · rw [offset_to_x86_64_register_gap x offset sz h k, x86_64_bands,
      dif_neg (by omega), dif_neg (by omega)]
  · rw [offset_to_x86_64_register_ymm x offset sz h k, x86_64_bands,
      dif_neg (by omega), dif_pos ⟨h, k⟩]
  · rw [offset_to_x86_64_register_past x offset sz h, x86_64_bands,
      dif_neg (by omega), dif_neg (by omega)]

theorem sample_regs_rip_apart : sample_regs.rip_apart := by
  refine ⟨by decide, ?_, ?_⟩
  · intro i hi
    interval_cases i <;> decide
  · intro i
    show 100 + i.val ≠ 26
    omega

/-- C27: reachability of the bands of the x86-64 map.  For every offset
`>= 0` and every width the map returns an id, never a failed assertion: the
general-purpose id of case `(offset - 16) / 8` for an offset in `[16, 144)`,
the vector id `REG_YMM((offset - 216) / 32)`, one of `YMM0 .. YMM15`, for an
offset in `[216, 728)`, and the untracked id 0 for every other offset, the
whole of `[144, 216)` included; the branches written for `[176, 184)` (value
25) and `[184, 192)` (`REG_RIP`) are never taken, and the map never returns
the program-counter id. -/
theorem offset_to_x86_64_register_reachable (x : PIN_REG) (offset sz : Int) (h0 : 0 ≤ offset)
    (hx : x.rip_apart) :
    offset_to_x86_64_register x offset sz = some (x86_64_bands x offset) ∧
    offset_to_x86_64_register x offset sz ≠ none ∧
    (16 ≤ offset → offset < 144 →
      offset_to_x86_64_register x offset sz = some (gpr_table x ((offset - 16) / 8).toNat) ∧
      ((offset - 16) / 8).toNat < 16) ∧
    (216 ≤ offset → offset < 728 → ∃ i : Fin 16, i.val = ((offset - 216) / 32).toNat ∧
      offset_to_x86_64_register x offset sz = some (x.REG_YMM i) ∧
      ((∀ j : Fin 16, x.REG_YMM j = x.REG_YMM 0 + j.val) →
        offset_to_x86_64_register x offset sz =
          some (x.REG_YMM 0 + ((offset - 216) / 32).toNat))) ∧
    (offset < 16 ∨ (144 ≤ offset ∧ offset < 216) ∨ 728 ≤ offset →
      offset_to_x86_64_register x offset sz = some 0) ∧
    (176 ≤ offset → offset < 192 → offset_to_x86_64_register x offset sz = some 0) ∧
    offset_to_x86_64_register x offset sz ≠ some x.REG_RIP := by
  have hb := x86_64_bands_eq x offset sz h0
  have zero : offset < 16 ∨ (144 ≤ offset ∧ offset < 216) ∨ 728 ≤ offset →
      offset_to_x86_64_register x offset sz = some 0 := by
    intro hz
    rw [hb, x86_64_bands, dif_neg (by omega), dif_neg (by omega)]
  refine ⟨hb, by rw [hb]; exact Option.some_ne_none _, ?_, ?_, zero, ?_, ?_⟩
  · intro h k
    refine ⟨?_, by omega⟩
    rw [hb, x86_64_bands, dif_pos ⟨h, k⟩]
  · intro h k
    refine ⟨⟨((offset - 216) / 32).toNat, by omega⟩, rfl, ?_, ?_⟩
    · rw [hb, x86_64_bands, dif_neg (by omega), dif_pos ⟨h, k⟩]
    · intro hc
      rw [hb, x86_64_bands, dif_neg (by omega), dif_pos ⟨h, k⟩, hc]
  · intro h k
    exact zero (Or.inr (Or.inl ⟨by omega, by omega⟩))
  · rw [hb]
    intro hc
    have hc2 : x86_64_bands x offset = x.REG_RIP := Option.some.inj hc
    obtain ⟨r0, r1, r2⟩ := hx
    unfold x86_64_bands at hc2
    split_ifs at hc2 with c1 c2
    · exact r1 _ (by omega) hc2
    · exact r2 _ hc2
    · exact r0 hc2.symm

theorem offset_to_x86_64_register_reachable_witness :
    (0 : Int) ≤ 180 ∧ sample_regs.rip_apart ∧
    offset_to_x86_64_register sample_regs 180 8 = some 0 ∧
    offset_to_x86_64_register sample_regs 188 8 ≠ some sample_regs.REG_RIP ∧
    offset_to_x86_64_register sample_regs 24 8 = some sample_regs.REG_RCX :=
  ⟨by decide, sample_regs_rip_apart,
    (offset_to_x86_64_register_reachable sample_regs 180 8 (by decide)
      sample_regs_rip_apart).2.2.2.2.2.1 (by decide) (by decide),
    (offset_to_x86_64_register_reachable sample_regs 188 8 (by decide)
      sample_regs_rip_apart).2.2.2.2.2.2,
    ((offset_to_x86_64_register_reachable sample_regs 24 8 (by decide)
      sample_regs_rip_apart).2.2.1 (by decide) (by decide)).1⟩

/-! ## Invariants of the accumulated record -/

theorem no_duplicate_zero : no_duplicate (fun _ => 0) := fun _ _ h => absurd rfl h

theorem no_duplicate_insert (a : Fin 4 → Nat) (h : no_duplicate a) (v : Nat)
    (hv : already_found a v = false) (i : Fin 4) (hi : a i = 0) :
    no_duplicate (Function.update a i v) := by
  have hnf : ∀ j, a j ≠ v := by
    intro j hj
    have := (already_found_iff a v).mpr ⟨j, hj⟩
    rw [hv] at this
    exact Bool.false_ne_true this
  intro j k hj hjk
  by_cases cj : j = i
  · by_cases ck : k = i
    · rw [cj, ck]
    · rw [cj, Function.update_same, Function.update_noteq ck] at hjk
      exact absurd hjk.symm (hnf k)
  · by_cases ck : k = i
    · rw [ck, Function.update_same, Function.update_noteq cj] at hjk
      exact absurd hjk (hnf j)
    · rw [Function.update_noteq cj] at hj
      rw [Function.update_noteq cj, Function.update_noteq ck] at hjk
      exact h j k hj hjk

theorem already_found_not (a : Fin 4 → Nat) (v : Nat) (h : already_found a v = false) (j : Fin 4) :
    a j ≠ v := by
  intro hj
  have := (already_found_iff a v).mpr ⟨j, hj⟩
  rw [h] at this
  exact Bool.false_ne_true this

theorem trace_load_sets (m : Memory) (addr size : Nat) (s : State) :
    (trace_load m addr size s).tracing = s.tracing ∧
    (trace_load m addr size s).inst.destination_memory = s.inst.destination_memory ∧
    (trace_load m addr size s).inst.destination_registers = s.inst.destination_registers ∧
    (trace_load m addr size s).inst.source_registers = s.inst.source_registers ∧
    (no_duplicate s.inst.source_memory →
      no_duplicate (trace_load m addr size s).inst.source_memory) := by
  unfold trace_load
  split_ifs with c1 c2
  · exact ⟨rfl, rfl, rfl, rfl, id⟩
  · exact ⟨rfl, rfl, rfl, rfl, id⟩
  · split
    · exact ⟨rfl, rfl, rfl, rfl, id⟩
    · rename_i i hi
      refine ⟨rfl, rfl, rfl, rfl, fun h => ?_⟩
      exact no_duplicate_insert _ h _ (by simpa using c2) i (first_empty_zero _ i hi)

theorem trace_store_sets (m : Memory) (addr size : Nat) (s : State) :
    (trace_store m addr size s).tracing = s.tracing ∧
    (trace_store m addr size s).inst.source_memory = s.inst.source_memory ∧
    (trace_store m addr size s).inst.destination_registers = s.inst.destination_registers ∧
    (trace_store m addr size s).inst.source_registers = s.inst.source_registers ∧
    (no_duplicate s.inst.destination_memory →
      no_duplicate (trace_store m addr size s).inst.destination_memory) := by
  unfold trace_store
  split_ifs with c1 c2
  · exact ⟨rfl, rfl, rfl, rfl, id⟩
  · exact ⟨rfl, rfl, rfl, rfl, id⟩
  · split
    · exact ⟨rfl, rfl, rfl, rfl, id⟩
    · rename_i i hi
      refine ⟨rfl, rfl, rfl, rfl, fun h => ?_⟩
      exact no_duplicate_insert _ h _ (by simpa using c2) i (first_empty_zero _ i hi)

theorem trace_reg_read_sets (r : Int) (s : State) :
    (trace_reg_read r s).tracing = s.tracing ∧
    (trace_reg_read r s).inst.destination_memory = s.inst.destination_memory ∧
    (trace_reg_read r s).inst.source_memory = s.inst.source_memory ∧
    (trace_reg_read r s).inst.destination_registers = s.inst.destination_registers ∧
    (no_duplicate s.inst.source_registers →
      no_duplicate (trace_reg_read r s).inst.source_registers) := by
  unfold trace_reg_read
  split_ifs with c1 c2
  · exact ⟨rfl, rfl, rfl, rfl, id⟩
  · exact ⟨rfl, rfl, rfl, rfl, id⟩
  · split
    · exact ⟨rfl, rfl, rfl, rfl, id⟩
    · rename_i i hi
      refine ⟨rfl, rfl, rfl, rfl, fun h => ?_⟩
      exact no_duplicate_insert _ h _ (by simpa using c2) i (first_empty_zero _ i hi)

theorem trace_reg_write_sets (r : Int) (s : State) :
    (trace_reg_write r s).tracing = s.tracing ∧
    (trace_reg_write r s).inst.destination_memory = s.inst.destination_memory ∧
    (trace_reg_write r s).inst.source_memory = s.inst.source_memory ∧
    (trace_reg_write r s).inst.source_registers = s.inst.source_registers ∧
    (no_duplicate s.inst.destination_registers →
      no_duplicate (trace_reg_write r s).inst.destination_registers) := by
  unfold trace_reg_write
  split_ifs with c1 c2
  · exact ⟨rfl, rfl, rfl, rfl, id⟩
  · exact ⟨rfl, rfl, rfl, rfl, id⟩
  · split
    · exact ⟨rfl, rfl, rfl, rfl, id⟩
    · rename_i i hi
      refine ⟨rfl, rfl, rfl, rfl, fun h => ?_⟩
      exact no_duplicate_insert _ h _ (by simpa using c2) i (first_empty_zero _ i hi)

theorem trace_branch_conditional_sets (arch : Arch) (ci guard : Bool) (s : State) :
    (trace_branch_conditional arch ci guard s).tracing = s.tracing ∧
    (trace_branch_conditional arch ci guard s).inst.destination_memory =
      s.inst.destination_memory ∧
    (trace_branch_conditional arch ci guard s).inst.source_memory = s.inst.source_memory := by
  cases arch <;> cases hT : s.tracing <;> simp [trace_branch_conditional, hT]

theorem trace_branch_direct_sets (arch : Arch) (jk : IRJumpKind) (s t : State)
    (h : trace_branch_direct arch jk s = some t) :
    t.tracing = s.tracing ∧ t.inst.destination_memory = s.inst.destination_memory ∧
    t.inst.source_memory = s.inst.source_memory := by
  unfold trace_branch_direct at h
  split_ifs at h
  · cases h; exact ⟨rfl, rfl, rfl⟩
  · cases jk <;> cases arch <;> simp at h <;> subst h <;> exact ⟨rfl, rfl, rfl⟩

theorem trace_branch_indirect_sets (arch : Arch) (jk : IRJumpKind) (s t : State)
    (h : trace_branch_indirect arch jk s = some t) :
    t.tracing = s.tracing ∧ t.inst.destination_memory = s.inst.destination_memory ∧
    t.inst.source_memory = s.inst.source_memory := by
  unfold trace_branch_indirect at h
  split_ifs at h
  · cases h; exact ⟨rfl, rfl, rfl⟩
  · cases jk <;> cases arch <;> simp at h <;> subst h <;> exact ⟨rfl, rfl, rfl⟩

theorem Event.apply_sets (arch : Arch) (o : Options) (e : Event) (s t : State)
    (he : e.accumulates = true) (h : e.apply arch o s = some t) :
    t.tracing = s.tracing ∧
    (no_duplicate s.inst.destination_memory → no_duplicate t.inst.destination_memory) ∧
    (no_duplicate s.inst.source_memory → no_duplicate t.inst.source_memory) ∧
    (e.is_branch = false →
      (no_duplicate s.inst.destination_registers →
        no_duplicate t.inst.destination_registers) ∧
      (no_duplicate s.inst.source_registers → no_duplicate t.inst.source_registers)) := by
  cases e with
  | instr iaddr size => exact absurd he Bool.false_ne_true
  | zero => exact absurd he Bool.false_ne_true
  | write => exact absurd he Bool.false_ne_true
  | inc => exact absurd he Bool.false_ne_true
  | load m addr size =>
    have e1 : trace_load m addr size s = t := Option.some.inj h
    obtain ⟨a1, a2, a3, a4, a5⟩ := trace_load_sets m addr size s
    rw [e1] at a1 a2 a3 a4 a5
    rw [a1, a2, a3, a4]
    exact ⟨rfl, id, a5, fun _ => ⟨id, id⟩⟩
  | store m addr size =>
    have e1 : trace_store m addr size s = t := Option.some.inj h
    obtain ⟨a1, a2, a3, a4, a5⟩ := trace_store_sets m addr size s
    rw [e1] at a1 a2 a3 a4 a5
    rw [a1, a2, a3, a4]
    exact ⟨rfl, a5, id, fun _ => ⟨id, id⟩⟩
  | reg_read r =>
    have e1 : trace_reg_read r s = t := Option.some.inj h
    obtain ⟨a1, a2, a3, a4, a5⟩ := trace_reg_read_sets r s
    rw [e1] at a1 a2 a3 a4 a5
    rw [a1, a2, a3, a4]
    exact ⟨rfl, id, id, fun _ => ⟨id, a5⟩⟩
  | reg_write r =>
    have e1 : trace_reg_write r s = t := Option.some.inj h
    obtain ⟨a1, a2, a3, a4, a5⟩ := trace_reg_write_sets r s
    rw [e1] at a1 a2 a3 a4 a5
    rw [a1, a2, a3, a4]
    exact ⟨rfl, id, id, fun _ => ⟨a5, id⟩⟩
  | branch_conditional ci guard =>
    have e1 : trace_branch_conditional arch ci guard s = t := Option.some.inj h
    obtain ⟨a1, a2, a3⟩ := trace_branch_conditional_sets arch ci guard s
    rw [e1] at a1 a2 a3
    rw [a1, a2, a3]
    exact ⟨rfl, id, id, fun hb => absurd hb.symm Bool.false_ne_true⟩
  | branch_direct jk =>
    obtain ⟨a1, a2, a3⟩ := trace_branch_direct_sets arch jk s t h
    rw [a1, a2, a3]
    exact ⟨rfl, id, id, fun hb => absurd hb.symm Bool.false_ne_true⟩
  | branch_indirect jk =>
    obtain ⟨a1, a2, a3⟩ := trace_branch_indirect_sets arch jk s t h
    rw [a1, a2, a3]
    exact ⟨rfl, id, id, fun hb => absurd hb.symm Bool.false_ne_true⟩

theorem run_events_sets (arch : Arch) (o : Options) (es : List Event) :
    ∀ s t : State, (∀ e ∈ es, e.accumulates = true) → run_events arch o es s = some t →
      t.tracing = s.tracing ∧
      (no_duplicate s.inst.destination_memory → no_duplicate t.inst.destination_memory) ∧
      (no_duplicate s.inst.source_memory → no_duplicate t.inst.source_memory) ∧
      ((∀ e ∈ es, e.is_branch = false) →
        (no_duplicate s.inst.destination_registers →
          no_duplicate t.inst.destination_registers) ∧
        (no_duplicate s.inst.source_registers → no_duplicate t.inst.source_registers)) := by
  induction es with
  | nil =>
    intro s t _ h
    have e1 : s = t := Option.some.inj h
    subst e1
    exact ⟨rfl, id, id, fun _ => ⟨id, id⟩⟩
  | cons e es ih =>
    intro s t hacc h
    rw [run_events] at h
    cases h1 : e.apply arch o s with
    | none => rw [h1] at h; exact Option.noConfusion h
    | some u =>
      rw [h1] at h
      obtain ⟨a1, a2, a3, a4⟩ := Event.apply_sets arch o e s u
        (hacc e (List.mem_cons_self e es)) h1
      obtain ⟨b1, b2, b3, b4⟩ := ih u t (fun x hx => hacc x (List.mem_cons_of_mem e hx)) h
      refine ⟨b1.trans a1, fun k => b2 (a2 k), fun k => b3 (a3 k), fun hb => ?_⟩
      have c4 := a4 (hb e (List.mem_cons_self e es))
      have d4 := b4 (fun x hx => hb x (List.mem_cons_of_mem e hx))
      exact ⟨fun k => d4.1 (c4.1 k), fun k => d4.2 (c4.2 k)⟩

theorem Event.apply_isSome (arch : Arch) (o : Options) (e : Event) (s : State)
    (he : e.asserting = false) : ∃ t, e.apply arch o s = some t := by
  cases e with
  | branch_direct jk =>
    cases jk with
    | Ijk_other tag => exact absurd he.symm Bool.false_ne_true
    | _ => cases arch <;> cases hT : s.tracing <;>
        simp [Event.apply, trace_branch_direct, hT]
  | branch_indirect jk =>
    cases jk with
    | Ijk_other tag => exact absurd he.symm Bool.false_ne_true
    | _ => cases arch <;> cases hT : s.tracing <;>
        simp [Event.apply, trace_branch_indirect, hT]
  | _ => exact ⟨_, rfl⟩

theorem run_events_isSome (arch : Arch) (o : Options) (es : List Event) :
    ∀ s : State, (∀ e ∈ es, e.asserting = false) → ∃ t, run_events arch o es s = some t := by
  induction es with
  | nil => intro s _; exact ⟨s, rfl⟩
  | cons e es ih =>
    intro s h
    obtain ⟨u, hu⟩ := Event.apply_isSome arch o e s (h e (List.mem_cons_self e es))
    obtain ⟨t, ht⟩ := ih u (fun x hx => h x (List.mem_cons_of_mem e hx))
    exact ⟨t, by rw [run_events, hu]; exact ht⟩

theorem zero_inst_tracing (s : State) : (zero_inst s).tracing = s.tracing := by
  unfold zero_inst; split_ifs <;> rfl

/-- C24 (what the code does): the set invariant.  After a reset with capture
active and any sequence of accumulating events none of which asserts, the
run returns a record whose two memory sets hold every nonzero address at most
once, and so do its two register sets when the sequence has no branch event.
A branch event assigns fixed slots without looking for the id: on x86-64 a
register read of `REG_RAX` followed by an indirect plain jump leaves the source
registers `[RAX, 0, RAX, 0]`, the id `REG_RAX` in two slots. -/
theorem set_invariant (arch : Arch) (o : Options) (s : State) (ht : s.tracing = true)
    (es : List Event) (hacc : ∀ e ∈ es, e.accumulates = true)
    (hk : ∀ e ∈ es, e.asserting = false) (x : PIN_REG) (hx : x.fits) :
    (∃ t, run_events arch o es (zero_inst s) = some t ∧
      no_duplicate t.inst.destination_memory ∧ no_duplicate t.inst.source_memory ∧
      ((∀ e ∈ es, e.is_branch = false) →
        no_duplicate t.inst.destination_registers ∧ no_duplicate t.inst.source_registers)) ∧
    (∃ t, run_events (Arch.x86_64 x) o
        [Event.reg_read x.REG_RAX, Event.branch_indirect IRJumpKind.Ijk_Boring]
        (zero_inst s) = some t ∧
      t.inst.source_registers = pick4 x.REG_RAX 0 x.REG_RAX 0 ∧
      ¬ no_duplicate t.inst.source_registers) := by
  constructor
  · obtain ⟨t, hrun⟩ := run_events_isSome arch o es (zero_inst s) hk
    obtain ⟨-, a2, a3, a4⟩ := run_events_sets arch o es (zero_inst s) t hacc hrun
    have hz := zero_inst_active s ht
    refine ⟨t, hrun, a2 ?_, a3 ?_, fun hb => ⟨(a4 hb).1 ?_, (a4 hb).2 ?_⟩⟩ <;>
      rw [hz] <;> exact no_duplicate_zero
  · obtain ⟨-, -, -, ⟨a0, a1⟩⟩ := hx
    have hz := zero_inst_active s ht
    have hu : uchar (x.REG_RAX : Int) = x.REG_RAX := uchar_natCast _ a1
    have hne : x.REG_RAX ≠ 0 := by omega
    have e1 : trace_reg_read (x.REG_RAX : Int) (zero_inst s) =
        { zero_inst s with
          inst := { (zero_inst s).inst with
            source_registers := Function.update (fun _ => 0) 0 x.REG_RAX } } := by
      rw [hz]
      simp only [trace_reg_read, ht, Bool.not_true, Bool.false_eq_true, if_false, hu,
        already_found_zero _ hne, first_empty_zero_fn]
    have e2 : trace_branch_indirect (Arch.x86_64 x) IRJumpKind.Ijk_Boring
        { zero_inst s with
          inst := { (zero_inst s).inst with
            source_registers := Function.update (fun _ => 0) 0 x.REG_RAX } } =
        some { zero_inst s with
          inst := { (zero_inst s).inst with
            is_branch := 1, branch_taken := 1,
            destination_registers :=
              Function.update (zero_inst s).inst.destination_registers 0 (to_uint8 x.REG_RIP),
            source_registers := pick4 x.REG_RAX 0 x.REG_RAX 0 } } := by
      simp only [trace_branch_indirect, zero_inst_tracing, ht, Bool.not_true, Bool.false_eq_true,
        if_false, to_uint8_fit _ a1, const_zero_pick4, update_pick4_0, update_pick4_2]
    obtain ⟨t, ht2, hsrc⟩ : ∃ t, trace_branch_indirect (Arch.x86_64 x) IRJumpKind.Ijk_Boring
        { zero_inst s with
          inst := { (zero_inst s).inst with
            source_registers := Function.update (fun _ => 0) 0 x.REG_RAX } } = some t ∧
        t.inst.source_registers = pick4 x.REG_RAX 0 x.REG_RAX 0 := ⟨_, e2, rfl⟩
    refine ⟨t, ?_, hsrc, ?_⟩
    · simp only [run_events, Event.apply, Option.some_bind, e1, ht2]
    · intro h
      rw [hsrc] at h
      have h02 := h 0 2 hne rfl
      exact absurd h02 (by decide)

theorem set_invariant_witness :
    active_state.tracing = true ∧ sample_regs.fits ∧
    (∃ t, run_events (Arch.x86_64 sample_regs) scenario_options
        [Event.reg_read 10, Event.branch_indirect IRJumpKind.Ijk_Boring]
        (zero_inst active_state) = some t ∧
      t.inst.source_registers = pick4 10 0 10 0 ∧ ¬ no_duplicate t.inst.source_registers) ∧
    (∃ t, run_events Arch.arm64 scenario_options
        [Event.reg_read 6, Event.reg_read 6, Event.store sample_memory 0x2000 8,
          Event.store sample_memory 0x2000 4] (zero_inst active_state) = some t ∧
      no_duplicate t.inst.destination_memory ∧ no_duplicate t.inst.source_memory ∧
      no_duplicate t.inst.destination_registers ∧ no_duplicate t.inst.source_registers) := by
  have h := set_invariant Arch.arm64 scenario_options active_state rfl
    [Event.reg_read 6, Event.reg_read 6, Event.store sample_memory 0x2000 8,
      Event.store sample_memory 0x2000 4] (by decide) (by decide) sample_regs sample_regs_fits
  obtain ⟨⟨t, h1, h2, h3, h4⟩, hfail⟩ := h
  exact ⟨rfl, sample_regs_fits, hfail, t, h1, h2, h3, (h4 (by decide)).1, (h4 (by decide)).2⟩

/-! ## The validity invariant -/

theorem insert_zero_noop (a : Fin 4 → Nat) (h : already_found a 0 = false) :
    first_empty a = none :=
  first_empty_none a (already_found_not a 0 h)

theorem trace_load_zero (m : Memory) (addr size : Nat) (s : State) (h : addr % 2 ^ 64 = 0) :
    trace_load m addr size s = s := by
  unfold trace_load
  rw [h]
  split_ifs with c1 c2
  · rfl
  · rfl
  · rw [insert_zero_noop _ (by simpa using c2)]

theorem trace_store_zero (m : Memory) (addr size : Nat) (s : State) (h : addr % 2 ^ 64 = 0) :
    trace_store m addr size s = s := by
  unfold trace_store
  rw [h]
  split_ifs with c1 c2
  · rfl
  · rfl
  · rw [insert_zero_noop _ (by simpa using c2)]

theorem trace_reg_read_zero (r : Int) (s : State) (h : uchar r = 0) : trace_reg_read r s = s := by
  unfold trace_reg_read
  rw [h]
  split_ifs with c1 c2
  · rfl
  · rfl
  · rw [insert_zero_noop _ (by simpa using c2)]

theorem trace_reg_write_zero (r : Int) (s : State) (h : uchar r = 0) :
    trace_reg_write r s = s := by
  unfold trace_reg_write
  rw [h]
  split_ifs with c1 c2
  · rfl
  · rfl
  · rw [insert_zero_noop _ (by simpa using c2)]

theorem valid_slots_zero : valid_slots inst_zero := by
  intro i
  exact ⟨⟨fun h => absurd rfl h, fun h => absurd rfl h⟩,
    ⟨fun h => absurd rfl h, fun h => absurd rfl h⟩, fun _ _ => rfl, fun _ _ => rfl⟩

theorem trace_load_valid (m : Memory) (addr size : Nat) (s : State) (h : valid_slots s.inst) :
    valid_slots (trace_load m addr size s).inst := by
  unfold trace_load
  split_ifs with c1 c2
  · exact h
  · exact h
  · split
    · exact h
    · rename_i i hi
      have hv : addr % 2 ^ 64 ≠ 0 := by
        have h0 := first_empty_zero _ i hi
        have hn := already_found_not _ _ (by simpa using c2) i
        rw [h0] at hn
        exact fun e => hn e.symm
      intro j
      obtain ⟨h1, h2, h3, h4⟩ := h j
      refine ⟨?_, h2, ?_, h4⟩
      · by_cases cj : j = i
        · subst cj
          simp only [Function.update_same]
          exact ⟨fun _ => hv, fun _ => by decide⟩
        · simp only [Function.update_noteq cj]
          exact h1
      · by_cases cj : j = i
        · subst cj
          simp only [Function.update_same]
          intro hc
          exact absurd hc (by decide)
        · simp only [Function.update_noteq cj]
          exact h3

theorem trace_store_valid (m : Memory) (addr size : Nat) (s : State) (h : valid_slots s.inst) :
    valid_slots (trace_store m addr size s).inst := by
  unfold trace_store
  split_ifs with c1 c2
  · exact h
  · exact h
  · split
    · exact h
    · rename_i i hi
      have hv : addr % 2 ^ 64 ≠ 0 := by
        have h0 := first_empty_zero _ i hi
        have hn := already_found_not _ _ (by simpa using c2) i
        rw [h0] at hn
        exact fun e => hn e.symm
      intro j
      obtain ⟨h1, h2, h3, h4⟩ := h j
      refine ⟨h1, ?_, h3, ?_⟩
      · by_cases cj : j = i
        · subst cj
          simp only [Function.update_same]
          exact ⟨fun _ => hv, fun _ => by decide⟩
        · simp only [Function.update_noteq cj]
          exact h2
      · by_cases cj : j = i
        · subst cj
          simp only [Function.update_same]
          intro hc
          exact absurd hc (by decide)
        · simp only [Function.update_noteq cj]
          exact h4

theorem write_inst_to_file_valid (s : State) (hv : valid_slots s.inst) :
    valid_slots (write_inst_to_file s).inst := by
  unfold write_inst_to_file
  split_ifs
  · exact hv
  · exact hv
  · intro i
    exact hv i

theorem trace_branch_direct_valid (arch : Arch) (jk : IRJumpKind) (s t : State)
    (hv : valid_slots s.inst) (h : trace_branch_direct arch jk s = some t) :
    valid_slots t.inst := by
  unfold trace_branch_direct at h
  split_ifs at h
  · cases h; exact hv
  · cases jk <;> cases arch <;> simp only [Option.some.injEq] at h <;>
      first
      | exact Option.noConfusion h
      | (subst h; exact hv)

theorem trace_branch_indirect_valid (arch : Arch) (jk : IRJumpKind) (s t : State)
    (hv : valid_slots s.inst) (h : trace_branch_indirect arch jk s = some t) :
    valid_slots t.inst := by
  unfold trace_branch_indirect at h
  split_ifs at h
  · cases h; exact hv
  · cases jk <;> cases arch <;> simp only [Option.some.injEq] at h <;>
      first
      | exact Option.noConfusion h
      | (subst h; exact hv)

theorem trace_branch_conditional_valid (arch : Arch) (ci guard : Bool) (s : State)
    (hv : valid_slots s.inst) : valid_slots (trace_branch_conditional arch ci guard s).inst := by
  cases arch <;> cases hT : s.tracing <;>
    simp only [trace_branch_conditional, hT, Bool.not_true, Bool.not_false, Bool.false_eq_true,
      if_false, if_true] <;> exact hv

theorem trace_reg_read_valid (r : Int) (s : State) (hv : valid_slots s.inst) :
    valid_slots (trace_reg_read r s).inst := by
  unfold trace_reg_read
  split_ifs
  · exact hv
  · exact hv
  · split
    · exact hv
    · exact hv

theorem trace_reg_write_valid (r : Int) (s : State) (hv : valid_slots s.inst) :
    valid_slots (trace_reg_write r s).inst := by
  unfold trace_reg_write
  split_ifs
  · exact hv
  · exact hv
  · split
    · exact hv
    · exact hv

theorem trace_instr_valid (iaddr size : Nat) (s : State) (hv : valid_slots s.inst) :
    valid_slots (trace_instr iaddr size s).inst := by
  unfold trace_instr
  split_ifs
  · exact hv
  · exact hv

theorem zero_inst_valid (s : State) (hv : valid_slots s.inst) :
    valid_slots (zero_inst s).inst := by
  unfold zero_inst
  split_ifs
  · exact hv
  · exact valid_slots_zero

theorem Event.apply_valid (arch : Arch) (o : Options) (e : Event) (s t : State)
    (hv : valid_slots s.inst) (h : e.apply arch o s = some t) : valid_slots t.inst := by
  cases e with
  | instr iaddr size =>
    have e1 : trace_instr iaddr size s = t := Option.some.inj h
    rw [← e1]; exact trace_instr_valid iaddr size s hv
  | load m addr size =>
    have e1 : trace_load m addr size s = t := Option.some.inj h
    rw [← e1]; exact trace_load_valid m addr size s hv
  | store m addr size =>
    have e1 : trace_store m addr size s = t := Option.some.inj h
    rw [← e1]; exact trace_store_valid m addr size s hv
  | reg_read r =>
    have e1 : trace_reg_read r s = t := Option.some.inj h
    rw [← e1]; exact trace_reg_read_valid r s hv
  | reg_write r =>
    have e1 : trace_reg_write r s = t := Option.some.inj h
    rw [← e1]; exact trace_reg_write_valid r s hv
  | branch_conditional ci guard =>
    have e1 : trace_branch_conditional arch ci guard s = t := Option.some.inj h
    rw [← e1]; exact trace_branch_conditional_valid arch ci guard s hv
  | branch_direct jk => exact trace_branch_direct_valid arch jk s t hv h
  | branch_indirect jk => exact trace_branch_indirect_valid arch jk s t hv h
  | zero =>
    have e1 : zero_inst s = t := Option.some.inj h
    rw [← e1]; exact zero_inst_valid s hv
  | write =>
    have e1 : write_inst_to_file s = t := Option.some.inj h
    rw [← e1]; exact write_inst_to_file_valid s hv
  | inc =>
    have e1 : inc_inst o s = t := Option.some.inj h
    rw [← e1, inc_inst_inst]; exact hv

theorem run_events_valid (arch : Arch) (o : Options) (es : List Event) :
    ∀ s t : State, valid_slots s.inst → run_events arch o es s = some t →
      valid_slots t.inst := by
  induction es with
  | nil =>
    intro s t hv h
    have e1 : s = t := Option.some.inj h
    rw [← e1]; exact hv
  | cons e es ih =>
    intro s t hv h
    rw [run_events] at h
    cases h1 : e.apply arch o s with
    | none => rw [h1] at h; exact Option.noConfusion h
    | some u =>
      rw [h1] at h
      exact ih u t (Event.apply_valid arch o e s u hv h1) h

theorem valid_count_populated (r : trace_instr_format_t) (hv : valid_slots r) :
    valid_count r =
      slots.countP (fun i => decide (r.destination_memory i ≠ 0)) +
        slots.countP (fun i => decide (r.source_memory i ≠ 0)) := by
  unfold valid_count
  congr 1
  · apply List.countP_congr
    intro i _
    simp only [decide_eq_true_eq]
    exact (hv i).2.1
  · apply List.countP_congr
    intro i _
    simp only [decide_eq_true_eq]
    exact (hv i).1

/-- C25: the validity invariant.  In every record reached from the all-zero
record by any sequence of calls, capture active or not, each source and each
destination slot is valid exactly when its address is nonzero, and a slot that
is not valid has an all-zero snapshot; in any state a load or store at address
0 and a register read or write of id 0 change nothing; hence the record
written has a memory section for exactly the slots with a nonzero address, and
its length is 32 plus 72 for each of them. -/
theorem validity_invariant (arch : Arch) (o : Options) (es : List Event) (s t : State)
    (h0 : s.inst = inst_zero) (hrun : run_events arch o es s = some t) :
    valid_slots t.inst ∧
    (∀ (u : State) (m : Memory) (addr size : Nat), addr % 2 ^ 64 = 0 →
      trace_load m addr size u = u ∧ trace_store m addr size u = u) ∧
    (∀ (u : State) (r : Int), uchar r = 0 →
      trace_reg_read r u = u ∧ trace_reg_write r u = u) ∧
    (∀ i, (slot_bytes (t.inst.d_valid i) (t.inst.destination_memory i)
        (t.inst.d_value i)).length = (if t.inst.destination_memory i ≠ 0 then 72 else 0) ∧
      (slot_bytes (t.inst.s_valid i) (t.inst.source_memory i)
        (t.inst.s_value i)).length = (if t.inst.source_memory i ≠ 0 then 72 else 0)) ∧
    (∀ key, (record_layout key t.inst).length =
      32 + 72 * (slots.countP (fun i => decide (t.inst.destination_memory i ≠ 0)) +
        slots.countP (fun i => decide (t.inst.source_memory i ≠ 0)))) := by
  have hv : valid_slots t.inst :=
    run_events_valid arch o es s t (by rw [h0]; exact valid_slots_zero) hrun
  refine ⟨hv, ?_, ?_, ?_, ?_⟩
  · intro u m addr size ha
    exact ⟨trace_load_zero m addr size u ha, trace_store_zero m addr size u ha⟩
  · intro u r hr
    exact ⟨trace_reg_read_zero r u hr, trace_reg_write_zero r u hr⟩
  · intro i
    obtain ⟨h1, h2, -, -⟩ := hv i
    rw [slot_bytes_length, slot_bytes_length]
    constructor
    · by_cases c : t.inst.destination_memory i = 0
      · rw [if_neg (by rw [h2]; exact not_not.mpr c), if_neg (not_not.mpr c)]
      · rw [if_pos (h2.mpr c), if_pos c]
    · by_cases c : t.inst.source_memory i = 0
      · rw [if_neg (by rw [h1]; exact not_not.mpr c), if_neg (not_not.mpr c)]
      · rw [if_pos (h1.mpr c), if_pos c]
  · intro key
    rw [record_layout_length, valid_count_populated _ hv]

theorem validity_invariant_witness :
    State.initial.inst = inst_zero ∧
    ∃ t, run_events Arch.arm64 scenario_options
        [Event.inc, Event.write, Event.zero, Event.instr 0x1000 4,
          Event.load sample_memory 0 8, Event.store sample_memory 0x2000 8,
          Event.reg_read 0, Event.branch_conditional false true] State.initial = some t ∧
      valid_slots t.inst := by
  obtain ⟨t, ht⟩ := run_events_isSome Arch.arm64 scenario_options
    [Event.inc, Event.write, Event.zero, Event.instr 0x1000 4,
      Event.load sample_memory 0 8, Event.store sample_memory 0x2000 8,
      Event.reg_read 0, Event.branch_conditional false true] State.initial (by decide)
  exact ⟨rfl, t, ht,
    (validity_invariant Arch.arm64 scenario_options _ State.initial t rfl ht).1⟩

/-! ## The number of records -/

theorem inc_inst_exit_tracing (o : Options) (s : State) (hx : s.exited = false)
    (h : (inc_inst o s).exited = true) : (inc_inst o s).tracing = false := by
  have h1 := inc_inst_exited o s
  have h2 := inc_inst_tracing o s
  generalize (s.instructions + 1) % 2 ^ 64 = i at h1 h2
  generalize (o.skip + o.trace_instrs + 1) % 2 ^ 64 = t at h1 h2
  rw [h1, hx] at h
  rw [h2]
  by_cases c : i = t
  · rw [if_pos c]
  · simp [c] at h

theorem instruction_boundary_unfold (o : Options) (a z : Nat) (s : State)
    (hx : s.exited = false) :
    instruction_boundary o a z s =
      if (inc_inst o s).exited = true then inc_inst o s
      else trace_instr a z (zero_inst (write_inst_to_file (inc_inst o s))) := by
  simp only [instruction_boundary, hx, Bool.false_eq_true, if_false]

theorem fresh_record (a z : Nat) (w : State) (ht : w.tracing = true) :
    (trace_instr a z (zero_inst w)).exited = w.exited ∧
    (trace_instr a z (zero_inst w)).tracing = true ∧
    (trace_instr a z (zero_inst w)).tracing_done = w.tracing_done ∧
    (trace_instr a z (zero_inst w)).instructions = w.instructions ∧
    (trace_instr a z (zero_inst w)).writes = w.writes ∧
    (trace_instr a z (zero_inst w)).inst =
      { inst_zero with encode_key := w.inst.encode_key, ip := a % 2 ^ 64 } := by
  rw [zero_inst_active w ht]
  simp only [trace_instr, ht, Bool.not_true, Bool.false_eq_true, if_false, and_self, true_and]
  rfl

theorem inactive_boundary (a z : Nat) (w : State) (ht : w.tracing = false) :
    trace_instr a z (zero_inst (write_inst_to_file w)) = w := by
  simp [trace_instr, zero_inst, write_inst_to_file, ht]

theorem write_inst_to_file_fields (w : State) (ht : w.tracing = true) :
    (write_inst_to_file w).exited = w.exited ∧
    (write_inst_to_file w).tracing = true ∧
    (write_inst_to_file w).tracing_done = w.tracing_done ∧
    (write_inst_to_file w).instructions = w.instructions ∧
    (write_inst_to_file w).writes = w.writes ++
      (if w.inst.ip = 0 then []
       else [record_layout (reference_key w.inst (32 + 72 * valid_count w.inst)) w.inst]) := by
  by_cases h0 : w.inst.ip = 0
  · have e : write_inst_to_file w = w := by simp [write_inst_to_file, h0]
    rw [e, if_pos h0, List.append_nil]
    exact ⟨rfl, ht, rfl, rfl, rfl⟩
  · rw [write_inst_to_file_active w ht h0, if_neg h0]
    exact ⟨rfl, ht, rfl, rfl, rfl⟩

theorem instruction_boundary_step (o : Options) (a z : Nat) (s : State)
    (hx : s.exited = false) :
    (instruction_boundary o a z s).exited = (inc_inst o s).exited ∧
    (instruction_boundary o a z s).tracing = (inc_inst o s).tracing ∧
    (instruction_boundary o a z s).tracing_done = (inc_inst o s).tracing_done ∧
    (instruction_boundary o a z s).instructions = (inc_inst o s).instructions ∧
    ((inc_inst o s).tracing = false →
      (instruction_boundary o a z s).inst = s.inst ∧
      (instruction_boundary o a z s).writes = s.writes) ∧
    ((inc_inst o s).tracing = true →
      (instruction_boundary o a z s).inst =
        { inst_zero with
          encode_key := (instruction_boundary o a z s).inst.encode_key, ip := a % 2 ^ 64 } ∧
      (instruction_boundary o a z s).writes = s.writes ++
        (if s.inst.ip = 0 then []
         else [record_layout (reference_key s.inst (32 + 72 * valid_count s.inst)) s.inst])) := by
  have hi := inc_inst_inst o s
  have hw := inc_inst_writes o s
  have hxt := inc_inst_exit_tracing o s hx
  rw [instruction_boundary_unfold o a z s hx]
  revert hi hw hxt
  generalize inc_inst o s = s1
  intro hi hw hxt
  cases h1 : s1.exited
  · rw [if_neg Bool.false_ne_true]
    cases ht : s1.tracing
    · rw [inactive_boundary a z s1 ht, h1, ht]
      exact ⟨rfl, rfl, rfl, rfl, fun _ => ⟨hi, hw⟩, fun h => absurd h Bool.false_ne_true⟩
    · obtain ⟨w1, w2, w3, w4, w5⟩ := write_inst_to_file_fields s1 ht
      obtain ⟨f1, f2, f3, f4, f5, f6⟩ := fresh_record a z (write_inst_to_file s1) w2
      rw [f1, f2, f3, f4, f5, w1, w3, w4, w5, h1, hi, hw]
      refine ⟨rfl, rfl, rfl, rfl, fun h => absurd h.symm Bool.false_ne_true, fun _ => ⟨?_, rfl⟩⟩
      rw [f6]
  · rw [if_pos rfl, h1, hxt h1]
    exact ⟨rfl, rfl, rfl, rfl, fun _ => ⟨hi, hw⟩, fun h => absurd h Bool.false_ne_true⟩

theorem trace_instr_closes (a z : Nat) (s : State) : (trace_instr a z s).closes = s.closes := by
  unfold trace_instr; split_ifs <;> rfl

theorem zero_inst_closes (s : State) : (zero_inst s).closes = s.closes := by
  unfold zero_inst; split_ifs <;> rfl

theorem write_inst_to_file_closes (s : State) : (write_inst_to_file s).closes = s.closes := by
  unfold write_inst_to_file; split_ifs <;> rfl

theorem instruction_boundary_closes (o : Options) (a z : Nat) (s : State)
    (hx : s.exited = false) :
    (instruction_boundary o a z s).closes = (inc_inst o s).closes := by
  rw [instruction_boundary_unfold o a z s hx]
  split_ifs
  · rfl
  · rw [trace_instr_closes, zero_inst_closes, write_inst_to_file_closes]

theorem same_control_refl (s : State) : same_control s s := ⟨rfl, rfl, rfl, rfl, rfl, rfl, rfl⟩

theorem same_control_trans (a b c : State) (h1 : same_control a b) (h2 : same_control b c) :
    same_control a c :=
  ⟨h1.1.trans h2.1, h1.2.1.trans h2.2.1, h1.2.2.1.trans h2.2.2.1,
    h1.2.2.2.1.trans h2.2.2.2.1, h1.2.2.2.2.1.trans h2.2.2.2.2.1,
    h1.2.2.2.2.2.1.trans h2.2.2.2.2.2.1, h1.2.2.2.2.2.2.trans h2.2.2.2.2.2.2⟩

theorem trace_load_control (m : Memory) (addr size : Nat) (s : State) :
    same_control (trace_load m addr size s) s := by
  unfold trace_load
  split_ifs
  · exact same_control_refl s
  · exact same_control_refl s
  · split
    · exact same_control_refl s
    · exact ⟨rfl, rfl, rfl, rfl, rfl, rfl, rfl⟩

theorem trace_store_control (m : Memory) (addr size : Nat) (s : State) :
    same_control (trace_store m addr size s) s := by
  unfold trace_store
  split_ifs
  · exact same_control_refl s
  · exact same_control_refl s
  · split
    · exact same_control_refl s
    · exact ⟨rfl, rfl, rfl, rfl, rfl, rfl, rfl⟩

theorem trace_reg_read_control (r : Int) (s : State) : same_control (trace_reg_read r s) s := by
  unfold trace_reg_read
  split_ifs
  · exact same_control_refl s
  · exact same_control_refl s
  · split
    · exact same_control_refl s
    · exact ⟨rfl, rfl, rfl, rfl, rfl, rfl, rfl⟩

theorem trace_reg_write_control (r : Int) (s : State) :
    same_control (trace_reg_write r s) s := by
  unfold trace_reg_write
  split_ifs
  · exact same_control_refl s
  · exact same_control_refl s
  · split
    · exact same_control_refl s
    · exact ⟨rfl, rfl, rfl, rfl, rfl, rfl, rfl⟩

theorem trace_branch_conditional_control (arch : Arch) (ci guard : Bool) (s : State) :
    same_control (trace_branch_conditional arch ci guard s) s := by
  cases arch <;> cases hT : s.tracing <;>
    simp only [trace_branch_conditional, hT, Bool.not_true, Bool.not_false, Bool.false_eq_true,
      if_false, if_true] <;>
    first
    | exact same_control_refl s
    | exact ⟨hT.symm, rfl, rfl, rfl, rfl, rfl, rfl⟩

theorem trace_branch_direct_control (arch : Arch) (jk : IRJumpKind) (s t : State)
    (h : trace_branch_direct arch jk s = some t) : same_control t s := by
  unfold trace_branch_direct at h
  split_ifs at h
  · cases h; exact same_control_refl s
  · cases jk <;> cases arch <;> simp only [Option.some.injEq] at h <;>
      first
      | exact Option.noConfusion h
      | (subst h; exact ⟨rfl, rfl, rfl, rfl, rfl, rfl, rfl⟩)

theorem trace_branch_indirect_control (arch : Arch) (jk : IRJumpKind) (s t : State)
    (h : trace_branch_indirect arch jk s = some t) : same_control t s := by
  unfold trace_branch_indirect at h
  split_ifs at h
  · cases h; exact same_control_refl s
  · cases jk <;> cases arch <;> simp only [Option.some.injEq] at h <;>
      first
      | exact Option.noConfusion h
      | (subst h; exact ⟨rfl, rfl, rfl, rfl, rfl, rfl, rfl⟩)

theorem Event.apply_control (arch : Arch) (o : Options) (e : Event) (s t : State)
    (he : e.accumulates = true) (h : e.apply arch o s = some t) : same_control t s := by
  cases e with
  | instr iaddr size => exact absurd he Bool.false_ne_true
  | zero => exact absurd he Bool.false_ne_true
  | write => exact absurd he Bool.false_ne_true
  | inc => exact absurd he Bool.false_ne_true
  | load m addr size =>
    have e1 : trace_load m addr size s = t := Option.some.inj h
    rw [← e1]; exact trace_load_control m addr size s
  | store m addr size =>
    have e1 : trace_store m addr size s = t := Option.some.inj h
    rw [← e1]; exact trace_store_control m addr size s
  | reg_read r =>
    have e1 : trace_reg_read r s = t := Option.some.inj h
    rw [← e1]; exact trace_reg_read_control r s
  | reg_write r =>
    have e1 : trace_reg_write r s = t := Option.some.inj h
    rw [← e1]; exact trace_reg_write_control r s
  | branch_conditional ci guard =>
    have e1 : trace_branch_conditional arch ci guard s = t := Option.some.inj h
    rw [← e1]; exact trace_branch_conditional_control arch ci guard s
  | branch_direct jk => exact trace_branch_direct_control arch jk s t h
  | branch_indirect jk => exact trace_branch_indirect_control arch jk s t h

theorem run_events_control (arch : Arch) (o : Options) (es : List Event) :
    ∀ s t : State, (∀ e ∈ es, e.accumulates = true) → run_events arch o es s = some t →
      same_control t s := by
  induction es with
  | nil =>
    intro s t _ h
    have e1 : s = t := Option.some.inj h
    rw [← e1]; exact same_control_refl s
  | cons e es ih =>
    intro s t hacc h
    rw [run_events] at h
    cases h1 : e.apply arch o s with
    | none => rw [h1] at h; exact Option.noConfusion h
    | some u =>
      rw [h1] at h
      exact same_control_trans t u s
        (ih u t (fun x hx => hacc x (List.mem_cons_of_mem e hx)) h)
        (Event.apply_control arch o e s u (hacc e (List.mem_cons_self e es)) h1)

theorem range_map_succ (f : Nat → List Nat) (a len : Nat) :
    (List.range' a (len + 1)).map f = (List.range' a len).map f ++ [f (a + len)] := by
  rw [List.range'_concat, List.map_append]
  simp

theorem inc_inst_phase (o : Options) (h1 : 1 ≤ o.skip)
    (hT : o.skip + o.trace_instrs + 1 ≤ 2 ^ 64) (n : Nat)
    (hn : n + 1 ≤ o.skip + o.trace_instrs + 1)
    (s : State) (hx : s.exited = false)
    (hins : s.instructions = n % 2 ^ 64)
    (i3 : s.tracing = true ↔ o.skip ≤ n ∧ n ≤ o.skip + o.trace_instrs)
    (i4 : s.tracing_done = true ↔ o.skip + o.trace_instrs + 1 ≤ n) :
    ((inc_inst o s).exited = true ↔
      o.exit_after_tracing = true ∧ o.skip + o.trace_instrs + 1 ≤ n + 1) ∧
    ((inc_inst o s).tracing = true ↔ o.skip ≤ n + 1 ∧ n + 1 ≤ o.skip + o.trace_instrs) ∧
    ((inc_inst o s).tracing_done = true ↔ o.skip + o.trace_instrs + 1 ≤ n + 1) ∧
    (inc_inst o s).instructions = (n + 1) % 2 ^ 64 ∧
    (inc_inst o s).closes =
      s.closes + (if o.skip + o.trace_instrs + 1 ≤ n + 1 then 1 else 0) := by
  have hmod : (n % 2 ^ 64 + 1) % 2 ^ 64 = (n + 1) % 2 ^ 64 := by omega
  have eT : (n + 1) % 2 ^ 64 = (o.skip + o.trace_instrs + 1) % 2 ^ 64 ↔
      n + 1 = o.skip + o.trace_instrs + 1 := by omega
  have eS : (n + 1) % 2 ^ 64 = o.skip ↔ n + 1 = o.skip := by omega
  have hd : s.tracing_done = false := by
    cases h : s.tracing_done
    · rfl
    · have := i4.mp h; omega
  have q_ex := inc_inst_exited o s
  have q_tr := inc_inst_tracing o s
  have q_dn := inc_inst_tracing_done o s
  have q_in := inc_inst_instructions o s
  have q_cl := inc_inst_closes o s
  rw [hins, hmod] at q_ex q_tr q_dn q_in q_cl
  clear hmod hins
  generalize (n + 1) % 2 ^ 64 = c at q_ex q_tr q_dn q_in q_cl eT eS ⊢
  generalize (o.skip + o.trace_instrs + 1) % 2 ^ 64 = d at q_ex q_tr q_dn q_cl eT ⊢
  generalize inc_inst o s = s1 at q_ex q_tr q_dn q_in q_cl ⊢
  refine ⟨?_, ?_, ?_, q_in, ?_⟩
  · rw [q_ex, hx, hd]
    simp only [Bool.false_or, Bool.and_eq_true, decide_eq_true_eq, Bool.not_false,
      and_true, eT]
    constructor
    · rintro ⟨a, b⟩
      exact ⟨b, by omega⟩
    · rintro ⟨b, _⟩
      exact ⟨by omega, b⟩
  · rw [q_tr]
    split_ifs with c1 c2
    · have := eT.mp c1
      constructor
      · intro h; exact h.elim
      · intro h; omega
    · have := eS.mp c2
      constructor
      · intro _; omega
      · intro _; rfl
    · have n1 := mt eT.mpr c1
      have n2 := mt eS.mpr c2
      rw [i3]; omega
  · rw [q_dn, hd]
    simp only [Bool.false_or, decide_eq_true_eq, eT]
    omega
  · rw [q_cl]
    by_cases c1 : n + 1 = o.skip + o.trace_instrs + 1
    · rw [if_pos ⟨eT.mpr c1, hd⟩, if_pos (by omega)]
    · rw [if_neg (fun h => c1 (eT.mp h.1)), if_neg (by omega)]

theorem Event.apply_inactive (arch : Arch) (o : Options) (e : Event) (s : State)
    (ht : s.tracing = false) (he : e.accumulates = true) : e.apply arch o s = some s := by
  cases e with
  | load m a z => simp [Event.apply, trace_load, ht]
  | store m a z => simp [Event.apply, trace_store, ht]
  | reg_read r => simp [Event.apply, trace_reg_read, ht]
  | reg_write r => simp [Event.apply, trace_reg_write, ht]
  | branch_conditional ci g => simp [Event.apply, trace_branch_conditional, ht]
  | branch_direct jk => simp [Event.apply, trace_branch_direct, ht]
  | branch_indirect jk => simp [Event.apply, trace_branch_indirect, ht]
  | _ => exact absurd he Bool.false_ne_true

theorem run_events_inactive (arch : Arch) (o : Options) (es : List Event) (s : State)
    (ht : s.tracing = false) (he : ∀ e ∈ es, e.accumulates = true) :
    run_events arch o es s = some s := by
  induction es with
  | nil => rfl
  | cons e es ih =>
    rw [run_events, Event.apply_inactive arch o e s ht (he e (List.mem_cons_self e es))]
    exact ih (fun x hx => he x (List.mem_cons_of_mem e hx))

theorem wire_ip (r : trace_instr_format_t) :
    ((wire r).drop 8).take 8 = le_bytes 8 r.ip := by
  simp only [wire, record_layout, List.append_assoc]
  rw [drop_le_bytes_append, take_le_bytes_append]

theorem instruction_unfold (arch : Arch) (o : Options) (a z : Nat) (es : List Event)
    (s : State) (file : List (List Nat)) (hx : s.exited = false) :
    instruction arch o a z es (s, file) =
      if (instruction_boundary o a z s).exited = true then
        some (instruction_boundary o a z s, file_after s (instruction_boundary o a z s) file)
      else
        (run_events arch o es (instruction_boundary o a z s)).map
          (fun t => (t, file_after s (instruction_boundary o a z s) file)) := by
  simp only [instruction, hx, Bool.false_eq_true, if_false]

/-- The events of an instruction run to a state that agrees with the state
after the instruction mark on the window variables, the effects and `ip`, when
none of them asserts while capture is active. -/
theorem instruction_result (arch : Arch) (o : Options) (a z : Nat) (es : List Event)
    (hacc : ∀ e ∈ es, e.accumulates = true)
    (s : State) (file : List (List Nat)) (hx : s.exited = false)
    (hass : (instruction_boundary o a z s).tracing = true → ∀ e ∈ es, e.asserting = false) :
    ∃ t, instruction arch o a z es (s, file) =
        some (t, file_after s (instruction_boundary o a z s) file) ∧
      same_control t (instruction_boundary o a z s) := by
  rw [instruction_unfold arch o a z es s file hx]
  generalize instruction_boundary o a z s = u at hass ⊢
  split_ifs with hu
  · exact ⟨u, rfl, same_control_refl u⟩
  · cases hut : u.tracing
    · rw [run_events_inactive arch o es u hut hacc]
      exact ⟨u, rfl, same_control_refl u⟩
    · obtain ⟨t, ht⟩ := run_events_isSome arch o es u (hass hut)
      refine ⟨t, by rw [ht]; rfl, ?_⟩
      exact run_events_control arch o es u t hacc ht

theorem stream_invariant_zero (o : Options) (h1 : 1 ≤ o.skip) (addr : Nat → Nat)
    (acc : Nat → trace_instr_format_t) : stream_invariant o addr acc 0 State.initial [] := by
  refine ⟨?_, rfl, ?_, ?_, ?_, ?_, ?_⟩
  · constructor
    · intro h; exact absurd h Bool.false_ne_true
    · intro h; omega
  · constructor
    · intro h; exact absurd h Bool.false_ne_true
    · intro h; omega
  · constructor
    · intro h; exact absurd h Bool.false_ne_true
    · intro h; omega
  · rw [if_neg (by omega)]; rfl
  · rw [if_pos (by omega)]; rfl
  · have : min 0 (o.skip + o.trace_instrs) - o.skip = 0 := by omega
    rw [this]; rfl

theorem stream_invariant_step (arch : Arch) (o : Options) (h1 : 1 ≤ o.skip)
    (hT : o.skip + o.trace_instrs + 1 ≤ 2 ^ 64) (addr : Nat → Nat)
    (ha : ∀ k, addr k ≠ 0 ∧ addr k < 2 ^ 64) (acc : Nat → trace_instr_format_t) (n : Nat)
    (hn : n + 1 ≤ o.skip + o.trace_instrs + 1) (z : Nat) (es : List Event)
    (hev : ∀ e ∈ es, e.accumulates = true ∧ (o.skip ≤ n + 1 → e.asserting = false))
    (s : State) (file : List (List Nat)) (hacc : acc n = s.inst)
    (ih : stream_invariant o addr acc n s file) :
    ∃ t f, instruction arch o (addr (n + 1)) z es (s, file) = some (t, f) ∧
      stream_invariant o addr acc (n + 1) t f := by
  obtain ⟨i1, i2, i3, i4, i5, i6, i7⟩ := ih
  have hx : s.exited = false := by
    cases h : s.exited
    · rfl
    · have := (i1.mp h).2; omega
  obtain ⟨p1, p2, p3, p4, p5, p6⟩ := instruction_boundary_step o (addr (n + 1)) z s hx
  have pc := instruction_boundary_closes o (addr (n + 1)) z s hx
  obtain ⟨f_ex, f_tr, f_dn, f_in, f_cl0⟩ := inc_inst_phase o h1 hT n hn s hx i2 i3 i4
  have f_cl : (inc_inst o s).closes =
      (if o.skip + o.trace_instrs + 1 ≤ n + 1 then 1 else 0) := by
    rw [f_cl0, i5, if_neg (by omega), Nat.zero_add]
  obtain ⟨t, ht, c1, c2, c3, c4, c5, c6, c7⟩ :=
    instruction_result arch o (addr (n + 1)) z es (fun e he => (hev e he).1) s file hx
      (fun hu e he => (hev e he).2 (by rw [p2] at hu; exact (f_tr.mp hu).1))
  refine ⟨t, _, ht, ?_⟩
  clear i1 i3 i4 i5 i2 f_cl0 ht hev
  generalize inc_inst o s = s1 at p1 p2 p3 p4 p5 p6 pc f_ex f_tr f_dn f_in f_cl
  generalize instruction_boundary o (addr (n + 1)) z s = u
    at p1 p2 p3 p4 p5 p6 pc c1 c2 c3 c4 c5 c6 c7 ⊢
  refine ⟨?_, ?_, ?_, ?_, ?_, ?_, ?_⟩
  · rw [c4, p1]; exact f_ex
  · rw [c3, p4]; exact f_in
  · rw [c1, p2]; exact f_tr
  · rw [c2, p3]; exact f_dn
  · rw [c5, pc]; exact f_cl
  · rw [c7]
    cases ht1 : s1.tracing
    · obtain ⟨r1, -⟩ := p5 ht1
      have hnt : ¬ (o.skip ≤ n + 1 ∧ n + 1 ≤ o.skip + o.trace_instrs) := by
        intro h
        have := f_tr.mpr h
        rw [ht1] at this
        exact Bool.false_ne_true this
      rw [r1, i6]
      by_cases c3 : n + 1 < o.skip
      · rw [if_pos (by omega), if_pos c3]
      · have m1 : min n (o.skip + o.trace_instrs) =
            min (n + 1) (o.skip + o.trace_instrs) := by omega
        rw [if_neg (by omega), if_neg c3, m1]
    · obtain ⟨r1, -⟩ := p6 ht1
      obtain ⟨t1, t2⟩ := f_tr.mp ht1
      have hipu : u.inst.ip = addr (n + 1) % 2 ^ 64 := by rw [r1]
      have m1 : min (n + 1) (o.skip + o.trace_instrs) = n + 1 := by omega
      rw [hipu, if_neg (by omega), m1, Nat.mod_eq_of_lt (ha (n + 1)).2]
  · unfold file_after
    rw [pc, f_cl]
    by_cases cT : o.skip + o.trace_instrs + 1 ≤ n + 1
    · have m2 : min n (o.skip + o.trace_instrs) - o.skip =
          min (n + 1) (o.skip + o.trace_instrs) - o.skip := by omega
      rw [if_pos cT, if_neg (by decide), i7, m2]
    · rw [if_neg cT, if_pos rfl]
      cases ht1 : s1.tracing
      · obtain ⟨-, r2⟩ := p5 ht1
        have hnt : ¬ (o.skip ≤ n + 1 ∧ n + 1 ≤ o.skip + o.trace_instrs) := by
          intro h
          have := f_tr.mpr h
          rw [ht1] at this
          exact Bool.false_ne_true this
        have m2 : min n (o.skip + o.trace_instrs) - o.skip =
            min (n + 1) (o.skip + o.trace_instrs) - o.skip := by omega
        rw [r2, List.drop_length, List.append_nil, i7, m2]
      · obtain ⟨-, r2⟩ := p6 ht1
        obtain ⟨t1, t2⟩ := f_tr.mp ht1
        rw [r2, List.drop_left, i7]
        by_cases c3 : n + 1 = o.skip
        · have z1 : s.inst.ip = 0 := by rw [i6, if_pos (by omega)]
          have m2 : min n (o.skip + o.trace_instrs) - o.skip =
              min (n + 1) (o.skip + o.trace_instrs) - o.skip := by omega
          rw [if_pos z1, List.append_nil, m2]
        · have m3 : min n (o.skip + o.trace_instrs) = n := by omega
          have z1 : s.inst.ip = addr n := by rw [i6, if_neg (by omega), m3]
          have m4 : min (n + 1) (o.skip + o.trace_instrs) - o.skip = (n - o.skip) + 1 := by
            omega
          have m5 : o.skip + (n - o.skip) = n := by omega
          rw [if_neg (by rw [z1]; exact (ha n).1), m3, m4, range_map_succ, m5, hacc]
          rfl

theorem accumulated_eq (arch : Arch) (o : Options) (addr size : Nat → Nat)
    (evs : Nat → List Event) (k : Nat) (s : State) (file : List (List Nat))
    (h : instruction_stream arch o addr size evs k = some (s, file)) :
    accumulated arch o addr size evs k = s.inst := by
  unfold accumulated
  rw [h]

theorem instruction_stream_succ (arch : Arch) (o : Options) (addr size : Nat → Nat)
    (evs : Nat → List Event) (n : Nat) (s : State) (file : List (List Nat))
    (h : instruction_stream arch o addr size evs n = some (s, file)) :
    instruction_stream arch o addr size evs (n + 1) =
      instruction arch o (addr (n + 1)) (size (n + 1)) (evs (n + 1)) (s, file) := by
  rw [instruction_stream, h]
  rfl

/-- Up to the Done transition the stream runs and keeps the invariant. -/
theorem instruction_stream_window (arch : Arch) (o : Options) (h1 : 1 ≤ o.skip)
    (hT : o.skip + o.trace_instrs + 1 ≤ 2 ^ 64) (addr size : Nat → Nat)
    (ha : ∀ k, addr k ≠ 0 ∧ addr k < 2 ^ 64) (evs : Nat → List Event)
    (hev : ∀ k, ∀ e ∈ evs k, e.accumulates = true ∧ (o.skip ≤ k → e.asserting = false)) :
    ∀ n, n ≤ o.skip + o.trace_instrs + 1 →
      ∃ s file, instruction_stream arch o addr size evs n = some (s, file) ∧
        stream_invariant o addr (accumulated arch o addr size evs) n s file := by
  intro n
  induction n with
  | zero =>
    intro _
    exact ⟨State.initial, [], rfl, stream_invariant_zero o h1 addr _⟩
  | succ n ih =>
    intro hn
    obtain ⟨s, file, hs, inv⟩ := ih (by omega)
    obtain ⟨t, f, ht, inv2⟩ := stream_invariant_step arch o h1 hT addr ha
      (accumulated arch o addr size evs) n hn (size (n + 1)) (evs (n + 1)) (hev (n + 1))
      s file (accumulated_eq arch o addr size evs n s file hs) inv
    exact ⟨t, f, by rw [instruction_stream_succ arch o addr size evs n s file hs]; exact ht,
      inv2⟩

/-- Once the Done transition is made the descriptor is closed: an instruction
leaves the trace file as it is, and `VG_(close)` is not called again. -/
theorem instruction_done (arch : Arch) (o : Options) (a z : Nat) (es : List Event)
    (hev : ∀ e ∈ es, e.accumulates = true ∧ e.asserting = false)
    (s : State) (file : List (List Nat)) (hd : s.tracing_done = true) (hc : s.closes = 1) :
    ∃ t, instruction arch o a z es (s, file) = some (t, file) ∧
      t.tracing_done = true ∧ t.closes = 1 := by
  cases hx : s.exited
  · obtain ⟨-, -, p3, -, -, -⟩ := instruction_boundary_step o a z s hx
    have pc := instruction_boundary_closes o a z s hx
    obtain ⟨t, ht, -, c2, -, -, c5, -, -⟩ :=
      instruction_result arch o a z es (fun e he => (hev e he).1) s file hx
        (fun _ e he => (hev e he).2)
    have q3 : (inc_inst o s).tracing_done = true := by
      rw [inc_inst_tracing_done, hd]; rfl
    have q5 : (inc_inst o s).closes = 1 := by
      rw [inc_inst_closes, hd, hc, if_neg (fun h => Bool.noConfusion h.2)]
    generalize instruction_boundary o a z s = u at p3 pc ht c2 c5
    have hu : u.closes = 1 := by rw [pc]; exact q5
    refine ⟨t, ?_, by rw [c2, p3]; exact q3, by rw [c5]; exact hu⟩
    rw [ht]
    unfold file_after
    rw [hu, if_neg (by decide)]
  · refine ⟨s, ?_, hd, hc⟩
    simp only [instruction, hx, if_true]

theorem instruction_stream_done (arch : Arch) (o : Options) (addr size : Nat → Nat)
    (evs : Nat → List Event)
    (hev : ∀ k, ∀ e ∈ evs k, e.accumulates = true ∧ (o.skip ≤ k → e.asserting = false))
    (m : Nat) (hm : o.skip ≤ m) (s : State) (file : List (List Nat))
    (hs : instruction_stream arch o addr size evs m = some (s, file))
    (hd : s.tracing_done = true) (hc : s.closes = 1) :
    ∀ n, m ≤ n → ∃ t, instruction_stream arch o addr size evs n = some (t, file) ∧
      t.tracing_done = true ∧ t.closes = 1 := by
  intro n hn
  induction n, hn using Nat.le_induction with
  | base => exact ⟨s, hs, hd, hc⟩
  | succ n hmn ih =>
    obtain ⟨t, h1, h2, h3⟩ := ih
    obtain ⟨u, g1, g2, g3⟩ := instruction_done arch o (addr (n + 1)) (size (n + 1))
      (evs (n + 1)) (fun e he => ⟨(hev (n + 1) e he).1, (hev (n + 1) e he).2 (by omega)⟩)
      t file h2 h3
    exact ⟨u, by rw [instruction_stream_succ arch o addr size evs n t file h1]; exact g1,
      g2, g3⟩

/-- When `skip + trace_instrs + 1` wraps onto `skip`, `inc_inst` clears
`tracing` in the call that sets it: capture is never active after the
instruction mark, nothing is handed to `VG_(write)` and the file stays empty. -/
theorem instruction_shut (arch : Arch) (o : Options)
    (hw : (o.skip + o.trace_instrs + 1) % 2 ^ 64 = o.skip) (a z : Nat) (es : List Event)
    (hev : ∀ e ∈ es, e.accumulates = true)
    (s : State) (ht : s.tracing = false) (hwr : s.writes = []) :
    ∃ t, instruction arch o a z es (s, []) = some (t, []) ∧
      t.tracing = false ∧ t.writes = [] := by
  cases hx : s.exited
  · obtain ⟨-, p2, -, -, p5, -⟩ := instruction_boundary_step o a z s hx
    have q2 : (inc_inst o s).tracing = false := by
      rw [inc_inst_tracing, hw, ht]
      split_ifs <;> rfl
    have hu : (instruction_boundary o a z s).tracing = false := by rw [p2]; exact q2
    obtain ⟨-, r2⟩ := p5 q2
    obtain ⟨t, h, c1, -, -, -, -, c6, -⟩ :=
      instruction_result arch o a z es hev s [] hx
        (fun h => absurd (hu.symm.trans h) Bool.false_ne_true)
    generalize instruction_boundary o a z s = u at hu r2 h c1 c6
    refine ⟨t, ?_, by rw [c1]; exact hu, by rw [c6, r2]; exact hwr⟩
    rw [h]
    unfold file_after
    rw [r2, hwr]
    split_ifs <;> rfl
  · refine ⟨s, ?_, ht, hwr⟩
    simp only [instruction, hx, if_true]

theorem instruction_stream_shut (arch : Arch) (o : Options)
    (hw : (o.skip + o.trace_instrs + 1) % 2 ^ 64 = o.skip) (addr size : Nat → Nat)
    (evs : Nat → List Event) (hev : ∀ k, ∀ e ∈ evs k, e.accumulates = true) :
    ∀ n, ∃ t, instruction_stream arch o addr size evs n = some (t, []) ∧
      t.tracing = false ∧ t.writes = [] := by
  intro n
  induction n with
  | zero => exact ⟨State.initial, rfl, rfl, rfl⟩
  | succ n ih =>
    obtain ⟨t, h1, h2, h3⟩ := ih
    obtain ⟨u, g1, g2, g3⟩ := instruction_shut arch o hw (addr (n + 1)) (size (n + 1))
      (evs (n + 1)) (hev (n + 1)) t h2 h3
    exact ⟨u, by rw [instruction_stream_succ arch o addr size evs n t [] h1]; exact g1,
      g2, g3⟩

theorem sample_stream_nonzero : ∀ k, sample_stream k ≠ 0 ∧ sample_stream k < 2 ^ 64 := by
  intro k
  unfold sample_stream
  constructor <;> omega

theorem sample_events_accumulate :
    ∀ k, ∀ e ∈ sample_events k, e.accumulates = true ∧ e.asserting = false := by
  intro k e he
  simp only [sample_events, List.mem_cons, List.mem_singleton, List.not_mem_nil,
    or_false] at he
  rcases he with rfl | rfl | rfl <;> exact ⟨rfl, rfl⟩

/-- C26 (as amended): the number of records.  With the per-boundary order
`inc_inst`, `write_inst_to_file`, `zero_inst`, `trace_instr`, for `skip >= 1`
and a sum `skip + trace + 1` that does not wrap (it is at most `2 ^ 64`, so
that the counter meets it at boundary `skip + trace + 1`), and for every
stream of `N >= skip + trace + 1` instructions at nonzero addresses, each with
any register, memory and branch events of which none from instruction `skip`
on is a branch of a jump kind other than `Ijk_Boring`, `Ijk_Call`, `Ijk_Ret`
(the instrumentation places the branch handlers for these three kinds only,
lines 1246-1247; under capture another kind would stop the run at
`tl_assert(0)`): the run reaches the end of the stream, and the trace file
holds exactly `trace` records, the records of the instructions numbered `skip`
to `skip + trace - 1` in order, each with the address of its instruction as
`ip` (bytes 8 to 15 of the buffer); after the instruction numbered
`skip + trace` capture is active and the record holds its address, and the
file is then already what it is at the end: that record is never written and
nothing is written after the Done transition, which has closed the
descriptor, once. -/
theorem record_count (arch : Arch) (o : Options) (h1 : 1 ≤ o.skip)
    (hT : o.skip + o.trace_instrs + 1 ≤ 2 ^ 64) (addr size : Nat → Nat)
    (ha : ∀ k, addr k ≠ 0 ∧ addr k < 2 ^ 64) (evs : Nat → List Event)
    (hev : ∀ k, ∀ e ∈ evs k, e.accumulates = true ∧ (o.skip ≤ k → e.asserting = false))
    (N : Nat) (hN : o.skip + o.trace_instrs + 1 ≤ N) :
    ∃ s sw file,
      instruction_stream arch o addr size evs N = some (s, file) ∧
      file = (List.range' o.skip o.trace_instrs).map
        (fun k => wire (accumulated arch o addr size evs k)) ∧
      file.length = o.trace_instrs ∧
      (∀ k, o.skip ≤ k → k ≤ o.skip + o.trace_instrs →
        (accumulated arch o addr size evs k).ip = addr k ∧
        ((wire (accumulated arch o addr size evs k)).drop 8).take 8 = le_bytes 8 (addr k)) ∧
      instruction_stream arch o addr size evs (o.skip + o.trace_instrs) = some (sw, file) ∧
      sw.tracing = true ∧ sw.inst.ip = addr (o.skip + o.trace_instrs) ∧
      s.tracing_done = true ∧ s.closes = 1 := by
  obtain ⟨sT, fT, hsT, -, -, -, j4, j5, -, j7⟩ :=
    instruction_stream_window arch o h1 hT addr size ha evs hev
      (o.skip + o.trace_instrs + 1) (le_refl _)
  obtain ⟨sw, fw, hsw, -, -, w3, -, -, w6, w7⟩ :=
    instruction_stream_window arch o h1 hT addr size ha evs hev
      (o.skip + o.trace_instrs) (by omega)
  have m1 : min (o.skip + o.trace_instrs + 1) (o.skip + o.trace_instrs) - o.skip =
      o.trace_instrs := by omega
  have m2 : min (o.skip + o.trace_instrs) (o.skip + o.trace_instrs) - o.skip =
      o.trace_instrs := by omega
  rw [m1] at j7
  rw [m2] at w7
  have hd : sT.tracing_done = true := j4.mpr (le_refl _)
  have hc : sT.closes = 1 := by rw [j5, if_pos (le_refl _)]
  obtain ⟨s, hs, g2, g3⟩ := instruction_stream_done arch o addr size evs hev
    (o.skip + o.trace_instrs + 1) (by omega) sT fT hsT hd hc N hN
  refine ⟨s, sw, fT, hs, j7, ?_, ?_, ?_, w3.mpr ⟨by omega, le_refl _⟩, ?_, g2, g3⟩
  · rw [j7, List.length_map, List.length_range']
  · intro k k1 k2
    obtain ⟨sk, fk, hk, -, -, -, -, -, k6, -⟩ :=
      instruction_stream_window arch o h1 hT addr size ha evs hev k (by omega)
    have e1 : (accumulated arch o addr size evs k).ip = addr k := by
      rw [accumulated_eq arch o addr size evs k sk fk hk, k6, if_neg (by omega)]
      congr 1
      omega
    exact ⟨e1, by rw [wire_ip, e1]⟩
  · rw [hsw, w7, j7]
  · rw [w6, if_neg (by omega)]
    congr 1
    omega

theorem record_count_witness :
    ∃ s file, instruction_stream Arch.arm64 scenario_options sample_stream (fun _ => 4)
        sample_events 7 = some (s, file) ∧
      file.length = 5 ∧ s.tracing_done = true ∧ s.closes = 1 ∧
      (accumulated Arch.arm64 scenario_options sample_stream (fun _ => 4)
        sample_events 6).ip = 0x1018 := by
  obtain ⟨s, sw, file, a1, -, a3, a4, -, -, -, a8, a9⟩ :=
    record_count Arch.arm64 scenario_options (by decide) (by decide)
      sample_stream (fun _ => 4) sample_stream_nonzero sample_events
      (fun k e he => ⟨(sample_events_accumulate k e he).1,
        fun _ => (sample_events_accumulate k e he).2⟩) 7 (by decide)
  exact ⟨s, file, a1, a3, a8, a9, (a4 6 (by decide) (by decide)).1⟩

/-- C26 (counterexample): skip 1 and trace count `2 ^ 64 - 1`, both values the
options take, with exit-after-tracing disabled.  The sum `skip + trace + 1`
wraps to 1, so at the first boundary `inc_inst` sets `tracing` because the
counter equals `skip` and, in the same call, clears it, sets `tracing_done`
and closes the descriptor because the counter equals the wrapped sum; the
counter meets `skip` only together with the wrapped sum, so `inc_inst` leaves
`tracing` false at every boundary.  After a stream of
`2 ^ 64 + 1 = skip + trace + 1` instructions at nonzero addresses the trace
file is empty and nothing was handed to `VG_(write)`: no record, not
`2 ^ 64 - 1`. -/
theorem record_count_sum_wraps :
    1 + (2 ^ 64 - 1) + 1 ≤ 2 ^ 64 + 1 ∧
    ∃ s file, instruction_stream Arch.arm64
        { skip := 1, trace_instrs := 2 ^ 64 - 1, exit_after_tracing := false }
        sample_stream (fun _ => 4) sample_events (2 ^ 64 + 1) = some (s, file) ∧
      file = [] ∧ s.writes = [] ∧ file.length ≠ 2 ^ 64 - 1 := by
  refine ⟨by decide, ?_⟩
  obtain ⟨t, h1, -, h3⟩ := instruction_stream_shut Arch.arm64
    { skip := 1, trace_instrs := 2 ^ 64 - 1, exit_after_tracing := false } (by decide)
    sample_stream (fun _ => 4) sample_events
    (fun k e he => (sample_events_accumulate k e he).1) (2 ^ 64 + 1)
  exact ⟨t, [], h1, rfl, h3, by decide⟩

end cstracer

namespace ctlite

/-! ## Lite mode: one event -/

theorem table_entry_bytes (t : Fin 1024 → Nat) (i : Fin 1024) (h : t i < 2 ^ 32) :
    table_entry (table_bytes t) i.val = t i := by
  have g : ∀ j : Nat, (hj : j < 4) → (table_bytes t).getD (4 * i.val + j) 0 =
      (t i / 256 ^ j) % 256 := by
    intro j hj
    have hk : 4 * i.val + j < 4096 := by have := i.isLt; omega
    unfold table_bytes
    rw [List.getD_eq_getElem _ _ (by rw [List.length_ofFn]; exact hk), List.getElem_ofFn]
    have e1 : (4 * i.val + j) / 4 = i.val := by omega
    have e2 : (4 * i.val + j) % 4 = j := by omega
    simp only [e1, e2]
  have g0 := g 0 (by omega)
  have g1 := g 1 (by omega)
  have g2 := g 2 (by omega)
  have g3 := g 3 (by omega)
  simp only [Nat.add_zero] at g0
  unfold table_entry
  rw [g0, g1, g2, g3]
  generalize t i = v at h ⊢
  norm_num
  omega

theorem trace_instr_general (o : Options) (hh : 1 ≤ o.heartbeat) (a z : Nat) (s : State) :
    trace_instr o a z s =
      if (s.instructions + 1) % 2 ^ 64 % o.heartbeat = 0 then
        some (flush
          { s with
            instructions := (s.instructions + 1) % 2 ^ 64,
            Imap := Function.update s.Imap (bucket o.IShiftSize a)
              ((s.Imap (bucket o.IShiftSize a) + 1) % 2 ^ 32) })
      else
        some
          { s with
            instructions := (s.instructions + 1) % 2 ^ 64,
            Imap := Function.update s.Imap (bucket o.IShiftSize a)
              ((s.Imap (bucket o.IShiftSize a) + 1) % 2 ^ 32) } := by
  unfold trace_instr
  simp only
  rw [if_neg (by omega)]

theorem trace_instr_quiet (o : Options) (hh : 1 ≤ o.heartbeat) (a z : Nat) (s : State)
    (hlt : s.instructions + 1 < 2 ^ 64) (hnd : ¬ o.heartbeat ∣ s.instructions + 1) :
    trace_instr o a z s =
      some
        { s with
          instructions := s.instructions + 1,
          Imap := Function.update s.Imap (bucket o.IShiftSize a)
            ((s.Imap (bucket o.IShiftSize a) + 1) % 2 ^ 32) } := by
  rw [trace_instr_general o hh, Nat.mod_eq_of_lt hlt,
    if_neg (fun h => hnd (Nat.dvd_of_mod_eq_zero h))]

theorem trace_instr_flush (o : Options) (hh : 1 ≤ o.heartbeat) (a z : Nat) (s : State)
    (hlt : s.instructions + 1 < 2 ^ 64) (hd : o.heartbeat ∣ s.instructions + 1) :
    trace_instr o a z s =
      some (flush
        { s with
          instructions := s.instructions + 1,
          Imap := Function.update s.Imap (bucket o.IShiftSize a)
            ((s.Imap (bucket o.IShiftSize a) + 1) % 2 ^ 32) }) := by
  rw [trace_instr_general o hh, Nat.mod_eq_of_lt hlt, if_pos (Nat.mod_eq_zero_of_dvd hd)]

theorem trace_branch_conditional_tally (ci guard : Bool) (s : State) :
    (trace_branch_conditional ci guard s).instructions = s.instructions ∧
    (trace_branch_conditional ci guard s).Imap = s.Imap ∧
    (trace_branch_conditional ci guard s).Mmap = s.Mmap ∧
    (trace_branch_conditional ci guard s).writes = s.writes ∧
    ((trace_branch_conditional ci guard s).TBranches =
      if xor guard ci then (s.TBranches + 1) % 2 ^ 32 else s.TBranches) ∧
    ((trace_branch_conditional ci guard s).UBranches =
      if xor guard ci then s.UBranches else (s.UBranches + 1) % 2 ^ 32) := by
  cases ci <;> cases guard <;> simp [trace_branch_conditional]

theorem run_append (o : Options) (es1 es2 : List Event) :
    ∀ s, run o (es1 ++ es2) s = (run o es1 s).bind (run o es2) := by
  induction es1 with
  | nil => intro s; rfl
  | cons e es ih =>
    intro s
    simp only [List.cons_append, run]
    cases e.apply o s with
    | none => rfl
    | some u => exact ih u

theorem add_one_mod (x c : Nat) : ((x + 1) % 2 ^ 32 + c) % 2 ^ 32 = (x + (1 + c)) % 2 ^ 32 := by
  omega

/-- A run in which no instruction count reaches a multiple of the heartbeat
writes nothing and adds, modulo `2 ^ 32`, each event to its counter. -/
theorem run_quiet (o : Options) (hh : 1 ≤ o.heartbeat) (es : List Event) :
    ∀ s : State, s.in_range →
      (∀ k, 1 ≤ k → k ≤ instr_count es → ¬ o.heartbeat ∣ s.instructions + k) →
      s.instructions + instr_count es < 2 ^ 64 →
      ∃ t, run o es s = some t ∧ t.in_range ∧
        t.instructions = s.instructions + instr_count es ∧
        (∀ i, t.Imap i = (s.Imap i + code_count o es i) % 2 ^ 32) ∧
        (∀ i, t.Mmap i = (s.Mmap i + data_count o es i) % 2 ^ 32) ∧
        t.TBranches = (s.TBranches + taken_count es) % 2 ^ 32 ∧
        t.UBranches = (s.UBranches + untaken_count es) % 2 ^ 32 ∧
        t.writes = s.writes := by
  induction es with
  | nil =>
    intro s hr _ _
    obtain ⟨r1, r2, r3, r4, r5⟩ := hr
    refine ⟨s, rfl, ⟨r1, r2, r3, r4, r5⟩, rfl, ?_, ?_, ?_, ?_, rfl⟩
    · intro i; exact (Nat.mod_eq_of_lt (r4 i)).symm
    · intro i; exact (Nat.mod_eq_of_lt (r5 i)).symm
    · exact (Nat.mod_eq_of_lt r2).symm
    · exact (Nat.mod_eq_of_lt r3).symm
  | cons e es ih =>
    intro s hr hno hlt
    obtain ⟨r1, r2, r3, r4, r5⟩ := hr
    cases e with
    | instr a z =>
      have hc : instr_count (Event.instr a z :: es) = instr_count es + 1 := by
        simp [instr_count, Event.is_instr]
      rw [hc] at hno hlt
      have hq := trace_instr_quiet o hh a z s (by omega) (hno 1 (le_refl _) (by omega))
      obtain ⟨t, t0, t1, t2, t3, t4, t5, t6, t7⟩ := ih
        { s with
          instructions := s.instructions + 1,
          Imap := Function.update s.Imap (bucket o.IShiftSize a)
            ((s.Imap (bucket o.IShiftSize a) + 1) % 2 ^ 32) }
        ⟨by show s.instructions + 1 < 2 ^ 64; omega, r2, r3, fun i => by
          show Function.update s.Imap _ _ i < 2 ^ 32
          by_cases c : i = bucket o.IShiftSize a
          · rw [c, Function.update_same]; exact Nat.mod_lt _ (by decide)
          · rw [Function.update_noteq c]; exact r4 i, r5⟩
        (fun k k1 k2 => by
          have := hno (k + 1) (by omega) (by omega)
          show ¬ o.heartbeat ∣ s.instructions + 1 + k
          rwa [Nat.add_assoc, Nat.add_comm 1 k])
        (by show s.instructions + 1 + instr_count es < 2 ^ 64; omega)
      refine ⟨t, ?_, t1, ?_, ?_, ?_, ?_, ?_, t7⟩
      · rw [run]
        show (trace_instr o a z s).bind (run o es) = some t
        rw [hq]; exact t0
      · rw [t2, hc]; show s.instructions + 1 + instr_count es = _; omega
      · intro i
        rw [t3 i]
        show (Function.update s.Imap _ _ i + code_count o es i) % 2 ^ 32 = _
        by_cases c : i = bucket o.IShiftSize a
        · subst c
          have e : code_count o (Event.instr a z :: es) (bucket o.IShiftSize a) =
              1 + code_count o es (bucket o.IShiftSize a) := by
            simp [code_count, Nat.add_comm]
          rw [Function.update_same, e, add_one_mod]
        · have e : code_count o (Event.instr a z :: es) i = code_count o es i := by
            simp [code_count, Ne.symm c]
          rw [Function.update_noteq c, e]
      · intro i
        rw [t4 i]
        have e : data_count o (Event.instr a z :: es) i = data_count o es i := by
          simp [data_count]
        rw [e]
      · rw [t5]
        have e : taken_count (Event.instr a z :: es) = taken_count es := by
          simp [taken_count]
        rw [e]
      · rw [t6]
        have e : untaken_count (Event.instr a z :: es) = untaken_count es := by
          simp [untaken_count]
        rw [e]
    | load a z =>
      have hc : instr_count (Event.load a z :: es) = instr_count es := by
        simp [instr_count, Event.is_instr]
      rw [hc] at hno hlt
      obtain ⟨t, t0, t1, t2, t3, t4, t5, t6, t7⟩ := ih (trace_load o a z s)
        ⟨r1, r2, r3, r4, fun i => by
          show Function.update s.Mmap _ _ i < 2 ^ 32
          by_cases c : i = bucket o.MShiftSize a
          · rw [c, Function.update_same]; exact Nat.mod_lt _ (by decide)
          · rw [Function.update_noteq c]; exact r5 i⟩ hno hlt
      refine ⟨t, t0, t1, by rw [t2, hc]; rfl, ?_, ?_, ?_, ?_, t7⟩
      · intro i
        have e : code_count o (Event.load a z :: es) i = code_count o es i := by
          simp [code_count]
        rw [t3 i, e]; rfl
      · intro i
        rw [t4 i]
        show (Function.update s.Mmap _ _ i + data_count o es i) % 2 ^ 32 = _
        by_cases c : i = bucket o.MShiftSize a
        · subst c
          have e : data_count o (Event.load a z :: es) (bucket o.MShiftSize a) =
              1 + data_count o es (bucket o.MShiftSize a) := by
            simp [data_count, Nat.add_comm]
          rw [Function.update_same, e, add_one_mod]
        · have e : data_count o (Event.load a z :: es) i = data_count o es i := by
            simp [data_count, Ne.symm c]
          rw [Function.update_noteq c, e]
      · have e : taken_count (Event.load a z :: es) = taken_count es := by
          simp [taken_count]
        rw [t5, e]; rfl
      · have e : untaken_count (Event.load a z :: es) = untaken_count es := by
          simp [untaken_count]
        rw [t6, e]; rfl
    | store a z =>
      have hc : instr_count (Event.store a z :: es) = instr_count es := by
        simp [instr_count, Event.is_instr]
      rw [hc] at hno hlt
      obtain ⟨t, t0, t1, t2, t3, t4, t5, t6, t7⟩ := ih (trace_store o a z s)
        ⟨r1, r2, r3, r4, fun i => by
          show Function.update s.Mmap _ _ i < 2 ^ 32
          by_cases c : i = bucket o.MShiftSize a
          · rw [c, Function.update_same]; exact Nat.mod_lt _ (by decide)
          · rw [Function.update_noteq c]; exact r5 i⟩ hno hlt
      refine ⟨t, t0, t1, by rw [t2, hc]; rfl, ?_, ?_, ?_, ?_, t7⟩
      · intro i
        have e : code_count o (Event.store a z :: es) i = code_count o es i := by
          simp [code_count]
        rw [t3 i, e]; rfl
      · intro i
        rw [t4 i]
        show (Function.update s.Mmap _ _ i + data_count o es i) % 2 ^ 32 = _
        by_cases c : i = bucket o.MShiftSize a
        · subst c
          have e : data_count o (Event.store a z :: es) (bucket o.MShiftSize a) =
              1 + data_count o es (bucket o.MShiftSize a) := by
            simp [data_count, Nat.add_comm]
          rw [Function.update_same, e, add_one_mod]
        · have e : data_count o (Event.store a z :: es) i = data_count o es i := by
            simp [data_count, Ne.symm c]
          rw [Function.update_noteq c, e]
      · have e : taken_count (Event.store a z :: es) = taken_count es := by
          simp [taken_count]
        rw [t5, e]; rfl
      · have e : untaken_count (Event.store a z :: es) = untaken_count es := by
          simp [untaken_count]
        rw [t6, e]; rfl
    | branch ci guard =>
      have hc : instr_count (Event.branch ci guard :: es) = instr_count es := by
        simp [instr_count, Event.is_instr]
      rw [hc] at hno hlt
      have hb := trace_branch_conditional_tally ci guard s
      obtain ⟨b1, b2, b3, b4, b5, b6⟩ := hb
      obtain ⟨t, t0, t1, t2, t3, t4, t5, t6, t7⟩ := ih (trace_branch_conditional ci guard s)
        ⟨by rw [b1]; exact r1, by rw [b5]; split_ifs <;> omega,
          by rw [b6]; split_ifs <;> omega, by rw [b2]; exact r4,
          by rw [b3]; exact r5⟩
        (by rw [b1]; exact hno) (by rw [b1]; exact hlt)
      rw [b1] at t2
      rw [b4] at t7
      refine ⟨t, t0, t1, by rw [t2, hc], ?_, ?_, ?_, ?_, t7⟩
      · intro i
        have e : code_count o (Event.branch ci guard :: es) i = code_count o es i := by
          simp [code_count]
        rw [t3 i, e, b2]
      · intro i
        have e : data_count o (Event.branch ci guard :: es) i = data_count o es i := by
          simp [data_count]
        rw [t4 i, e, b3]
      · have e : taken_count (Event.branch ci guard :: es) =
            (if xor guard ci then 1 else 0) + taken_count es := by
          cases ci <;> cases guard <;> simp [taken_count, Nat.add_comm]
        rw [t5, b5, e]
        split_ifs <;> omega
      · have e : untaken_count (Event.branch ci guard :: es) =
            (if xor guard ci then 0 else 1) + untaken_count es := by
          cases ci <;> cases guard <;> simp [untaken_count, Nat.add_comm]
        rw [t6, b6, e]
        split_ifs <;> omega

/-! ## Lite mode: heartbeat intervals -/

theorem run_single (o : Options) (a z : Nat) (s : State) :
    run o [Event.instr a z] s = trace_instr o a z s := by
  simp only [run, Event.apply]
  cases trace_instr o a z s <;> rfl

/-- The block written at the end of an interval: from a state in range, after
events among which no instruction count reaches a multiple of the heartbeat,
the boundary event that completes the heartbeat writes the five buffers of the
counter, of the two tables and of the two tallies as the events of the
interval left them, this boundary event counted, and leaves tables and tallies
zero. -/
theorem interval_block (o : Options) (hh : 1 ≤ o.heartbeat) (s : State) (hr : s.in_range)
    (es : List Event) (a z : Nat)
    (hno : ∀ k, 1 ≤ k → k ≤ instr_count es → ¬ o.heartbeat ∣ s.instructions + k)
    (hlast : o.heartbeat ∣ s.instructions + instr_count es + 1)
    (hlt : s.instructions + instr_count es + 1 < 2 ^ 64) :
    ∃ (t : State) (M I : Fin 1024 → Nat),
      run o (es ++ [Event.instr a z]) s = some t ∧
      t.writes = s.writes ++
        [cstracer.le_bytes 8 (s.instructions + instr_count es + 1), table_bytes M,
          table_bytes I, cstracer.le_bytes 4 ((s.TBranches + taken_count es) % 2 ^ 32),
          cstracer.le_bytes 4 ((s.UBranches + untaken_count es) % 2 ^ 32)] ∧
      (∀ i, M i = (s.Mmap i + data_count o es i) % 2 ^ 32) ∧
      (∀ i, I i = (s.Imap i + code_count o (es ++ [Event.instr a z]) i) % 2 ^ 32) ∧
      t.instructions = s.instructions + instr_count es + 1 ∧
      (∀ i, t.Imap i = 0) ∧ (∀ i, t.Mmap i = 0) ∧ t.TBranches = 0 ∧ t.UBranches = 0 := by
  obtain ⟨u, u0, u1, u2, u3, u4, u5, u6, u7⟩ := run_quiet o hh es s hr hno (by omega)
  have hf := trace_instr_flush o hh a z u (by rw [u2]; exact hlt) (by rw [u2]; exact hlast)
  refine ⟨flush
      { u with
        instructions := u.instructions + 1,
        Imap := Function.update u.Imap (bucket o.IShiftSize a)
          ((u.Imap (bucket o.IShiftSize a) + 1) % 2 ^ 32) },
    u.Mmap, Function.update u.Imap (bucket o.IShiftSize a)
      ((u.Imap (bucket o.IShiftSize a) + 1) % 2 ^ 32), ?_, ?_, u4, ?_, ?_, ?_, ?_, rfl, rfl⟩
  · rw [run_append, u0]
    show run o [Event.instr a z] u = _
    rw [run_single, hf]
  · show u.writes ++ _ = _
    rw [u7]
    show s.writes ++ [cstracer.le_bytes 8 (u.instructions + 1), _, _,
      cstracer.le_bytes 4 u.TBranches, cstracer.le_bytes 4 u.UBranches] = _
    rw [u2, u5, u6]
  · intro i
    have e : code_count o (es ++ [Event.instr a z]) i =
        code_count o es i + (if bucket o.IShiftSize a = i then 1 else 0) := by
      simp [code_count, List.countP_append, List.countP_cons]
    rw [e]
    by_cases c : i = bucket o.IShiftSize a
    · subst c
      rw [Function.update_same, u3, if_pos rfl]
      omega
    · rw [Function.update_noteq c, u3, if_neg (Ne.symm c)]
      rfl
  · show u.instructions + 1 = _
    rw [u2]
  · intro i; rfl
  · intro i; rfl

/-- The number of buffers written by a run that starts with the count `n` and
ends with the count `N < 2 ^ 64`: five for each multiple of the heartbeat in
`(n, N]`. -/
theorem run_blocks (o : Options) (hh : 1 ≤ o.heartbeat) (es : List Event) :
    ∀ s : State, s.instructions + instr_count es < 2 ^ 64 →
      ∃ t, run o es s = some t ∧ t.instructions = s.instructions + instr_count es ∧
        t.writes.length = s.writes.length +
          5 * ((s.instructions + instr_count es) / o.heartbeat -
            s.instructions / o.heartbeat) := by
  induction es with
  | nil =>
    intro s _
    exact ⟨s, rfl, rfl, by simp [instr_count]⟩
  | cons e es ih =>
    intro s hlt
    cases e with
    | instr a z =>
      have hc : instr_count (Event.instr a z :: es) = instr_count es + 1 := by
        simp [instr_count, Event.is_instr]
      rw [hc] at hlt ⊢
      have hdiv := Nat.succ_div s.instructions o.heartbeat
      have hmono : (s.instructions + 1) / o.heartbeat ≤
          (s.instructions + 1 + instr_count es) / o.heartbeat :=
        Nat.div_le_div_right (by omega)
      have hassoc : s.instructions + (instr_count es + 1) =
          s.instructions + 1 + instr_count es := by omega
      by_cases hd : o.heartbeat ∣ s.instructions + 1
      · have hf := trace_instr_flush o hh a z s (by omega) hd
        obtain ⟨t, t0, t1, t2⟩ := ih
          (flush
            { s with
              instructions := s.instructions + 1,
              Imap := Function.update s.Imap (bucket o.IShiftSize a)
                ((s.Imap (bucket o.IShiftSize a) + 1) % 2 ^ 32) })
          (by show s.instructions + 1 + instr_count es < 2 ^ 64; omega)
        refine ⟨t, ?_, ?_, ?_⟩
        · rw [run]
          show (trace_instr o a z s).bind (run o es) = some t
          rw [hf]; exact t0
        · rw [t1]; show s.instructions + 1 + instr_count es = _; omega
        · rw [t2]
          show (s.writes ++ block _).length +
            5 * ((s.instructions + 1 + instr_count es) / o.heartbeat -
              (s.instructions + 1) / o.heartbeat) = _
          rw [List.length_append, hassoc]
          rw [if_pos hd] at hdiv
          have hb : ∀ u : State, (block u).length = 5 := fun _ => rfl
          rw [hb]
          omega
      · have hq := trace_instr_quiet o hh a z s (by omega) hd
        obtain ⟨t, t0, t1, t2⟩ := ih
          { s with
            instructions := s.instructions + 1,
            Imap := Function.update s.Imap (bucket o.IShiftSize a)
              ((s.Imap (bucket o.IShiftSize a) + 1) % 2 ^ 32) }
          (by show s.instructions + 1 + instr_count es < 2 ^ 64; omega)
        refine ⟨t, ?_, ?_, ?_⟩
        · rw [run]
          show (trace_instr o a z s).bind (run o es) = some t
          rw [hq]; exact t0
        · rw [t1]; show s.instructions + 1 + instr_count es = _; omega
        · rw [t2]
          show s.writes.length +
            5 * ((s.instructions + 1 + instr_count es) / o.heartbeat -
              (s.instructions + 1) / o.heartbeat) = _
          rw [hassoc]
          rw [if_neg hd] at hdiv
          omega
    | load a z =>
      have hc : instr_count (Event.load a z :: es) = instr_count es := by
        simp [instr_count, Event.is_instr]
      rw [hc] at hlt ⊢
      obtain ⟨t, t0, t1, t2⟩ := ih (trace_load o a z s) hlt
      exact ⟨t, t0, t1, t2⟩
    | store a z =>
      have hc : instr_count (Event.store a z :: es) = instr_count es := by
        simp [instr_count, Event.is_instr]
      rw [hc] at hlt ⊢
      obtain ⟨t, t0, t1, t2⟩ := ih (trace_store o a z s) hlt
      exact ⟨t, t0, t1, t2⟩
    | branch ci guard =>
      have hc : instr_count (Event.branch ci guard :: es) = instr_count es := by
        simp [instr_count, Event.is_instr]
      rw [hc] at hlt ⊢
      obtain ⟨b1, -, -, b4, -, -⟩ := trace_branch_conditional_tally ci guard s
      obtain ⟨t, t0, t1, t2⟩ := ih (trace_branch_conditional ci guard s)
        (by rw [b1]; exact hlt)
      rw [b1] at t1 t2
      rw [b4] at t2
      exact ⟨t, t0, t1, t2⟩

/-! ## Lite mode: the claims on the heartbeat -/

theorem instr_only_counts (o : Options) (es : List Event) (hes : ∀ e ∈ es, e.is_instr = true) :
    instr_count es = es.length ∧ (∀ i, data_count o es i = 0) ∧ taken_count es = 0 ∧
    untaken_count es = 0 := by
  refine ⟨List.countP_eq_length.mpr hes, ?_, ?_, ?_⟩
  · intro i
    apply List.countP_eq_zero.mpr
    intro e he
    have := hes e he
    cases e <;> simp_all [Event.is_instr]
  · apply List.countP_eq_zero.mpr
    intro e he
    have := hes e he
    cases e <;> simp_all [Event.is_instr]
  · apply List.countP_eq_zero.mpr
    intro e he
    have := hes e he
    cases e <;> simp_all [Event.is_instr]

theorem state_zero_in_range : State.zero.in_range :=
  ⟨by decide, by decide, by decide, fun _ => Nat.two_pow_pos 32, fun _ => Nat.two_pow_pos 32⟩

theorem table_bytes_zero_entry (i : Fin 1024) :
    table_entry (table_bytes (fun _ => 0)) i.val = 0 :=
  table_entry_bytes (fun _ => 0) i (Nat.two_pow_pos 32)

/-- C21 (as amended): lite mode, one heartbeat of bare instructions.  From the
all-zero state, for `1 <= heartbeat < 2 ^ 64`, after exactly `heartbeat`
instruction-boundary events and no other event, exactly one block of five
buffers has been written: the counter, equal to `heartbeat`; the data table,
every entry zero; the code table, entry `i` holding the number (modulo
`2 ^ 32`) of the events whose address falls in bucket `i`; the two tallies,
zero.  Afterwards tables and tallies are zero and the counter is `heartbeat`. -/
theorem heartbeat_block (o : Options) (hh : 1 ≤ o.heartbeat) (hlt : o.heartbeat < 2 ^ 64)
    (es : List Event) (hes : ∀ e ∈ es, e.is_instr = true) (hlen : es.length = o.heartbeat) :
    ∃ (t : State) (I : Fin 1024 → Nat),
      run o es State.zero = some t ∧
      t.writes =
        [cstracer.le_bytes 8 o.heartbeat, table_bytes (fun _ => 0), table_bytes I,
          cstracer.le_bytes 4 0, cstracer.le_bytes 4 0] ∧
      (∀ i, I i = code_count o es i % 2 ^ 32) ∧
      (∀ i : Fin 1024, table_entry (table_bytes I) i.val = code_count o es i % 2 ^ 32) ∧
      (∀ i : Fin 1024, table_entry (table_bytes (fun _ => 0)) i.val = 0) ∧
      t.instructions = o.heartbeat ∧
      (∀ i, t.Imap i = 0) ∧ (∀ i, t.Mmap i = 0) ∧ t.TBranches = 0 ∧ t.UBranches = 0 := by
  rcases List.eq_nil_or_concat es with h0 | ⟨init, last, hcat⟩
  · rw [h0] at hlen
    simp at hlen
    omega
  · rw [List.concat_eq_append] at hcat
    subst hcat
    have hlast : last.is_instr = true := hes last (by simp)
    have hinit : ∀ e ∈ init, e.is_instr = true := fun e he => hes e (by simp [he])
    obtain ⟨c1, c2, c3, c4⟩ := instr_only_counts o init hinit
    have hl : init.length + 1 = o.heartbeat := by simpa using hlen
    cases last with
    | instr a z =>
      obtain ⟨t, M, I, t0, t1, t2, t3, t4, t5, t6, t7, t8⟩ :=
        interval_block o hh State.zero state_zero_in_range init a z
          (fun k k1 k2 hd => by
            have hle := Nat.le_of_dvd (by show 0 < 0 + k; omega) hd
            have : (0 : Nat) + k = k := Nat.zero_add k
            change o.heartbeat ≤ 0 + k at hle
            omega)
          (by show o.heartbeat ∣ 0 + instr_count init + 1
              rw [c1, Nat.zero_add, hl])
          (by show 0 + instr_count init + 1 < 2 ^ 64; omega)
      have hM : M = fun _ => 0 := by
        funext i
        rw [t2 i, c2 i]
        rfl
      have hI : ∀ i, I i = code_count o (init ++ [Event.instr a z]) i % 2 ^ 32 := by
        intro i
        rw [t3 i]
        show (0 + _) % 2 ^ 32 = _
        rw [Nat.zero_add]
      refine ⟨t, I, t0, ?_, hI, ?_, table_bytes_zero_entry, ?_, t5, t6, t7, t8⟩
      · rw [t1, hM, c3, c4, c1]
        show [] ++ [cstracer.le_bytes 8 (0 + init.length + 1), _, _, _, _] = _
        rw [Nat.zero_add, hl]
        rfl
      · intro i
        rw [table_entry_bytes I i (by rw [hI i]; exact Nat.mod_lt _ (by decide)), hI i]
      · rw [t4, c1]
        show 0 + init.length + 1 = _
        omega
    | load a z => exact absurd hlast Bool.false_ne_true
    | store a z => exact absurd hlast Bool.false_ne_true
    | branch ci guard => exact absurd hlast Bool.false_ne_true

theorem heartbeat_block_witness :
    ∃ (t : State) (I : Fin 1024 → Nat),
      run { IShiftSize := 22, MShiftSize := 22, heartbeat := 2 }
        [Event.instr 0x400000 4, Event.instr 0x400004 4] State.zero = some t ∧
      t.writes =
        [cstracer.le_bytes 8 2, table_bytes (fun _ => 0), table_bytes I,
          cstracer.le_bytes 4 0, cstracer.le_bytes 4 0] ∧
      I 1 = 2 ∧ I 0 = 0 := by
  obtain ⟨t, I, h0, h1, h2, -⟩ :=
    heartbeat_block { IShiftSize := 22, MShiftSize := 22, heartbeat := 2 } (by decide)
      (by decide) [Event.instr 0x400000 4, Event.instr 0x400004 4] (by decide) rfl
  exact ⟨t, I, h0, h1, by rw [h2]; rfl, by rw [h2]; rfl⟩

/-- C21 (counterexample): with heartbeat 1, after one instruction-boundary
event at address 0 from the all-zero state, the block written has a code table
whose entry 0 reads 1: the boundary event is counted in its bucket before the
block is written, so the instruction counter is not the only nonzero value. -/
theorem heartbeat_block_code_entry :
    ∃ (t : State) (I : Fin 1024 → Nat),
      run { IShiftSize := 22, MShiftSize := 22, heartbeat := 1 } [Event.instr 0 4]
        State.zero = some t ∧
      t.writes =
        [cstracer.le_bytes 8 1, table_bytes (fun _ => 0), table_bytes I,
          cstracer.le_bytes 4 0, cstracer.le_bytes 4 0] ∧
      table_entry (table_bytes I) 0 = 1 := by
  obtain ⟨t, M, I, t0, t1, t2, t3, -⟩ :=
    interval_block { IShiftSize := 22, MShiftSize := 22, heartbeat := 1 } (by decide)
      State.zero state_zero_in_range [] 0 4 (fun k k1 k2 => by
        have : instr_count [] = 0 := rfl
        omega) (by decide) (by decide)
  have hM : M = fun _ => 0 := by
    funext i
    rw [t2 i]
    rfl
  have hI : I 0 = 1 := by rw [t3 0]; rfl
  refine ⟨t, I, t0, ?_, ?_⟩
  · rw [t1, hM]; rfl
  · have := table_entry_bytes I 0 (by rw [hI]; decide)
    rw [hI] at this
    exact this

/-- C22 (as amended): lite mode flush, for `heartbeat >= 1` and as long as the
64-bit counter has not wrapped.  A boundary event raises the counter by one and
writes a block exactly when the new count is a multiple of the heartbeat; the
block holds the counter, the two tables with this event counted, and the two
tallies, and after it every code bucket, every data bucket and both tallies
are 0 while the counter keeps its value.  Loads, stores and branches write
nothing.  From the all-zero state a run with `N < 2 ^ 64` boundary events has
written `N / heartbeat` blocks of five buffers; and from a state whose tables
and tallies are zero, the block that ends the interval holds exactly the
counts (modulo `2 ^ 32`) of the events of the interval. -/
theorem heartbeat_flush (o : Options) (hh : 1 ≤ o.heartbeat) :
    (∀ (s : State) (a z : Nat), s.instructions + 1 < 2 ^ 64 →
      ∃ t, trace_instr o a z s = some t ∧ t.instructions = s.instructions + 1 ∧
        (o.heartbeat ∣ s.instructions + 1 →
          t.writes = s.writes ++
            [cstracer.le_bytes 8 (s.instructions + 1), table_bytes s.Mmap,
              table_bytes (Function.update s.Imap (bucket o.IShiftSize a)
                ((s.Imap (bucket o.IShiftSize a) + 1) % 2 ^ 32)),
              cstracer.le_bytes 4 s.TBranches, cstracer.le_bytes 4 s.UBranches] ∧
          (∀ i, t.Imap i = 0) ∧ (∀ i, t.Mmap i = 0) ∧ t.TBranches = 0 ∧ t.UBranches = 0) ∧
        (¬ o.heartbeat ∣ s.instructions + 1 → t.writes = s.writes)) ∧
    (∀ (s : State) (a z : Nat) (ci guard : Bool),
      (trace_load o a z s).writes = s.writes ∧ (trace_store o a z s).writes = s.writes ∧
      (trace_branch_conditional ci guard s).writes = s.writes) ∧
    (∀ es : List Event, instr_count es < 2 ^ 64 →
      ∃ t, run o es State.zero = some t ∧ t.instructions = instr_count es ∧
        t.writes.length = 5 * (instr_count es / o.heartbeat)) ∧
    (∀ (s : State) (es : List Event) (a z : Nat), s.in_range →
      (∀ i, s.Imap i = 0) → (∀ i, s.Mmap i = 0) → s.TBranches = 0 → s.UBranches = 0 →
      (∀ k, 1 ≤ k → k ≤ instr_count es → ¬ o.heartbeat ∣ s.instructions + k) →
      o.heartbeat ∣ s.instructions + instr_count es + 1 →
      s.instructions + instr_count es + 1 < 2 ^ 64 →
      ∃ (t : State) (M I : Fin 1024 → Nat),
        run o (es ++ [Event.instr a z]) s = some t ∧
        t.writes = s.writes ++
          [cstracer.le_bytes 8 (s.instructions + instr_count es + 1), table_bytes M,
            table_bytes I, cstracer.le_bytes 4 (taken_count es % 2 ^ 32),
            cstracer.le_bytes 4 (untaken_count es % 2 ^ 32)] ∧
        (∀ i, M i = data_count o es i % 2 ^ 32) ∧
        (∀ i, I i = code_count o (es ++ [Event.instr a z]) i % 2 ^ 32)) := by
  refine ⟨?_, ?_, ?_, ?_⟩
  · intro s a z hlt
    by_cases hd : o.heartbeat ∣ s.instructions + 1
    · rw [trace_instr_flush o hh a z s hlt hd]
      exact ⟨_, rfl, rfl, fun _ => ⟨rfl, fun _ => rfl, fun _ => rfl, rfl, rfl⟩,
        fun h => absurd hd h⟩
    · rw [trace_instr_quiet o hh a z s hlt hd]
      exact ⟨_, rfl, rfl, fun h => absurd h hd, fun _ => rfl⟩
  · intro s a z ci guard
    exact ⟨rfl, rfl, (trace_branch_conditional_tally ci guard s).2.2.2.1⟩
  · intro es hlt
    obtain ⟨t, t0, t1, t2⟩ := run_blocks o hh es State.zero
      (by show 0 + instr_count es < 2 ^ 64; omega)
    refine ⟨t, t0, ?_, ?_⟩
    · rw [t1]; show 0 + instr_count es = _; omega
    · rw [t2]
      show 0 + 5 * ((0 + instr_count es) / o.heartbeat - 0 / o.heartbeat) = _
      rw [Nat.zero_add, Nat.zero_add, Nat.zero_div, Nat.sub_zero]
  · intro s es a z hr hI hM hT hU hno hlast hlt
    obtain ⟨t, M, I, t0, t1, t2, t3, -⟩ := interval_block o hh s hr es a z hno hlast hlt
    refine ⟨t, M, I, t0, ?_, ?_, ?_⟩
    · rw [t1, hT, hU, Nat.zero_add, Nat.zero_add]
    · intro i; rw [t2 i, hM i, Nat.zero_add]
    · intro i; rw [t3 i, hI i, Nat.zero_add]

theorem heartbeat_flush_witness :
    (∃ t, run { IShiftSize := 22, MShiftSize := 22, heartbeat := 2 }
        [Event.instr 0x400000 4, Event.load 0x800000 8, Event.instr 0x400004 4,
          Event.branch false true, Event.instr 0x400008 4] State.zero = some t ∧
      t.instructions = 3 ∧ t.writes.length = 5) := by
  obtain ⟨t, t0, t1, t2⟩ :=
    (heartbeat_flush { IShiftSize := 22, MShiftSize := 22, heartbeat := 2 } (by decide)).2.2.1
      [Event.instr 0x400000 4, Event.load 0x800000 8, Event.instr 0x400004 4,
        Event.branch false true, Event.instr 0x400008 4] (by decide)
  exact ⟨t, t0, t1, t2⟩

theorem instr_count_replicate (n a z : Nat) :
    instr_count (List.replicate n (Event.instr a z)) = n := by
  rw [instr_count, List.countP_replicate]
  rfl

/-- C22 (counterexample): with heartbeat 3, after `2 ^ 64 - 1` boundary events
from the all-zero state the counter holds `2 ^ 64 - 1`; the next boundary
event, the `2 ^ 64`-th, wraps the counter to 0 and writes a block, although
`2 ^ 64` is not a multiple of 3 and the count 0 is not a positive multiple. -/
theorem heartbeat_flush_at_wrap :
    ¬ (3 ∣ 2 ^ 64) ∧
    ∃ s t : State,
      run { IShiftSize := 22, MShiftSize := 22, heartbeat := 3 }
        (List.replicate (2 ^ 64 - 1) (Event.instr 0 4)) State.zero = some s ∧
      s.instructions = 2 ^ 64 - 1 ∧
      trace_instr { IShiftSize := 22, MShiftSize := 22, heartbeat := 3 } 0 4 s = some t ∧
      t.instructions = 0 ∧ t.writes.length = s.writes.length + 5 := by
  refine ⟨by decide, ?_⟩
  obtain ⟨s, s0, s1, -⟩ := run_blocks { IShiftSize := 22, MShiftSize := 22, heartbeat := 3 }
    (by decide) (List.replicate (2 ^ 64 - 1) (Event.instr 0 4)) State.zero
    (by rw [instr_count_replicate]; decide)
  rw [instr_count_replicate] at s1
  have hs : s.instructions = 2 ^ 64 - 1 := by rw [s1]; rfl
  have hg := trace_instr_general { IShiftSize := 22, MShiftSize := 22, heartbeat := 3 }
    (by decide) 0 4 s
  have hw : (s.instructions + 1) % 2 ^ 64 = 0 := by rw [hs]; decide
  rw [hw, if_pos (by decide)] at hg
  refine ⟨s, _, s0, hs, hg, rfl, ?_⟩
  show (s.writes ++ block _).length = _
  rw [List.length_append]
  rfl

/-! ## Lite mode: bucketing -/

/-- C23 (as amended): lite mode bucketing, for `heartbeat >= 1`.  A boundary
event at address `a` that does not complete a heartbeat adds one (modulo
`2 ^ 32`) to the code-table entry `(a >> code_shift) % 1024` and leaves every
other code entry, every data entry and both tallies as they are; a boundary
event that completes a heartbeat writes the tables with that increment and
then leaves every entry zero.  A load and a store at address `d` add one to
the data-table entry `(d >> data_shift) % 1024` and change nothing else,
whatever the size.  The index is below 1024. -/
theorem bucket_increment (o : Options) (hh : 1 ≤ o.heartbeat) (s : State) :
    (∀ a z : Nat, (s.instructions + 1) % 2 ^ 64 % o.heartbeat ≠ 0 →
      ∃ t, trace_instr o a z s = some t ∧
        t.Imap (bucket o.IShiftSize a) = (s.Imap (bucket o.IShiftSize a) + 1) % 2 ^ 32 ∧
        (∀ i, i ≠ bucket o.IShiftSize a → t.Imap i = s.Imap i) ∧
        t.Mmap = s.Mmap ∧ t.TBranches = s.TBranches ∧ t.UBranches = s.UBranches ∧
        t.writes = s.writes) ∧
    (∀ a z : Nat, (s.instructions + 1) % 2 ^ 64 % o.heartbeat = 0 →
      ∃ t, trace_instr o a z s = some t ∧
        t.writes = s.writes ++
          [cstracer.le_bytes 8 ((s.instructions + 1) % 2 ^ 64), table_bytes s.Mmap,
            table_bytes (Function.update s.Imap (bucket o.IShiftSize a)
              ((s.Imap (bucket o.IShiftSize a) + 1) % 2 ^ 32)),
            cstracer.le_bytes 4 s.TBranches, cstracer.le_bytes 4 s.UBranches] ∧
        (∀ i, t.Imap i = 0) ∧ (∀ i, t.Mmap i = 0)) ∧
    (∀ d z : Nat,
      (trace_load o d z s).Mmap (bucket o.MShiftSize d) =
        (s.Mmap (bucket o.MShiftSize d) + 1) % 2 ^ 32 ∧
      (∀ i, i ≠ bucket o.MShiftSize d → (trace_load o d z s).Mmap i = s.Mmap i) ∧
      (trace_load o d z s).Imap = s.Imap ∧
      (trace_load o d z s).instructions = s.instructions ∧
      (trace_load o d z s).TBranches = s.TBranches ∧
      (trace_load o d z s).UBranches = s.UBranches ∧
      (trace_load o d z s).writes = s.writes ∧
      trace_store o d z s = trace_load o d z s ∧
      ∀ z2, trace_load o d z2 s = trace_load o d z s) ∧
    (∀ shift a : Nat, (bucket shift a).val = ((a % 2 ^ 64) >>> shift) % 1024 ∧
      (bucket shift a).val < 1024 ∧
      (a < 2 ^ 64 → (bucket shift a).val = (a >>> shift) % 1024)) := by
  refine ⟨?_, ?_, ?_, ?_⟩
  · intro a z hq
    rw [trace_instr_general o hh a z s, if_neg hq]
    exact ⟨_, rfl, Function.update_same _ _ _, fun i hi => Function.update_noteq hi _ _,
      rfl, rfl, rfl, rfl⟩
  · intro a z hq
    rw [trace_instr_general o hh a z s, if_pos hq]
    exact ⟨_, rfl, rfl, fun _ => rfl, fun _ => rfl⟩
  · intro d z
    exact ⟨Function.update_same _ _ _, fun i hi => Function.update_noteq hi _ _,
      rfl, rfl, rfl, rfl, rfl, rfl, fun _ => rfl⟩
  · intro shift a
    refine ⟨rfl, (bucket shift a).isLt, fun ha => ?_⟩
    show ((a % 2 ^ 64) >>> shift) % 1024 = _
    rw [Nat.mod_eq_of_lt ha]

theorem bucket_increment_witness :
    ∃ t, trace_instr Options.default 0x401000 4 State.zero = some t ∧
      t.Imap 1 = 1 ∧ t.Imap 0 = 0 ∧ t.writes = [] := by
  obtain ⟨t, t0, t1, t2, -, -, -, t6⟩ :=
    (bucket_increment Options.default (by decide) State.zero).1 0x401000 4 (by decide)
  exact ⟨t, t0, t1, t2 0 (by decide), t6⟩

/-- C23 (counterexample): with heartbeat 1 the boundary event at address 0
from the all-zero state completes a heartbeat: after it the code-table entry
of its bucket is 0, not 1; the increment is in the block written, and the
tables are reset in the same call. -/
theorem bucket_reset_at_flush :
    ∃ t, trace_instr { IShiftSize := 22, MShiftSize := 22, heartbeat := 1 } 0 4 State.zero =
        some t ∧
      t.Imap (bucket 22 0) = 0 ∧ (State.zero.Imap (bucket 22 0) + 1) % 2 ^ 32 = 1 ∧
      t.writes.length = 5 := by
  have hg := trace_instr_general { IShiftSize := 22, MShiftSize := 22, heartbeat := 1 }
    (by decide) 0 4 State.zero
  rw [if_pos (by decide)] at hg
  exact ⟨_, hg, rfl, by decide, rfl⟩

end ctlite
